import Mathlib

/-!
# Fixed-point (32.32) arithmetic of `math-sll.h` and its Lua bindings

A shallow embedding of the scalar core (`math-sll.h`, `lua_fixmath.c`) and of the
vector constructors and operations (`lua_fix_vec2.c`, `lua_fix_vec3.c`).

Conventions of the embedding.

* An `sll` (C `int64_t`) is an `Int`; every operation that can leave the 64-bit range
  is followed by `wrap64`, the two's-complement reduction into `[-2^63, 2^63)`.
* An `ull` (C `uint64_t`) is a `Nat` below `2^64`; `toU64` is the C conversion
  `sll → ull`.
* A finite C `double` is the rational number it denotes.  Every arithmetic operation on
  doubles is the exact operation on `ℚ` followed by `fl`, the rounding to the nearest
  binary64 value, ties to even; a decimal literal is the rounding of its decimal value (`0.5`
  is `1/2`, `0.2` is `fl (1/5)`).  The exponent range is not bounded above: a product that
  overflows to an infinity in C is a finite value of the same sign at least as large as every
  bound it is compared with, and takes the same branches.  NaN is not a value of the model,
  and every operation is evaluated in binary64 (no wider intermediate format).
* The conversion `(int) d` of a double truncates toward zero and is undefined in C when the
  truncated value is not an `int`; the model reports that case as `Failure.undefinedCast`.
  The conversion `(int) n` of a 64-bit `lua_Integer` keeps the low 32 bits (`narrowInt`).
* `luaL_error` is the `Except.error` result; the userdata plumbing (`push_fix`,
  `luaL_testudata`) is the identity on the carried value.
* A function that writes through a pointer operand returns the new content of the object
  (together with its pushed value, if any).
* The primitives whose bodies are not among the sources (`sllinv`, `sllasin`, `slld2dsqrt`,
  ...) are parameters of the definitions that call them; an accuracy contract on them is a
  hypothesis of the statement that needs it, relative to the ideal primitives `sqrtIdeal` and
  `invIdeal`.
-/

namespace FixMath

/-! ## Machine integers -/

/-- Two's-complement reduction of an integer to the range of `int64_t`. -/
def wrap64 (x : Int) : Int := (x + 2 ^ 63) % 2 ^ 64 - 2 ^ 63

/-- Conversion `sll → ull` (reduction modulo `2^64`). -/
def toU64 (x : Int) : Nat := (x % 2 ^ 64).toNat

/-- Membership in the value range of `sll`. -/
def IsSll (x : Int) : Prop := -2 ^ 63 ≤ x ∧ x < 2 ^ 63

instance (x : Int) : Decidable (IsSll x) := by unfold IsSll; infer_instance

/-! ## Constants of `math-sll.h` -/

/-- Constant `#define CONST_0 0x0000000000000000LL`. -/
def CONST_0 : Int := 0x0000000000000000

/-- Constant `#define CONST_1 0x0000000100000000LL`. -/
def CONST_1 : Int := 0x0000000100000000

/-- Table `static int _mul[] = {1, 10, 100, 1000, 10000, 100000, 1000000};`. -/
def _mul : List Int := [1, 10, 100, 1000, 10000, 100000, 1000000]

/-! ## Conversions, integer and fractional part -/

/-- Macro `#define _int2sll(X) (((sll) (X)) << 32)`; the left shift is multiplication by `2^32`. -/
def int2sll (i : Int) : Int := wrap64 (i * 2 ^ 32)

/-- Macro `#define _sllint(X) ((X) & 0xffffffff00000000LL)`: the mask does not fit `long long`,
so the conjunction is taken on `ull` and converted back to `sll` by the caller. -/
def sllint (s : Int) : Int := wrap64 ((toU64 s &&& 0xffffffff00000000 : Nat) : Int)

/-- Macro `#define _sllfrac(X) ((X) & 0x00000000ffffffffLL)`. -/
def sllfrac (s : Int) : Int := wrap64 ((toU64 s &&& 0x00000000ffffffff : Nat) : Int)

/-! ## Addition, negation, subtraction -/

/-- Macro `#define _slladd(X,Y) ((X) + (Y))` on 64-bit words. -/
def slladd (x y : Int) : Int := wrap64 (x + y)

/-- Macro `#define _sllneg(X) (-(X))` on 64-bit words. -/
def sllneg (s : Int) : Int := wrap64 (-s)

/-- Macro `#define _sllsub(X,Y) ((X) - (Y))` on 64-bit words. -/
def sllsub (x y : Int) : Int := wrap64 (x - y)

/-! ## Multiplication -/

/-- Modelled from the spec: the body of `sllmul` (declared `sll sllmul(sll x, sll y);` in
`math-sll.h`) is not among the sources.  This is the decomposition documented above the
prototype: with `a = A * 2^32 + a_h + a_l * 2^-32` (`A` the sign, `0` or `-1`; `a_h` the
unsigned 32-bit integer part; `a_l` the fractional part) and likewise `b`, the result keeps
the low 32 bits of `A * b_l + a_h * b_h + a_l * B` at weight `2^0`, all 64 bits of
`a_h * b_l + a_l * b_h` at weight `2^-32` and the high 32 bits of `a_l * b_l` at weight
`2^-64`; the `2^64` and `2^32` terms are dropped. -/
def sllmul (a b : Int) : Int :=
  let A : Int := if a < 0 then -1 else 0
  let B : Int := if b < 0 then -1 else 0
  let a_h : Int := a % 2 ^ 64 / 2 ^ 32
  let b_h : Int := b % 2 ^ 64 / 2 ^ 32
  let a_l : Int := a % 2 ^ 32
  let b_l : Int := b % 2 ^ 32
  wrap64 ((A * b_l + a_h * b_h + a_l * B) % 2 ^ 32 * 2 ^ 32
          + (a_h * b_l + a_l * b_h) % 2 ^ 64
          + a_l * b_l / 2 ^ 32)

/-- The reference multiply in the words of the spec ("a genuine 128-bit intermediate for the
same output bits"): the exact signed product of the raw operands, which fits 128 bits,
shifted right arithmetically by 32 and truncated to 64 bits. -/
def mulWide128 (a b : Int) : Int := wrap64 ((a * b) >>> (32 : Nat))

/-! ## Shifts -/

/-- Macro `#define _sllmul2n(X,N) ((X) << (N))`: multiplication by `2^N`, kept to 64 bits. -/
def sllmul2n (x : Int) (n : Nat) : Int := wrap64 (x * 2 ^ n)

/-- Macro `#define _slldiv2n(X,N) ((X) >> (N))`: the arithmetic right shift of a signed word. -/
def slldiv2n (x : Int) (n : Nat) : Int := x >>> n

/-! ## Floor -/

/-- The function `sllfloor`:
`retval = _sllint(x); return ((retval > x) ? _sllsub(retval, CONST_1): retval);` -/
def sllfloor (x : Int) : Int :=
  let retval := sllint x
  if retval > x then sllsub retval CONST_1 else retval

/-! ## Decimal to fixed: `l_tofix` and the vector constructors -/

/-- The ways a binding can stop without a value.  The first three are the `luaL_error`
calls of the constructors; `undefinedCast` is not an error the code raises: it marks a
`double → int` conversion whose operand is outside the range of `int`, which C leaves
undefined. -/
inductive Failure
  /-- The error "转换为定点数只支持0-6位小数精度" (precision argument outside 0..6). -/
  | precisionArg
  /-- The error "有效数字太多转不了，自己看着办" (range error). -/
  | range
  /-- The error "第%d位小数怎么还有值？" with its digit position (precision error). -/
  | precision (digit : Int)
  /-- Conversion `(int) d` with `d` outside the range of `int`. -/
  | undefinedCast
  /-- The error "mod zero!" of `fix_mod`. -/
  | modZero
  /-- Remainder `INT64_MIN % -1`, whose quotient is not representable: not an error the
  code raises, C leaves the operation undefined. -/
  | undefinedRem
  /-- The error "第%d个参数不是一个fix_vec2" of `check_set_vec2`, with the argument index. -/
  | notVec2 (idx : Int)
  deriving DecidableEq, Repr

/-- Rounding of a rational number to the nearest integer, ties to the even one. -/
def roundEven (q : ℚ) : Int :=
  if q - ⌊q⌋ < 1 / 2 then ⌊q⌋
  else if q - ⌊q⌋ > 1 / 2 then ⌊q⌋ + 1
  else if ⌊q⌋ % 2 = 0 then ⌊q⌋ else ⌊q⌋ + 1

/-- The binary64 exponent of `q`: the `e` with `2^e ≤ |q| < 2^(e+1)`, and `-1022` in the
subnormal range and at zero. -/
def expo (q : ℚ) : Int := if q = 0 then -1022 else max (Int.log 2 |q|) (-1022)

/-- The spacing of the binary64 values at `q` (53 significant bits). -/
def ulp (q : ℚ) : ℚ := (2 : ℚ) ^ (expo q - 52)

/-- The result of a `double` operation whose exact result is `q`: the binary64 value nearest
to `q`, ties to the even significand. -/
def fl (q : ℚ) : ℚ := roundEven (q / ulp q) * ulp q

/-- Membership in the binary64 values. -/
def IsDouble (q : ℚ) : Prop := fl q = q

instance (q : ℚ) : Decidable (IsDouble q) := by unfold IsDouble; infer_instance

/-- The conversion `(int) n` of a `lua_Integer` (a 64-bit integer) to the 32-bit `int`: the
value is kept when it fits and reduced modulo `2^32` into the range of `int` otherwise. -/
def narrowInt (n : Int) : Int := (n + 2 ^ 31) % 2 ^ 32 - 2 ^ 31

/-- Truncation of a `double` toward zero, the value of `(int) d` when it fits. -/
def truncQ (q : ℚ) : Int := if 0 ≤ q then ⌊q⌋ else ⌈q⌉

/-- Membership in the value range of the 32-bit C `int`. -/
def IsInt32 (i : Int) : Prop := -2 ^ 31 ≤ i ∧ i < 2 ^ 31

instance (i : Int) : Decidable (IsInt32 i) := by unfold IsInt32; infer_instance

/-- The conversion `(int) d`: defined exactly when the truncated value is a 32-bit `int`. -/
def castInt (q : ℚ) : Option Int :=
  let t := truncQ q
  if IsInt32 t then some t else none

/-- First argument of `l_tofix`: a fixed value already (userdata) or a Lua number. -/
inductive TofixArg
  | fix (p : Int)
  | number (val : ℚ)

/-- The function `l_tofix` of `lua_fixmath.c`; `v` is the `double` that
`luaL_checknumber(L, 1)` returns and `precision` the `lua_Integer` that
`luaL_optinteger(L, 2, 0)` returns. -/
def l_tofix (arg : TofixArg) (precision : Int) : Except Failure Int :=
  match arg with
  | .fix p => .ok p
  | .number v =>
    let len : Int := narrowInt precision
    if len > 6 ∨ len < 0 then .error .precisionArg
    else
      let val : ℚ := fl (v * (_mul.getD len.toNat 0 : Int))
      if val ≥ 1000000000 then .error .range
      else
        match castInt (fl (val + (if val > 0 then 1 / 2 else -(1 / 2)))) with
        | none => .error .undefinedCast
        | some round_val =>
          if |fl (val - round_val)| > fl (1 / 5) then .error (.precision (len + 1))
          else .ok (Int.tdiv (int2sll round_val) (_mul.getD len.toNat 0))

/-- The struct `Vector2`. -/
structure Vector2 where
  x : Int
  y : Int
  deriving DecidableEq, Repr

/-- The struct `Vector3`. -/
structure Vector3 where
  x : Int
  y : Int
  z : Int
  deriving DecidableEq, Repr

/-- The constructor `New` of `lua_fix_vec2.c`; `x` and `y` are the doubles of
`luaL_checknumber` and `precision` is the `lua_Integer` of `luaL_optinteger(L, 3, 0)`. -/
def Vector2.New (x y : ℚ) (precision : Int) : Except Failure Vector2 :=
  let fn : Int := narrowInt precision
  if fn > 6 ∨ fn < 0 then .error .precisionArg
  else
    let x : ℚ := fl (x * (_mul.getD fn.toNat 0 : Int))
    let y : ℚ := fl (y * (_mul.getD fn.toNat 0 : Int))
    if x ≥ 1000000000 ∨ y ≥ 1000000000 then .error .range
    else
      match castInt (fl (x + (if x > 0 then 1 / 2 else -(1 / 2)))),
            castInt (fl (y + (if y > 0 then 1 / 2 else -(1 / 2)))) with
      | some round_x, some round_y =>
        .ok ⟨Int.tdiv (int2sll round_x) (_mul.getD fn.toNat 0),
             Int.tdiv (int2sll round_y) (_mul.getD fn.toNat 0)⟩
      | _, _ => .error .undefinedCast

/-- The constructor `New` of `lua_fix_vec3.c`; `x`, `y` and `z` are the doubles of
`luaL_checknumber` and `precision` is the `lua_Integer` of `luaL_optinteger(L, 4, 0)`. -/
def Vector3.New (x y z : ℚ) (precision : Int) : Except Failure Vector3 :=
  let fn : Int := narrowInt precision
  if fn > 6 ∨ fn < 0 then .error .precisionArg
  else
    let x : ℚ := fl (x * (_mul.getD fn.toNat 0 : Int))
    let y : ℚ := fl (y * (_mul.getD fn.toNat 0 : Int))
    let z : ℚ := fl (z * (_mul.getD fn.toNat 0 : Int))
    if x ≥ 1000000000 ∨ y ≥ 1000000000 ∨ z ≥ 1000000000 then .error .range
    else
      match castInt (fl (x + (if x > 0 then 1 / 2 else -(1 / 2)))),
            castInt (fl (y + (if y > 0 then 1 / 2 else -(1 / 2)))),
            castInt (fl (z + (if z > 0 then 1 / 2 else -(1 / 2)))) with
      | some round_x, some round_y, some round_z =>
        .ok ⟨Int.tdiv (int2sll round_x) (_mul.getD fn.toNat 0),
             Int.tdiv (int2sll round_y) (_mul.getD fn.toNat 0),
             Int.tdiv (int2sll round_z) (_mul.getD fn.toNat 0)⟩
      | _, _, _ => .error .undefinedCast

/-! ## Further constants and macros of `math-sll.h` -/

/-- Constant `#define CONST_PI_2 0x00000001921fb544LL`. -/
def CONST_PI_2 : Int := 0x00000001921fb544

/-- Constant `#define CONST_180_PI 0x000000394BB834C7LL`. -/
def CONST_180_PI : Int := 0x000000394BB834C7

/-- Constant `#define CONST_PI_180 0x000000000477d1a8LL`. -/
def CONST_PI_180 : Int := 0x000000000477d1a8

/-- Macro `#define _sllmul2(X) ((X) << 1)`. -/
def sllmul2 (x : Int) : Int := wrap64 (x * 2)

/-- Macro `#define _slldiv2(X) ((X) >> 1)`. -/
def slldiv2 (x : Int) : Int := x >>> (1 : Nat)

/-- The function `sllceil`:
`retval = _sllint(x); return ((retval < x) ? _slladd(retval, CONST_1): retval);` -/
def sllceil (x : Int) : Int :=
  let retval := sllint x
  if retval < x then slladd retval CONST_1 else retval

/-- Macro `#define sllabs(x) ((x) < 0 ? -(x) : (x))`. -/
def sllabs (x : Int) : Int := if x < 0 then wrap64 (-x) else x

/-- The function `clamp_fix` of `lua_fixmath.c`. -/
def clamp_fix (a b c : Int) : Int :=
  if a < b then b
  else if a > c then c
  else a

/-! ## Derived functions of `math-sll.h`

The functions `sllinv`, `sllsin`, `sllcos`, `sllasin`, `sllexp`, `sllpow` and `slld2dsqrt`
are declared in `math-sll.h` but their bodies are not among the sources; every definition
that calls one of them takes it as a parameter of the same name. -/

/-- Macro `#define _slldiv(X,Y) sllmul((X), sllinv(Y))`. -/
def slldiv (sllinv : Int → Int) (x y : Int) : Int := sllmul x (sllinv y)

/-- The function `sllacos`: `return _sllsub(CONST_PI_2, sllasin(x));` -/
def sllacos (sllasin : Int → Int) (x : Int) : Int := sllsub CONST_PI_2 (sllasin x)

/-- The function `sllsec`: `return sllinv(sllcos(x));` -/
def sllsec (sllinv sllcos : Int → Int) (x : Int) : Int := sllinv (sllcos x)

/-- The function `sllcsc`: `return sllinv(sllsin(x));` -/
def sllcsc (sllinv sllsin : Int → Int) (x : Int) : Int := sllinv (sllsin x)

/-- The function `sllcot`: `return _slldiv(sllcos(x), sllsin(x));` -/
def sllcot (sllinv sllcos sllsin : Int → Int) (x : Int) : Int :=
  slldiv sllinv (sllcos x) (sllsin x)

/-- The function `sllcosh`: `return _slldiv2(_slladd(sllexp(x), sllexp(_sllneg(x))));` -/
def sllcosh (sllexp : Int → Int) (x : Int) : Int :=
  slldiv2 (slladd (sllexp x) (sllexp (sllneg x)))

/-- The function `sllsinh`: `return _slldiv2(_sllsub(sllexp(x), sllexp(_sllneg(x))));` -/
def sllsinh (sllexp : Int → Int) (x : Int) : Int :=
  slldiv2 (sllsub (sllexp x) (sllexp (sllneg x)))

/-- The function `slltanh`: `e2x = sllexp(_sllmul2(x));
return _slldiv(_sllsub(e2x, CONST_1), _slladd(e2x, CONST_1));` -/
def slltanh (sllinv sllexp : Int → Int) (x : Int) : Int :=
  let e2x := sllexp (sllmul2 x)
  slldiv sllinv (sllsub e2x CONST_1) (slladd e2x CONST_1)

/-- The function `sllsech`:
`return _slldiv(_sllmul2(sllexp(x)), _slladd(sllexp(_sllmul2(x)), CONST_1));` -/
def sllsech (sllinv sllexp : Int → Int) (x : Int) : Int :=
  slldiv sllinv (sllmul2 (sllexp x)) (slladd (sllexp (sllmul2 x)) CONST_1)

/-- The function `sllcsch`:
`return _slldiv(_sllmul2(sllexp(x)), _sllsub(sllexp(_sllmul2(x)), CONST_1));` -/
def sllcsch (sllinv sllexp : Int → Int) (x : Int) : Int :=
  slldiv sllinv (sllmul2 (sllexp x)) (sllsub (sllexp (sllmul2 x)) CONST_1)

/-- The function `sllcoth`: `e2x = sllexp(sllmul2(x));
return _slldiv(_slladd(e2x, CONST_1), _sllsub(e2x, CONST_1));` -/
def sllcoth (sllinv sllexp : Int → Int) (x : Int) : Int :=
  let e2x := sllexp (sllmul2 x)
  slldiv sllinv (slladd e2x CONST_1) (sllsub e2x CONST_1)

/-! ## Scalar bindings of `lua_fixmath.c`

Each binding is modelled on operands that passed `check_set_fix` (well-typed operands); the
result is the pushed value, or the `luaL_error` raised. -/

/-- The binding `fix_add`. -/
def fix_add (a b : Int) : Except Failure Int := .ok (slladd a b)

/-- The binding `fix_unm`. -/
def fix_unm (p : Int) : Except Failure Int := .ok (sllneg p)

/-- The binding `fix_sub`. -/
def fix_sub (a b : Int) : Except Failure Int := .ok (sllsub a b)

/-- The binding `fix_mul`. -/
def fix_mul (a b : Int) : Except Failure Int := .ok (sllmul a b)

/-- The binding `fix_div`: `push_fix(L, slldiv(*a, *b));` -/
def fix_div (sllinv : Int → Int) (a b : Int) : Except Failure Int := .ok (slldiv sllinv a b)

/-- The binding `fix_mod`: `if (*b == 0) return luaL_error(L, "mod zero!");
push_fix(L, *a % *b);`.  The C remainder truncates toward zero and is undefined when the
quotient is not representable (`INT64_MIN % -1`). -/
def fix_mod (a b : Int) : Except Failure Int :=
  if b = 0 then .error .modZero
  else if a = -2 ^ 63 ∧ b = -1 then .error .undefinedRem
  else .ok (Int.tmod a b)

/-- The binding `fix_pow`: `push_fix(L, sllpow(*a, *b));` -/
def fix_pow (sllpow : Int → Int → Int) (a b : Int) : Except Failure Int := .ok (sllpow a b)

/-- The binding `fix_lt`. -/
def fix_lt (a b : Int) : Except Failure Bool := .ok (decide (a < b))

/-- The binding `fix_le`. -/
def fix_le (a b : Int) : Except Failure Bool := .ok (decide (a ≤ b))

/-- The binding `fix_eq`. -/
def fix_eq (a b : Int) : Except Failure Bool := .ok (decide (a = b))

/-- The binding `fix_abs`. -/
def fix_abs (a : Int) : Except Failure Int := .ok (sllabs a)

/-- The binding `fix_floor`. -/
def fix_floor (a : Int) : Except Failure Int := .ok (sllfloor a)

/-- The binding `fix_ceil`. -/
def fix_ceil (a : Int) : Except Failure Int := .ok (sllceil a)

/-- The binding `fix_min`, with the macro `#define min(x, y) ((x) < (y) ? (x) : (y))`. -/
def fix_min (a b : Int) : Except Failure Int := .ok (if a < b then a else b)

/-- The binding `fix_max`, with the macro `#define max(x, y) ((x) > (y) ? (x) : (y))`. -/
def fix_max (a b : Int) : Except Failure Int := .ok (if a > b then a else b)

/-- The binding `fix_clamp`. -/
def fix_clamp (a b c : Int) : Except Failure Int := .ok (clamp_fix a b c)

/-- The binding `fix_deg`: `push_fix(L, sllmul(*a, CONST_180_PI));` -/
def fix_deg (a : Int) : Except Failure Int := .ok (sllmul a CONST_180_PI)

/-- The binding `fix_rad`: `push_fix(L, sllmul(*a, CONST_PI_180));` -/
def fix_rad (a : Int) : Except Failure Int := .ok (sllmul a CONST_PI_180)

/-! ## Vector2 (`lua_fix_vec2.c`) -/

/-- The function `vec2_dot`. -/
def vec2_dot (a b : Vector2) : Int := slladd (sllmul a.x b.x) (sllmul a.y b.y)

/-- The function `vec2_sqrmagnitude`. -/
def vec2_sqrmagnitude (self : Vector2) : Int :=
  slladd (sllmul self.x self.x) (sllmul self.y self.y)

/-- The function `vec2_magnitude`: `return slld2dsqrt(vec2_sqrmagnitude(self));` -/
def vec2_magnitude (slld2dsqrt : Int → Int) (self : Vector2) : Int :=
  slld2dsqrt (vec2_sqrmagnitude self)

/-- The function `vec2_lerp`; the result is the vector written to `out`. -/
def vec2_lerp (a b : Vector2) (tt : Int) : Vector2 :=
  let tt := clamp_fix tt CONST_0 CONST_1
  ⟨slladd a.x (sllmul (sllsub b.x a.x) tt), slladd a.y (sllmul (sllsub b.y a.y) tt)⟩

/-- The function `vec2_set_normalize`; the result is the new content of `*self`. -/
def vec2_set_normalize (slld2dsqrt sllinv : Int → Int) (self : Vector2) : Vector2 :=
  let magnitude := vec2_magnitude slld2dsqrt self
  if magnitude > CONST_0 then
    ⟨slldiv sllinv self.x magnitude, slldiv sllinv self.y magnitude⟩
  else
    ⟨CONST_0, CONST_0⟩

/-- The binding `SqrMagnitude` of Vector2. -/
def Vector2.SqrMagnitude (self : Vector2) : Int := vec2_sqrmagnitude self

/-- The binding `Magnitude` of Vector2. -/
def Vector2.Magnitude (slld2dsqrt : Int → Int) (self : Vector2) : Int :=
  vec2_magnitude slld2dsqrt self

/-- The binding `Normalize` of Vector2: `Vector2 ret = *self; vec2_set_normalize(&ret);`
and `ret` is pushed. -/
def Vector2.Normalize (slld2dsqrt sllinv : Int → Int) (self : Vector2) : Vector2 :=
  vec2_set_normalize slld2dsqrt sllinv self

/-- The binding `SetNormalize` of Vector2; the result is the new content of `*self`. -/
def Vector2.SetNormalize (slld2dsqrt sllinv : Int → Int) (self : Vector2) : Vector2 :=
  vec2_set_normalize slld2dsqrt sllinv self

/-- The binding `Lerp` of Vector2. -/
def Vector2.Lerp (a b : Vector2) (t : Int) : Vector2 := vec2_lerp a b t

/-- The binding `LerpUnclamped` of Vector2. -/
def Vector2.LerpUnclamped (a b : Vector2) (t : Int) : Vector2 :=
  ⟨slladd a.x (sllmul (sllsub b.x a.x) t), slladd a.y (sllmul (sllsub b.y a.y) t)⟩

/-! ## Vector3 (`lua_fix_vec3.c`) -/

/-- The function `vec3_magnitude`. -/
def vec3_magnitude (slld2dsqrt : Int → Int) (self : Vector3) : Int :=
  slld2dsqrt (slladd (sllmul self.x self.x)
    (slladd (sllmul self.y self.y) (sllmul self.z self.z)))

/-- The function `vec3_dot`. -/
def vec3_dot (a b : Vector3) : Int :=
  slladd (sllmul a.x b.x) (slladd (sllmul a.y b.y) (sllmul a.z b.z))

/-- The function `vec3_cross`; the result is the vector written to `out`. -/
def vec3_cross (a b : Vector3) : Vector3 :=
  ⟨sllsub (sllmul a.y b.z) (sllmul a.z b.y),
   sllsub (sllmul a.z b.x) (sllmul a.x b.z),
   sllsub (sllmul a.x b.y) (sllmul a.y b.x)⟩

/-- The function `vec3_lerp`; the result is the vector written to `out`. -/
def vec3_lerp (a b : Vector3) (tt : Int) : Vector3 :=
  let tt := clamp_fix tt CONST_0 CONST_1
  ⟨slladd a.x (sllmul (sllsub b.x a.x) tt), slladd a.y (sllmul (sllsub b.y a.y) tt),
   slladd a.z (sllmul (sllsub b.z a.z) tt)⟩

/-- The function `vec3_set_normalize`; the result is the new content of `*self`. -/
def vec3_set_normalize (slld2dsqrt sllinv : Int → Int) (self : Vector3) : Vector3 :=
  let magnitude := vec3_magnitude slld2dsqrt self
  if magnitude > CONST_0 then
    ⟨slldiv sllinv self.x magnitude, slldiv sllinv self.y magnitude,
     slldiv sllinv self.z magnitude⟩
  else
    ⟨CONST_0, CONST_0, CONST_0⟩

/-- The binding `SqrMagnitude` of Vector3: `push_fix(L, vec3_dot(self, self));` -/
def Vector3.SqrMagnitude (self : Vector3) : Int := vec3_dot self self

/-- The binding `Magnitude` of Vector3. -/
def Vector3.Magnitude (slld2dsqrt : Int → Int) (self : Vector3) : Int :=
  vec3_magnitude slld2dsqrt self

/-- The binding `Normalize` of Vector3: `Vector3 ret = *self; vec3_set_normalize(&ret);`
and `ret` is pushed. -/
def Vector3.Normalize (slld2dsqrt sllinv : Int → Int) (self : Vector3) : Vector3 :=
  vec3_set_normalize slld2dsqrt sllinv self

/-- The binding `SetNormalize` of Vector3; the result is the new content of `*self`. -/
def Vector3.SetNormalize (slld2dsqrt sllinv : Int → Int) (self : Vector3) : Vector3 :=
  vec3_set_normalize slld2dsqrt sllinv self

/-- The binding `Cross` of Vector3. -/
def Vector3.Cross (a b : Vector3) : Vector3 := vec3_cross a b

/-- The binding `Unm` of Vector3. -/
def Vector3.Unm (self : Vector3) : Vector3 := ⟨sllneg self.x, sllneg self.y, sllneg self.z⟩

/-- The binding `Lerp` of Vector3. -/
def Vector3.Lerp (a b : Vector3) (t : Int) : Vector3 := vec3_lerp a b t

/-- The binding `LerpUnclamped` of Vector3. -/
def Vector3.LerpUnclamped (a b : Vector3) (t : Int) : Vector3 :=
  ⟨slladd a.x (sllmul (sllsub b.x a.x) t), slladd a.y (sllmul (sllsub b.y a.y) t),
   slladd a.z (sllmul (sllsub b.z a.z) t)⟩

/-- All components of a Vector2 are 64-bit values. -/
def Vector2.IsValid (v : Vector2) : Prop := IsSll v.x ∧ IsSll v.y

instance (v : Vector2) : Decidable v.IsValid := by unfold Vector2.IsValid; infer_instance

/-- All components of a Vector3 are 64-bit values. -/
def Vector3.IsValid (v : Vector3) : Prop := IsSll v.x ∧ IsSll v.y ∧ IsSll v.z

instance (v : Vector3) : Decidable v.IsValid := by unfold Vector3.IsValid; infer_instance

/-! ## Constants, userdata and bindings used by the geometric operations -/

/-- Constant `#define CONST_neg1 0xffffffff00000000LL`: the literal does not fit `long long`
and is converted to `sll` where it is passed to `clamp_fix`. -/
def CONST_neg1 : Int := wrap64 0xffffffff00000000

/-- Constant `#define CONST_MAX 0x7FFFFFFFFFFFFFFFLL`. -/
def CONST_MAX : Int := 0x7FFFFFFFFFFFFFFF

/-- Constant `#define CONST_MIN 0x8000000000000000LL`: the literal does not fit `long long`
and is converted to `sll` where it initialises `max_x` and `max_y`. -/
def CONST_MIN : Int := wrap64 0x8000000000000000

/-- Constant `#define CONST_PI 0x00000003243f6a88LL`. -/
def CONST_PI : Int := 0x00000003243f6a88

/-- A Lua userdata of one of the three metatables `__FIX_METATABLE__`, `__VECTOR2_META__`,
`__VECTOR3_META__`, as told apart by `luaL_testudata`. -/
inductive Userdata
  | fix (v : Int)
  | vec2 (v : Vector2)
  | vec3 (v : Vector3)

/-- The function `vec2_cross`. -/
def vec2_cross (a b : Vector2) : Int := sllsub (sllmul a.x b.y) (sllmul a.y b.x)

/-- The binding `NewFromVec3` of `lua_fix_vec2.c`: `push_Vector2(L, self->x, self->z);` -/
def Vector2.NewFromVec3 (self : Vector3) : Vector2 := ⟨self.x, self.z⟩

/-- The binding `NormalFromVec3` of `lua_fix_vec2.c`:
`push_Vector2(L, sllneg(self->z), self->x);` -/
def Vector2.NormalFromVec3 (self : Vector3) : Vector2 := ⟨sllneg self.z, self.x⟩

/-- The binding `NormalFromVec2` of `lua_fix_vec2.c`:
`push_Vector2(L, sllneg(self->y), self->x);` -/
def Vector2.NormalFromVec2 (self : Vector2) : Vector2 := ⟨sllneg self.y, self.x⟩

/-- The binding `Unm` of Vector2. -/
def Vector2.Unm (self : Vector2) : Vector2 := ⟨sllneg self.x, sllneg self.y⟩

/-- The value of the local `d` of the Vector2 `Angle` when it is passed to `sllacos`:
`_from` and `_to` are normalized copies of the operands, `d` is their dot product clamped by
`clamp_fix(d, CONST_neg1, CONST_1)`. -/
def Vector2.Angle_d (slld2dsqrt sllinv : Int → Int) (from_ to_ : Vector2) : Int :=
  let _from := vec2_set_normalize slld2dsqrt sllinv from_
  let _to := vec2_set_normalize slld2dsqrt sllinv to_
  let d := slladd (sllmul _from.x _to.x) (sllmul _from.y _to.y)
  clamp_fix d CONST_neg1 CONST_1

/-- The binding `Angle` of Vector2.  The result is the pushed value
`sllmul(sllacos(d), CONST_180_PI)` together with the contents of `*from` and `*to` when the
function returns; the normalization works on the copies `_from`, `_to`. -/
def Vector2.Angle (slld2dsqrt sllinv sllasin : Int → Int) (from_ to_ : Vector2) :
    Int × Vector2 × Vector2 :=
  (sllmul (sllacos sllasin (Vector2.Angle_d slld2dsqrt sllinv from_ to_)) CONST_180_PI,
   from_, to_)

/-- The (unregistered) function `SqrDistance` of `lua_fix_vec2.c`. -/
def Vector2.SqrDistance (a b : Vector2) : Int :=
  slladd (sllmul (sllsub a.x b.x) (sllsub a.x b.x)) (sllmul (sllsub a.y b.y) (sllsub a.y b.y))

/-- The body of the loop of `Max`, on the pair `(max_x, max_y)`:
`max_x = max(max_x, a->x); max_y = max(max_y, a->y);` with the macro
`#define max(x, y) ((x) > (y) ? (x) : (y))`. -/
def Vector2.maxStep (acc a : Vector2) : Vector2 :=
  ⟨if acc.x > a.x then acc.x else a.x, if acc.y > a.y then acc.y else a.y⟩

/-- The binding `Max` of Vector2 on its argument list: the loop over the arguments, started
from `max_x = CONST_MIN; max_y = CONST_MIN;`. -/
def Vector2.Max (args : List Vector2) : Vector2 :=
  args.foldl Vector2.maxStep ⟨CONST_MIN, CONST_MIN⟩

/-- The body of the loop of `Min`, on the pair `(min_x, min_y)`:
`min_x = min(min_x, a->x); min_y = min(min_y, a->y);` with the macro
`#define min(x, y) ((x) < (y) ? (x) : (y))`. -/
def Vector2.minStep (acc a : Vector2) : Vector2 :=
  ⟨if acc.x < a.x then acc.x else a.x, if acc.y < a.y then acc.y else a.y⟩

/-- The binding `Min` of Vector2 on its argument list: the loop over the arguments, started
from `min_x = CONST_MAX; min_y = CONST_MAX;`. -/
def Vector2.Min (args : List Vector2) : Vector2 :=
  args.foldl Vector2.minStep ⟨CONST_MAX, CONST_MAX⟩

/-- The binding `CloneZeroY` of Vector3. -/
def Vector3.CloneZeroY (self : Vector3) : Vector3 := ⟨self.x, CONST_0, self.z⟩

/-- The binding `Distance` of Vector3. -/
def Vector3.Distance (slld2dsqrt : Int → Int) (a b : Vector3) : Int :=
  slld2dsqrt (slladd (sllmul (sllsub a.x b.x) (sllsub a.x b.x))
    (slladd (sllmul (sllsub a.y b.y) (sllsub a.y b.y))
      (sllmul (sllsub a.z b.z) (sllsub a.z b.z))))

/-- The binding `Vec2Distance` of Vector3. -/
def Vector3.Vec2Distance (slld2dsqrt : Int → Int) (a b : Vector3) : Int :=
  slld2dsqrt (slladd (sllmul (sllsub a.x b.x) (sllsub a.x b.x))
    (sllmul (sllsub a.z b.z) (sllsub a.z b.z)))

/-- The binding `Vec2SqrDistance` of Vector3. -/
def Vector3.Vec2SqrDistance (a b : Vector3) : Int :=
  slladd (sllmul (sllsub a.x b.x) (sllsub a.x b.x)) (sllmul (sllsub a.z b.z) (sllsub a.z b.z))

/-- The binding `Vec2SqrMagnitude` of Vector3. -/
def Vector3.Vec2SqrMagnitude (self : Vector3) : Int :=
  slladd (sllmul self.x self.x) (sllmul self.z self.z)

/-- The binding `Vec2Magnitude` of Vector3. -/
def Vector3.Vec2Magnitude (slld2dsqrt : Int → Int) (self : Vector3) : Int :=
  slld2dsqrt (slladd (sllmul self.x self.x) (sllmul self.z self.z))

/-- The binding `Vec2Dot` of Vector3. -/
def Vector3.Vec2Dot (a b : Vector3) : Int := slladd (sllmul a.x b.x) (sllmul a.z b.z)

/-- The binding `Vec2Cross` of Vector3. -/
def Vector3.Vec2Cross (a b : Vector3) : Int := sllsub (sllmul a.x b.z) (sllmul a.z b.x)

/-- The value of the local `d` of the Vector3 `Angle` when it is passed to `sllacos`, for two
distinct userdata operands. -/
def Vector3.Angle_d (slld2dsqrt sllinv : Int → Int) (from_ to_ : Vector3) : Int :=
  let from1 := vec3_set_normalize slld2dsqrt sllinv from_
  let to1 := vec3_set_normalize slld2dsqrt sllinv to_
  let d := vec3_dot from1 to1
  clamp_fix d CONST_neg1 CONST_1

/-- The binding `Angle` of Vector3 on two distinct userdata operands:
`vec3_set_normalize(from); vec3_set_normalize(to); d = vec3_dot(from, to);`.  The result is
the pushed value together with the contents of `*from` and `*to` when the function
returns. -/
def Vector3.Angle (slld2dsqrt sllinv sllasin : Int → Int) (from_ to_ : Vector3) :
    Int × Vector3 × Vector3 :=
  (sllmul (sllacos sllasin (Vector3.Angle_d slld2dsqrt sllinv from_ to_)) CONST_180_PI,
   vec3_set_normalize slld2dsqrt sllinv from_, vec3_set_normalize slld2dsqrt sllinv to_)

/-- The value of the local `d` of the Vector3 `Angle` when the same userdata is passed as both
operands (`from == to`): the object is normalized twice and dotted with itself. -/
def Vector3.Angle_d_same (slld2dsqrt sllinv : Int → Int) (self : Vector3) : Int :=
  let v1 := vec3_set_normalize slld2dsqrt sllinv self
  let v2 := vec3_set_normalize slld2dsqrt sllinv v1
  clamp_fix (vec3_dot v2 v2) CONST_neg1 CONST_1

/-- The registered `SqrDistance` of `lua_fix_vec3.c`: both operands are fetched with
`check_set_vec2`, which raises unless the userdata is a Vector2, and only `x` and `y` are
used. -/
def Vector3.SqrDistance (a b : Userdata) : Except Failure Int :=
  match a with
  | .vec2 a =>
    match b with
    | .vec2 b =>
      .ok (slladd (sllmul (sllsub a.x b.x) (sllsub a.x b.x))
        (sllmul (sllsub a.y b.y) (sllsub a.y b.y)))
    | _ => .error (.notVec2 2)
  | _ => .error (.notVec2 1)

/-- The binding `AddVec2` of Vector3: `self->x += b->x; self->z += b->y;`.  The result is the
contents of `*self` and of `*b` when the function returns. -/
def Vector3.AddVec2 (self : Vector3) (b : Vector2) : Vector3 × Vector2 :=
  (⟨wrap64 (self.x + b.x), self.y, wrap64 (self.z + b.y)⟩, b)

/-! ## Integer part, fractional part and absolute value bindings -/

/-- The binding `fix_int`: `push_fix(L, sllint(*p));` -/
def fix_int (p : Int) : Except Failure Int := .ok (sllint p)

/-- The binding `fix_frac`: `push_fix(L, sllfrac(*p));` -/
def fix_frac (p : Int) : Except Failure Int := .ok (sllfrac p)

/-- The binding `Abs` of Vector2: `push_Vector2(L, sllabs(a->x), sllabs(a->y));` -/
def Vector2.Abs (a : Vector2) : Vector2 := ⟨sllabs a.x, sllabs a.y⟩

/-- The binding `Abs` of Vector3:
`push_Vector3(L, sllabs(a->x), sllabs(a->y), sllabs(a->z));` -/
def Vector3.Abs (a : Vector3) : Vector3 := ⟨sllabs a.x, sllabs a.y, sllabs a.z⟩

/-! ## Reference notions used to state the contracts -/

/-- Rounding to the nearest integer, halves away from zero. -/
def roundHalfAway (q : ℚ) : Int := if 0 ≤ q then ⌊q + 1 / 2⌋ else -⌊-q + 1 / 2⌋

/-- The integer that `(int)(val + (val > 0 ? 0.5 : -0.5))` yields in `l_tofix` and in the
constructors when the conversion is defined. -/
def roundVal (val : ℚ) : Int := truncQ (fl (val + (if val > 0 then 1 / 2 else -(1 / 2))))

/-- The real value `raw / 2^32` that a raw 64-bit word stands for. -/
def toValue (raw : Int) : ℚ := (raw : ℚ) / 2 ^ 32

/-- A whole-number fixed value: a 64-bit value whose fractional bits are zero. -/
def IsWhole (x : Int) : Prop := IsSll x ∧ x % 2 ^ 32 = 0

instance (x : Int) : Decidable (IsWhole x) := by unfold IsWhole; infer_instance

/-- Modelled from the spec: the body of `slld2dsqrt` (the extended square root) is not among
the sources.  This is the ideal primitive, the reference of the accuracy contract and the
instance at which statements proved for every square root are evaluated: the chopped root
`floor(sqrt(x * 2^32))` of a positive raw `x`, and `0` for `x <= 0`. -/
def sqrtIdeal (x : Int) : Int := if x ≤ 0 then 0 else (Nat.sqrt (x.toNat * 2 ^ 32) : Nat)

/-- Modelled from the spec: the body of `sllinv` (the reciprocal) is not among the sources.
This is the ideal primitive, the reference of the accuracy contract and the instance at which
statements proved for every reciprocal are evaluated: the chopped quotient `2^64 / x` kept to
64 bits, and `0` at `x = 0`. -/
def invIdeal (x : Int) : Int := if x = 0 then 0 else wrap64 (Int.tdiv (2 ^ 64) x)

/-- The largest raw component magnitude of a Vector2. -/
def Vector2.maxAbs (v : Vector2) : Int := max |v.x| |v.y|

/-- The largest raw component magnitude of a Vector3. -/
def Vector3.maxAbs (v : Vector3) : Int := max (max |v.x| |v.y|) |v.z|

/-- Bound, in raw units, on the distance from `1.0` of the magnitude of a normalized vector
whose largest raw component magnitude is `M`: the chopped squares contribute `2^67 / M^2`,
the unit errors of the root and of the reciprocal `2^34 / M`, the resolution of the
reciprocal `M / 2^30`, the chopped products and the final root `8`. -/
def normError (M : Int) : ℚ := 2 ^ 67 / (M : ℚ) ^ 2 + 2 ^ 34 / M + M / 2 ^ 30 + 8

/-- Bound, in raw units, on how far below `1.0` the dot product of a normalized Vector2 with
itself can fall, for largest raw component magnitude `M` (integer quotients). -/
def dotSlack (M : Int) : Int := 2 ^ 34 / M + M / 2 ^ 29 + 12

/-! ## Lemmas on 64-bit wrapping -/

theorem wrap64_range (x : Int) : -2 ^ 63 ≤ wrap64 x ∧ wrap64 x < 2 ^ 63 := by
  unfold wrap64; omega

theorem wrap64_of_range (x : Int) (h : -2 ^ 63 ≤ x ∧ x < 2 ^ 63) : wrap64 x = x := by
  unfold wrap64; omega

theorem wrap64_add_mul (x k : Int) : wrap64 (x + 2 ^ 64 * k) = wrap64 x := by
  unfold wrap64; omega

theorem wrap64_neg_wrap64 (x : Int) : wrap64 (-wrap64 x) = wrap64 (-x) := by
  unfold wrap64; omega

theorem wrap64_emod (x : Int) : (wrap64 x - x) % 2 ^ 64 = 0 := by
  unfold wrap64; omega

/-! ## Lemmas on binary64 rounding -/

theorem roundEven_cases (q : ℚ) : roundEven q = ⌊q⌋ ∨ roundEven q = ⌊q⌋ + 1 := by
  unfold roundEven
  split_ifs <;> simp

theorem roundEven_intCast (n : Int) : roundEven (n : ℚ) = n := by
  unfold roundEven
  simp

theorem roundEven_ge_of_int_le (q : ℚ) (n : Int) (h : (n : ℚ) ≤ q) : n ≤ roundEven q := by
  have h1 : n ≤ ⌊q⌋ := Int.le_floor.mpr h
  rcases roundEven_cases q with e | e <;> omega

theorem roundEven_le_of_le_int (q : ℚ) (n : Int) (h : q ≤ (n : ℚ)) : roundEven q ≤ n := by
  rcases eq_or_lt_of_le h with e | hlt
  · rw [e, roundEven_intCast]
  · have h1 : ⌊q⌋ < n := Int.floor_lt.mpr hlt
    rcases roundEven_cases q with e | e <;> omega

theorem roundEven_near (q : ℚ) : |(roundEven q : ℚ) - q| ≤ 1 / 2 := by
  have h1 := Int.floor_le q
  have h2 := Int.lt_floor_add_one q
  rw [abs_le]
  unfold roundEven
  split_ifs with a b c
  · constructor <;> linarith
  · push_cast; constructor <;> linarith
  · constructor <;> linarith
  · push_cast; constructor <;> linarith

theorem roundEven_eq_of_near (q : ℚ) (n : Int) (h : |q - n| < 1 / 2) : roundEven q = n := by
  have h1 := roundEven_near q
  rw [abs_le] at h1
  rw [abs_lt] at h
  have h2 : ((roundEven q : Int) : ℚ) < ((n + 1 : Int) : ℚ) := by push_cast; linarith
  have h3 : ((n - 1 : Int) : ℚ) < ((roundEven q : Int) : ℚ) := by push_cast; linarith
  have h4 := Int.cast_lt.mp h2
  have h5 := Int.cast_lt.mp h3
  omega

theorem expo_ge (q : ℚ) : -1022 ≤ expo q := by
  unfold expo
  split_ifs
  · exact le_refl _
  · exact le_max_right _ _

theorem ulp_pos (q : ℚ) : 0 < ulp q := by
  unfold ulp
  positivity

theorem abs_lt_zpow_expo (q : ℚ) : |q| < (2 : ℚ) ^ (expo q + 1) := by
  unfold expo
  split_ifs with h
  · rw [h, abs_zero]
    positivity
  · have h1 := Int.lt_zpow_succ_log_self (b := 2) (by norm_num) |q|
    have h2 : (2 : ℚ) ^ (Int.log 2 |q| + 1) ≤ (2 : ℚ) ^ (max (Int.log 2 |q|) (-1022) + 1) :=
      zpow_le_zpow_right₀ (by norm_num) (by have := le_max_left (Int.log 2 |q|) (-1022); omega)
    push_cast at h1
    exact lt_of_lt_of_le h1 h2

theorem zpow_expo_le (q : ℚ) (h : -1022 < expo q) : (2 : ℚ) ^ expo q ≤ |q| := by
  unfold expo at h ⊢
  split_ifs at h ⊢ with h0
  · omega
  · have hq : 0 < |q| := abs_pos.mpr h0
    have h1 := Int.zpow_log_le_self (b := 2) (by norm_num) hq
    have h2 : max (Int.log 2 |q|) (-1022) = Int.log 2 |q| := by
      rcases max_cases (Int.log 2 |q|) (-1022) with ⟨e, _⟩ | ⟨e, _⟩
      · exact e
      · omega
    rw [h2]
    exact_mod_cast h1

theorem expo_le_of_lt (q : ℚ) (e : Int) (he : -1022 ≤ e) (h : |q| < (2 : ℚ) ^ (e + 1)) :
    expo q ≤ e := by
  unfold expo
  split_ifs with h0
  · exact he
  · have hq : 0 < |q| := abs_pos.mpr h0
    have h1 : Int.log 2 |q| < e + 1 := (Int.lt_zpow_iff_log_lt (b := 2) (by norm_num) hq).mp
      (by exact_mod_cast h)
    exact max_le (by omega) he

/-- The exponent of a value whose binade is known. -/
theorem expo_eq (q : ℚ) (e : Int) (he : -1022 ≤ e) (h1 : (2 : ℚ) ^ e ≤ |q|)
    (h2 : |q| < (2 : ℚ) ^ (e + 1)) : expo q = e := by
  apply le_antisymm (expo_le_of_lt q e he h2)
  by_contra hlt
  have h3 := abs_lt_zpow_expo q
  have h4 : (2 : ℚ) ^ (expo q + 1) ≤ (2 : ℚ) ^ e :=
    zpow_le_zpow_right₀ (by norm_num) (by omega)
  linarith

/-- A multiple of a binary64 spacing that is below `2^53` units is a binary64 value. -/
theorem fl_of_mul_zpow (n k : Int) (hn : |n| < 2 ^ 53) (hk : -1074 ≤ k) :
    fl ((n : ℚ) * 2 ^ k) = (n : ℚ) * 2 ^ k := by
  have h2 : (0 : ℚ) < 2 ^ k := by positivity
  have hlt : |(n : ℚ) * 2 ^ k| < (2 : ℚ) ^ (k + 52 + 1) := by
    rw [abs_mul, abs_of_pos h2, show k + 52 + 1 = 53 + k by ring, zpow_add₀ (by norm_num)]
    apply mul_lt_mul_of_pos_right _ h2
    have : ((|n| : Int) : ℚ) < ((2 ^ 53 : Int) : ℚ) := Int.cast_lt.mpr hn
    push_cast at this
    exact_mod_cast this
  have he := expo_le_of_lt _ (k + 52) (by omega) hlt
  obtain ⟨j, hj⟩ : ∃ j : Nat, k = expo ((n : ℚ) * 2 ^ k) - 52 + j :=
    ⟨(k - (expo ((n : ℚ) * 2 ^ k) - 52)).toNat, by omega⟩
  have hu : ulp ((n : ℚ) * 2 ^ k) = 2 ^ (expo ((n : ℚ) * 2 ^ k) - 52) := rfl
  have hq : (n : ℚ) * 2 ^ k / ulp ((n : ℚ) * 2 ^ k) = ((n * 2 ^ j : Int) : ℚ) := by
    rw [hu]
    generalize expo ((n : ℚ) * 2 ^ k) - 52 = m at hj
    rw [hj, zpow_add₀ (by norm_num)]
    push_cast
    field_simp
    ring
  unfold fl
  rw [hq, roundEven_intCast, ← hq]
  field_simp [(ulp_pos _).ne.symm]

theorem isDouble_repr (r : ℚ) (h : IsDouble r) : ∃ n : Int, r = n * ulp r :=
  ⟨roundEven (r / ulp r), h.symm⟩

theorem div_ulp_int (r x : ℚ) (hr : IsDouble r) (h : expo x ≤ expo r) :
    ∃ n : Int, r = n * ulp x := by
  obtain ⟨n, hn⟩ := isDouble_repr r hr
  obtain ⟨j, hj⟩ : ∃ j : Nat, expo r - 52 = expo x - 52 + j := ⟨(expo r - expo x).toNat, by omega⟩
  refine ⟨n * 2 ^ j, ?_⟩
  have hu : ulp r = ulp x * 2 ^ j := by
    unfold ulp
    rw [hj, zpow_add₀ (by norm_num)]
    norm_cast
  calc r = n * ulp r := hn
    _ = ((n * 2 ^ j : Int) : ℚ) * ulp x := by rw [hu]; push_cast; ring

theorem zpow_expo_eq (x : ℚ) : (2 : ℚ) ^ expo x = ((2 ^ 52 : Int) : ℚ) * ulp x := by
  unfold ulp
  rw [show expo x = 52 + (expo x - 52) by ring, zpow_add₀ (by norm_num)]
  norm_num

theorem abs_lt_of_expo_lt (r x : ℚ) (h : expo r < expo x) : |r| < (2 : ℚ) ^ expo x :=
  lt_of_lt_of_le (abs_lt_zpow_expo r) (zpow_le_zpow_right₀ (by norm_num) (by omega))

/-- Rounding to binary64 does not cross a binary64 value: a binary64 lower bound of `x` is a
lower bound of the rounded `x`. -/
theorem fl_ge_of_le (r x : ℚ) (hr : IsDouble r) (h : r ≤ x) : r ≤ fl x := by
  have hu := ulp_pos x
  by_cases hc : expo x ≤ expo r
  · obtain ⟨n, hn⟩ := div_ulp_int r x hr hc
    have h1 : (n : ℚ) ≤ x / ulp x := by
      rw [le_div_iff₀ hu, ← hn]
      exact h
    have h2 := roundEven_ge_of_int_le _ n h1
    unfold fl
    rw [hn]
    exact mul_le_mul_of_nonneg_right (by exact_mod_cast h2) hu.le
  · have hlt : expo r < expo x := by omega
    have h1 := abs_lt_of_expo_lt r x hlt
    have h2 := zpow_expo_le x (by have := expo_ge r; omega)
    have hx : 0 < x := by
      by_contra hneg
      have hx0 : x ≤ 0 := not_lt.mp hneg
      have e1 : |x| = -x := abs_of_nonpos hx0
      have e2 : |r| = -r := abs_of_nonpos (le_trans h hx0)
      rw [e1] at h2
      rw [e2] at h1
      linarith
    rw [abs_of_pos hx, zpow_expo_eq] at h2
    have h3 : ((2 ^ 52 : Int) : ℚ) ≤ x / ulp x := by
      rw [le_div_iff₀ hu]
      exact h2
    have h4 := roundEven_ge_of_int_le _ _ h3
    have h5 : (2 : ℚ) ^ expo x ≤ fl x := by
      rw [zpow_expo_eq]
      unfold fl
      exact mul_le_mul_of_nonneg_right (by exact_mod_cast h4) hu.le
    have h6 := le_abs_self r
    linarith

/-- A binary64 upper bound of `x` is an upper bound of the rounded `x`. -/
theorem fl_le_of_le (r x : ℚ) (hr : IsDouble r) (h : x ≤ r) : fl x ≤ r := by
  have hu := ulp_pos x
  by_cases hc : expo x ≤ expo r
  · obtain ⟨n, hn⟩ := div_ulp_int r x hr hc
    have h1 : x / ulp x ≤ (n : ℚ) := by
      rw [div_le_iff₀ hu, ← hn]
      exact h
    have h2 := roundEven_le_of_le_int _ n h1
    unfold fl
    rw [hn]
    exact mul_le_mul_of_nonneg_right (by exact_mod_cast h2) hu.le
  · have hlt : expo r < expo x := by omega
    have h1 := abs_lt_of_expo_lt r x hlt
    have h2 := zpow_expo_le x (by have := expo_ge r; omega)
    have hx : x < 0 := by
      by_contra hneg
      have hx0 : 0 ≤ x := not_lt.mp hneg
      have e1 : |x| = x := abs_of_nonneg hx0
      have e2 : |r| = r := abs_of_nonneg (le_trans hx0 h)
      rw [e1] at h2
      rw [e2] at h1
      linarith
    rw [abs_of_neg hx, zpow_expo_eq] at h2
    have h3 : x / ulp x ≤ ((-(2 ^ 52) : Int) : ℚ) := by
      rw [div_le_iff₀ hu]
      push_cast at h2 ⊢
      linarith
    have h4 := roundEven_le_of_le_int _ _ h3
    have h5 : fl x ≤ -(2 : ℚ) ^ expo x := by
      rw [zpow_expo_eq]
      unfold fl
      have := mul_le_mul_of_nonneg_right (show ((roundEven (x / ulp x) : Int) : ℚ)
        ≤ ((-(2 ^ 52) : Int) : ℚ) by exact_mod_cast h4) hu.le
      push_cast at this ⊢
      linarith
    have h6 := neg_abs_le r
    linarith

/-- The rounding error is at most half a spacing. -/
theorem fl_near (x : ℚ) : |fl x - x| ≤ ulp x / 2 := by
  have hu := ulp_pos x
  have h := roundEven_near (x / ulp x)
  have e : fl x - x = ((roundEven (x / ulp x) : ℚ) - x / ulp x) * ulp x := by
    unfold fl
    field_simp
  rw [e, abs_mul, abs_of_pos hu]
  calc |(roundEven (x / ulp x) : ℚ) - x / ulp x| * ulp x ≤ 1 / 2 * ulp x :=
        mul_le_mul_of_nonneg_right h hu.le
    _ = ulp x / 2 := by ring

/-- The rounded value is a binary64 value. -/
theorem isDouble_fl (x : ℚ) : IsDouble (fl x) := by
  have hu := ulp_pos x
  have hlt := abs_lt_zpow_expo x
  have e53 : (2 : ℚ) ^ (expo x + 1) = ((2 ^ 53 : Int) : ℚ) * ulp x := by
    unfold ulp
    rw [show expo x + 1 = 53 + (expo x - 52) by ring, zpow_add₀ (by norm_num)]
    norm_num
  rw [e53, abs_lt] at hlt
  have h1 : x / ulp x ≤ ((2 ^ 53 : Int) : ℚ) := by
    rw [div_le_iff₀ hu]; linarith
  have h2 : ((-(2 ^ 53) : Int) : ℚ) ≤ x / ulp x := by
    rw [le_div_iff₀ hu]; push_cast at hlt ⊢; linarith
  have h3 := roundEven_le_of_le_int _ _ h1
  have h4 := roundEven_ge_of_int_le _ _ h2
  have hk : -1074 ≤ expo x - 52 := by have := expo_ge x; omega
  unfold IsDouble
  have hfl : fl x = (roundEven (x / ulp x) : ℚ) * 2 ^ (expo x - 52) := rfl
  rcases lt_or_eq_of_le h3 with h5 | h5
  · rcases lt_or_eq_of_le h4 with h6 | h6
    · rw [hfl]
      exact fl_of_mul_zpow _ _ (by rw [abs_lt]; omega) hk
    · rw [hfl, ← h6]
      have e : (((-(2 ^ 53) : Int)) : ℚ) * 2 ^ (expo x - 52) =
          ((-1 : Int) : ℚ) * 2 ^ (expo x - 52 + 53) := by
        rw [zpow_add₀ (by norm_num)]; norm_num; ring
      rw [e]
      exact fl_of_mul_zpow _ _ (by decide) (by omega)
  · rw [hfl, h5]
    have e : (((2 ^ 53 : Int)) : ℚ) * 2 ^ (expo x - 52) =
        ((1 : Int) : ℚ) * 2 ^ (expo x - 52 + 53) := by
      rw [zpow_add₀ (by norm_num)]; norm_num; ring
    rw [e]
    exact fl_of_mul_zpow _ _ (by decide) (by omega)

/-- Evaluation of the rounding in a known binade. -/
theorem fl_eq_of_near (q : ℚ) (e n : Int) (he : -1022 ≤ e) (h1 : (2 : ℚ) ^ e ≤ |q|)
    (h2 : |q| < (2 : ℚ) ^ (e + 1)) (hn : |q / 2 ^ (e - 52) - n| < 1 / 2) :
    fl q = n * 2 ^ (e - 52) := by
  unfold fl ulp
  rw [expo_eq q e he h1 h2, roundEven_eq_of_near _ n hn]

theorem fl_intCast (n : Int) (h : |n| < 2 ^ 53) : fl (n : ℚ) = n := by
  have := fl_of_mul_zpow n 0 h (by decide)
  simpa using this

theorem fl_zero : fl 0 = 0 := by
  have := fl_intCast 0 (by decide)
  simpa using this

/-- Halves and quarters of integers below `2^51` in magnitude are binary64 values. -/
theorem isDouble_quarters (n : Int) (h : |n| < 2 ^ 53) : IsDouble ((n : ℚ) / 4) := by
  have := fl_of_mul_zpow n (-2) h (by decide)
  have e : (n : ℚ) * 2 ^ (-2 : Int) = (n : ℚ) / 4 := by
    rw [zpow_neg]; norm_num; ring
  rw [e] at this
  exact this

/-- The literal `0.2` as a `double`. -/
theorem fl_one_fifth : fl (1 / 5) = 3602879701896397 / 18014398509481984 := by
  have ha : |(1 / 5 : ℚ)| = 1 / 5 := abs_of_pos (by norm_num)
  have h := fl_eq_of_near (1 / 5) (-3) 7205759403792794 (by decide)
    (by rw [ha]; norm_num) (by rw [ha]; norm_num) (by rw [abs_lt]; norm_num)
  rw [h]
  norm_num

/-! ## Lemmas on the decimal-to-fixed conversion -/

theorem mul_getD (p : Nat) (hp : p ≤ 6) : _mul.getD p 0 = 10 ^ p := by
  interval_cases p <;> rfl

theorem int2sll_of_int (r : Int) (h : IsInt32 r) : int2sll r = r * 2 ^ 32 := by
  unfold int2sll
  apply wrap64_of_range
  unfold IsInt32 at h
  omega

theorem narrowInt_of_int32 (n : Int) (h : IsInt32 n) : narrowInt n = n := by
  unfold IsInt32 at h
  unfold narrowInt
  omega

theorem narrowInt_range (n : Int) : IsInt32 (narrowInt n) := by
  unfold narrowInt IsInt32
  omega

/-- The function `l_tofix` on a Lua number and a precision in 0..6, as a decision list over
the scaled double `val = fl (v * 10^p)` and the integer `roundVal val`. -/
theorem l_tofix_number (v : ℚ) (p : Nat) (hp : p ≤ 6) :
    l_tofix (.number v) p =
      if (10 : ℚ) ^ 9 ≤ fl (v * 10 ^ p) then .error .range
      else if IsInt32 (roundVal (fl (v * 10 ^ p))) then
        if |fl (fl (v * 10 ^ p) - roundVal (fl (v * 10 ^ p)))| > fl (1 / 5) then
          .error (.precision ((p : Int) + 1))
        else .ok (Int.tdiv (roundVal (fl (v * 10 ^ p)) * 2 ^ 32) (10 ^ p))
      else .error .undefinedCast := by
  have hn : narrowInt (p : Int) = p := narrowInt_of_int32 _ (by unfold IsInt32; omega)
  have hlen : ¬ ((p : Int) > 6 ∨ (p : Int) < 0) := by omega
  have e9 : (1000000000 : ℚ) = 10 ^ 9 := by norm_num
  simp only [l_tofix, hn, if_neg hlen, Int.toNat_ofNat, mul_getD p hp, castInt, roundVal,
    ge_iff_le, e9]
  push_cast
  by_cases h1 : (10 : ℚ) ^ 9 ≤ fl (v * 10 ^ p)
  · simp only [if_pos h1]
  · by_cases h2 : IsInt32 (truncQ (fl (fl (v * 10 ^ p) +
        (if fl (v * 10 ^ p) > 0 then 1 / 2 else -(1 / 2)))))
    · by_cases h3 : |fl (fl (v * 10 ^ p) - truncQ (fl (fl (v * 10 ^ p) +
          (if fl (v * 10 ^ p) > 0 then 1 / 2 else -(1 / 2)))))| > fl (1 / 5)
      · simp only [if_neg h1, if_pos h2, if_pos h3]
      · simp only [if_neg h1, if_pos h2, if_neg h3, int2sll_of_int _ h2]
        norm_num only
    · simp only [if_neg h1, if_neg h2]

theorem roundHalfAway_near (q : ℚ) :
    q - 1 / 2 ≤ roundHalfAway q ∧ (roundHalfAway q : ℚ) ≤ q + 1 / 2 := by
  unfold roundHalfAway
  split_ifs with h
  · have h1 := Int.floor_le (q + 1 / 2)
    have h2 := Int.lt_floor_add_one (q + 1 / 2)
    constructor <;> linarith
  · have h1 := Int.floor_le (-q + 1 / 2)
    have h2 := Int.lt_floor_add_one (-q + 1 / 2)
    push_cast
    constructor <;> linarith

theorem roundHalfAway_eq (q : ℚ) (n : Int) (hlo : (n : ℚ) - 1 / 2 < q) (hhi : q < n + 1 / 2) :
    roundHalfAway q = n := by
  unfold roundHalfAway
  split_ifs with h
  · rw [Int.floor_eq_iff]
    constructor <;> linarith
  · rw [neg_eq_iff_eq_neg, Int.floor_eq_iff]
    push_cast
    constructor <;> linarith

theorem roundHalfAway_intCast (n : Int) : roundHalfAway (n : ℚ) = n :=
  roundHalfAway_eq _ n (by linarith) (by linarith)

/-- The integer `(int)(val + (val > 0 ? 0.5 : -0.5))` is the integer `R` whenever `val` is
within a quarter of `R`: the rounded sum stays strictly between `R` and the next integer
away from zero. -/
theorem roundVal_eq (val : ℚ) (R : Int) (hR : |R| < 2 ^ 50) (h : |val - R| < 1 / 4) :
    roundVal val = R := by
  rw [abs_lt] at h hR
  have d1 : ∀ c : Int, |c| ≤ 3 → IsDouble (((4 * R + c : Int) : ℚ) / 4) := by
    intro c hc
    apply isDouble_quarters
    rw [abs_le] at hc
    rw [abs_lt]
    omega
  unfold roundVal truncQ
  by_cases hv : val > 0
  · have hR0 : (0 : ℚ) ≤ R := by
      have h1 : ((-1 : Int) : ℚ) < (R : ℚ) := by push_cast; linarith
      have h2 := Int.cast_lt.mp h1
      exact_mod_cast (show (0 : Int) ≤ R by omega)
    have l1 := fl_ge_of_le _ (val + 1 / 2) (d1 1 (by decide)) (by push_cast; linarith)
    have l2 := fl_le_of_le _ (val + 1 / 2) (d1 3 (by decide)) (by push_cast; linarith)
    push_cast at l1 l2
    rw [if_pos hv, if_pos (by linarith), Int.floor_eq_iff]
    constructor <;> linarith
  · have hR0 : (R : ℚ) ≤ 0 := by
      have h1 : (R : ℚ) < ((1 : Int) : ℚ) := by push_cast; linarith
      have h2 := Int.cast_lt.mp h1
      exact_mod_cast (show R ≤ (0 : Int) by omega)
    have l1 := fl_ge_of_le _ (val + -(1 / 2)) (d1 (-3) (by decide)) (by push_cast; linarith)
    have l2 := fl_le_of_le _ (val + -(1 / 2)) (d1 (-1) (by decide)) (by push_cast; linarith)
    push_cast at l1 l2
    rw [if_neg hv, if_neg (by linarith), Int.ceil_eq_iff]
    constructor <;> linarith

theorem fl_one_fifth_pos : (0 : ℚ) < fl (1 / 5) := by
  rw [fl_one_fifth]; norm_num

/-- When the scaled value is an integer `n` with `-2^31 ≤ n < 10^9`, `l_tofix` returns the
truncated quotient of `n * 2^32` by `10^p`. -/
theorem l_tofix_exact (v : ℚ) (p : Nat) (n : Int) (hp : p ≤ 6) (hv : v * 10 ^ p = n)
    (hlo : -2 ^ 31 ≤ n) (hhi : n < 10 ^ 9) :
    l_tofix (.number v) p = .ok (Int.tdiv (n * 2 ^ 32) (10 ^ p)) := by
  have hfl : fl (v * 10 ^ p) = n := by
    rw [hv]
    exact fl_intCast n (by rw [abs_lt]; omega)
  have hr : roundVal (n : ℚ) = n :=
    roundVal_eq _ n (by rw [abs_lt]; omega) (by rw [sub_self, abs_zero]; norm_num)
  have h1 : ¬ ((10 : ℚ) ^ 9 ≤ (n : ℚ)) := by
    rw [not_le]
    exact_mod_cast hhi
  have h2 : IsInt32 n := ⟨hlo, by omega⟩
  have h3 : ¬ (|fl ((n : ℚ) - n)| > fl (1 / 5)) := by
    rw [sub_self, fl_zero, abs_zero]
    exact not_lt.mpr fl_one_fifth_pos.le
  rw [l_tofix_number v p hp, hfl, hr, if_neg h1, if_pos h2, if_neg h3]

theorem l_tofix_five_quarters : l_tofix (.number (5 / 4)) 2 = .ok 5368709120 :=
  l_tofix_exact (5 / 4) 2 125 (by decide) (by norm_num) (by decide) (by decide)

theorem isDouble_intCast (n : Int) (h : |n| < 2 ^ 53) : IsDouble (n : ℚ) := fl_intCast n h

theorem isDouble_quarter : IsDouble (1 / 4) := by
  have := isDouble_quarters 1 (by decide)
  simpa using this

theorem fl_one_fifth_lt : fl (1 / 5) < 1 / 4 := by
  rw [fl_one_fifth]; norm_num

/-- A difference of at least a quarter stays at least a quarter after rounding. -/
theorem abs_fl_ge_quarter (x : ℚ) (h : 1 / 4 ≤ |x|) : 1 / 4 ≤ |fl x| := by
  rcases le_or_lt 0 x with hx | hx
  · rw [abs_of_nonneg hx] at h
    have := fl_ge_of_le _ x isDouble_quarter h
    exact le_trans this (le_abs_self _)
  · rw [abs_of_neg hx] at h
    have := fl_le_of_le _ x (isDouble_quarters (-1) (by decide)) (by push_cast; linarith)
    push_cast at this
    have h2 := neg_abs_le (fl x)
    linarith

/-- Where `l_tofix` succeeds, its integer `round_val` is the half-away-from-zero rounding of
the exact product `v * 10^p`. -/
theorem roundVal_of_success (e : ℚ) (h2 : IsInt32 (roundVal (fl e)))
    (h3 : ¬ (|fl (fl e - roundVal (fl e))| > fl (1 / 5))) :
    roundVal (fl e) = roundHalfAway e := by
  generalize roundVal (fl e) = rv at h2 h3
  have hq : |fl e - rv| < 1 / 4 := by
    by_contra hc
    have := abs_fl_ge_quarter _ (not_lt.mp hc)
    have := fl_one_fifth_lt
    exact h3 (by linarith)
  obtain ⟨i1, i2⟩ := h2
  have r1 : (-2 ^ 31 : ℚ) ≤ rv := by exact_mod_cast i1
  have r2 : (rv : ℚ) < 2 ^ 31 := by exact_mod_cast i2
  rw [abs_lt] at hq
  have d32 : IsDouble ((2 : ℚ) ^ 32) := by
    have := isDouble_intCast (2 ^ 32) (by decide)
    exact_mod_cast this
  have dn32 : IsDouble (-(2 : ℚ) ^ 32) := by
    have := isDouble_intCast (-(2 ^ 32)) (by decide)
    exact_mod_cast this
  have he : |e| < (2 : ℚ) ^ ((31 : Int) + 1) := by
    rw [abs_lt]
    constructor
    · by_contra hc
      have := fl_le_of_le _ e dn32 (by norm_num at hc ⊢; linarith)
      norm_num at this r1 r2
      linarith
    · by_contra hc
      have := fl_ge_of_le _ e d32 (by norm_num at hc ⊢; linarith)
      norm_num at this r1 r2
      linarith
  have hexp := expo_le_of_lt e 31 (by decide) he
  have hulp : ulp e ≤ (2 : ℚ) ^ (-21 : Int) := by
    unfold ulp
    exact zpow_le_zpow_right₀ (by norm_num) (by omega)
  have hnear := fl_near e
  rw [abs_le] at hnear
  have h21 : (2 : ℚ) ^ (-21 : Int) = 1 / 2097152 := by
    rw [zpow_neg]; norm_num
  rw [h21] at hulp
  exact (roundHalfAway_eq e rv (by linarith) (by linarith)).symm

/-- A binary64 value at distance at most one half from an integer differs from it by a
binary64 value: the subtraction `val - round_val` of `l_tofix` is exact. -/
theorem isDouble_sub_int (v : ℚ) (R : Int) (hv : IsDouble v) (h : |v - R| ≤ 1 / 2) :
    IsDouble (v - R) := by
  obtain ⟨n, hn⟩ := isDouble_repr v hv
  have hu : ulp v = 2 ^ (expo v - 52) := rfl
  have hge := expo_ge v
  have hlt := abs_lt_zpow_expo v
  rw [hu] at hn
  generalize expo v = ex at hn hge hlt
  rcases le_or_lt 0 (ex - 52) with hk | hk
  · obtain ⟨j, hj⟩ : ∃ j : Nat, ex - 52 = j := ⟨(ex - 52).toNat, by omega⟩
    rw [hj, zpow_natCast] at hn
    obtain ⟨z, hz⟩ : ∃ z : Int, v - R = (z : ℚ) := ⟨n * 2 ^ j - R, by rw [hn]; push_cast; ring⟩
    rw [hz] at h ⊢
    have h1 : ((|z| : Int) : ℚ) < ((1 : Int) : ℚ) := by
      rw [Int.cast_abs]
      push_cast
      linarith
    have h2 := Int.cast_lt.mp h1
    have h3 : z = 0 := by
      rw [abs_lt] at h2
      omega
    rw [h3]
    exact isDouble_intCast 0 (by decide)
  · rcases le_or_lt (-53) (ex - 52) with hk2 | hk2
    · obtain ⟨j, hj, hj53⟩ : ∃ j : Nat, ex - 52 = -(j : Int) ∧ j ≤ 53 :=
        ⟨(-(ex - 52)).toNat, by omega, by omega⟩
      have hpos : (0 : ℚ) < 2 ^ j := by positivity
      have hv2 : v = n / 2 ^ j := by
        rw [hn, hj, zpow_neg, zpow_natCast]
        ring
      obtain ⟨z, hz⟩ : ∃ z : Int, (z : ℚ) = (v - R) * 2 ^ j :=
        ⟨n - R * 2 ^ j, by rw [hv2]; push_cast; field_simp; ring⟩
      have e : v - R = (z : ℚ) * 2 ^ (ex - 52) := by
        rw [hz, hj, zpow_neg, zpow_natCast]
        field_simp
      have hb : |(z : ℚ)| ≤ 2 ^ j / 2 := by
        rw [hz, abs_mul, abs_of_pos hpos]
        calc |v - R| * 2 ^ j ≤ 1 / 2 * 2 ^ j := mul_le_mul_of_nonneg_right h hpos.le
          _ = 2 ^ j / 2 := by ring
      have hb2 : (2 : ℚ) ^ j ≤ 2 ^ 53 := pow_le_pow_right₀ (by norm_num) hj53
      have hb3 : ((|z| : Int) : ℚ) < ((2 ^ 53 : Int) : ℚ) := by
        rw [Int.cast_abs]
        push_cast
        have : (0 : ℚ) < 2 ^ 53 := by positivity
        linarith
      rw [e]
      exact fl_of_mul_zpow _ _ (Int.cast_lt.mp hb3) (by omega)
    · have h2 : (2 : ℚ) ^ (ex + 1) ≤ (2 : ℚ) ^ (-1 : Int) :=
        zpow_le_zpow_right₀ (by norm_num) (by omega)
      have h3 : (2 : ℚ) ^ (-1 : Int) = 1 / 2 := by rw [zpow_neg]; norm_num
      rw [h3] at h2
      have h4 : |(R : ℚ)| < 1 := by
        have := abs_sub_abs_le_abs_sub (R : ℚ) v
        rw [abs_sub_comm] at this
        linarith
      have h5 : ((|R| : Int) : ℚ) < ((1 : Int) : ℚ) := by
        rw [Int.cast_abs]
        push_cast
        exact h4
      have h6 := Int.cast_lt.mp h5
      have h7 : R = 0 := by
        rw [abs_lt] at h6
        omega
      rw [h7]
      simpa using hv

/-- The conversion to `int` of `l_tofix` is defined for every scaled double above
`-2^31 - 1/2` that passes the range check. -/
theorem roundVal_int32 (val : ℚ) (hd : IsDouble val) (hlo : -(2 ^ 31) - 1 / 2 < val)
    (hhi : val < 10 ^ 9) : IsInt32 (roundVal val) := by
  have dq : ∀ c : Int, |c| < 2 ^ 53 → IsDouble ((c : ℚ) / 4) := isDouble_quarters
  unfold roundVal truncQ IsInt32
  by_cases hv : val > 0
  · have l1 := fl_ge_of_le _ (val + 1 / 2) (dq 2 (by decide)) (by push_cast; linarith)
    have l2 := fl_le_of_le _ (val + 1 / 2) (dq 4000000002 (by decide)) (by push_cast; linarith)
    push_cast at l1 l2
    rw [if_pos hv, if_pos (by linarith)]
    constructor
    · have : (0 : Int) ≤ ⌊fl (val + 1 / 2)⌋ := Int.floor_nonneg.mpr (by linarith)
      omega
    · have : ⌊fl (val + 1 / 2)⌋ < (1000000001 : Int) := Int.floor_lt.mpr (by push_cast; linarith)
      omega
  · have l2 := fl_le_of_le _ (val + -(1 / 2)) (dq (-2) (by decide)) (by push_cast; linarith)
    push_cast at l2
    rw [if_neg hv, if_neg (by linarith)]
    constructor
    · have key : -(2 ^ 31 : ℚ) - 1 < fl (val + -(1 / 2)) := by
        rcases le_or_lt (-(2 ^ 31 : ℚ)) val with hc | hc
        · have l1 := fl_ge_of_le _ (val + -(1 / 2)) (dq (-8589934594) (by decide))
            (by push_cast; linarith)
          push_cast at l1
          linarith
        · have ha : |val| = -val := abs_of_neg (by linarith)
          have hexp : expo val = 31 := expo_eq val 31 (by decide) (by rw [ha]; norm_num; linarith)
            (by rw [ha]; norm_num; linarith)
          obtain ⟨n, hn⟩ := isDouble_repr val hd
          have hu : ulp val = 2 ^ (-21 : Int) := by unfold ulp; rw [hexp]; norm_num
          have h21 : (2 : ℚ) ^ (-21 : Int) = 1 / 2097152 := by
            rw [zpow_neg]; norm_num
          rw [hu] at hn
          have e : val + -(1 / 2) = ((n - 2 ^ 20 : Int) : ℚ) * 2 ^ (-21 : Int) := by
            rw [hn, h21]; push_cast; ring
          have hnb : ((-(2 ^ 53) + 2 ^ 20 : Int) : ℚ) < (n : ℚ) ∧ (n : ℚ) < ((0 : Int) : ℚ) := by
            rw [hn, h21] at hlo hc
            push_cast
            constructor <;> linarith
          have hn1 := Int.cast_lt.mp hnb.1
          have hn2 := Int.cast_lt.mp hnb.2
          rw [e, fl_of_mul_zpow _ _ (by rw [abs_lt]; omega) (by decide), ← e]
          linarith
      have h1 : ((-(2 ^ 31) - 1 : Int) : ℚ) < fl (val + -(1 / 2)) := by push_cast; linarith
      have h2 := Int.lt_ceil.mpr h1
      omega
    · have : ⌈fl (val + -(1 / 2))⌉ ≤ (0 : Int) := Int.ceil_le.mpr (by push_cast; linarith)
      omega

/-- The scaled double of a value at or beyond `1e9` is at or beyond `1e9`. -/
theorem fl_ge_billion (e : ℚ) (h : (10 : ℚ) ^ 9 ≤ e) : (10 : ℚ) ^ 9 ≤ fl e := by
  have hd : IsDouble (((10 ^ 9 : Int) : ℚ)) := isDouble_intCast _ (by decide)
  have := fl_ge_of_le _ e hd (by push_cast; exact h)
  push_cast at this
  exact this

/-! ## Claims C1 to C6: decimal to fixed -/

/-- C1: whenever `l_tofix` succeeds on a decimal value `v` and a precision `p` in 0..6, the
raw 64-bit result is `R * 2^32` divided by `10^p` with the quotient truncated toward zero,
where `R` is `v * 10^p` rounded to the nearest integer, halves away from zero. -/
theorem C1_l_tofix_raw (v : ℚ) (p : Nat) (raw : Int) (hp : p ≤ 6)
    (h : l_tofix (.number v) p = .ok raw) :
    raw = Int.tdiv (roundHalfAway (v * 10 ^ p) * 2 ^ 32) (10 ^ p) := by
  rw [l_tofix_number v p hp] at h
  split_ifs at h with h1 h2 h3
  rw [← roundVal_of_success (v * 10 ^ p) h2 h3]
  exact (Except.ok.inj h).symm

/-- Witness of C1 at `v = 1.25`, `p = 2`: the conversion succeeds with raw value
`5368709120`, which is `125 * 2^32 / 100`. -/
theorem C1_l_tofix_raw_witness :
    l_tofix (.number (5 / 4)) 2 = .ok 5368709120 ∧
      (5368709120 : Int) = Int.tdiv (roundHalfAway ((5 / 4 : ℚ) * 10 ^ 2) * 2 ^ 32) (10 ^ 2) :=
  ⟨l_tofix_five_quarters, C1_l_tofix_raw (5 / 4) 2 5368709120 (by decide) l_tofix_five_quarters⟩

/-- C3: for every decimal value `v` and precision `p` in 0..6 whose scaled value `v * 10^p`
is at least `1e9`, `l_tofix` stops with the range error (and so yields no fixed value). -/
theorem C3_range_error (v : ℚ) (p : Nat) (hp : p ≤ 6) (h : (10 : ℚ) ^ 9 ≤ v * 10 ^ p) :
    l_tofix (.number v) p = .error .range := by
  rw [l_tofix_number v p hp, if_pos (fl_ge_billion _ h)]

/-- Witness of C3, the case named in the spec: `fromDecimal(2000000000, 0)` stops with the
range error. -/
theorem C3_range_error_witness :
    (10 : ℚ) ^ 9 ≤ 2000000000 * 10 ^ 0 ∧ l_tofix (.number 2000000000) 0 = .error .range :=
  ⟨by norm_num, C3_range_error 2000000000 0 (by decide) (by norm_num)⟩

/-- C4, the code at the failing input: the scaled value `-1000000000` has magnitude `1e9`,
yet `l_tofix(-1000000000, 0)` raises no range error and returns the fixed value `-1e9`
(raw `-1000000000 * 2^32`): the range check only tests `val >= 1000000000`. -/
theorem C4_negative_not_rejected :
    l_tofix (.number (-1000000000)) 0 = .ok (-4294967296000000000) := by
  have h := l_tofix_exact (-1000000000) 0 (-1000000000) (by decide) (by norm_num) (by decide)
    (by decide)
  have e : Int.tdiv (-1000000000 * 2 ^ 32) (10 ^ 0) = -4294967296000000000 := by decide
  rw [e] at h
  exact h

/-- Below `-2^31 - 1/2` the conversion to `int` of `l_tofix` is not defined. -/
theorem roundVal_not_int32 (val : ℚ) (h : val ≤ -(2 ^ 31) - 1 / 2) : ¬ IsInt32 (roundVal val) := by
  have hv : ¬ (val > 0) := by
    rw [not_lt]
    have : (0 : ℚ) < 2 ^ 31 := by positivity
    linarith
  have l2 := fl_le_of_le _ (val + -(1 / 2)) (isDouble_quarters (-8589934596) (by decide))
    (by push_cast; linarith)
  unfold roundVal truncQ IsInt32
  rw [if_neg hv, if_neg (by push_cast at l2; linarith)]
  have : ⌈fl (val + -(1 / 2))⌉ ≤ (-2147483649 : Int) := Int.ceil_le.mpr (by push_cast at l2 ⊢; linarith)
  omega

/-- An integer other than the nearest one is at least a quarter away. -/
theorem abs_sub_int_ge_quarter (val : ℚ) (rv : Int) (h : 1 / 4 ≤ |val - roundHalfAway val|) :
    1 / 4 ≤ |val - rv| := by
  by_cases e : rv = roundHalfAway val
  · rw [e]; exact h
  · obtain ⟨n1, n2⟩ := roundHalfAway_near val
    have h1 : (1 : ℚ) ≤ |(rv : ℚ) - roundHalfAway val| := by
      have : (1 : Int) ≤ |rv - roundHalfAway val| := Int.one_le_abs (sub_ne_zero.mpr e)
      exact_mod_cast this
    rw [le_abs']
    rcases le_abs'.mp h1 with h2 | h2
    · right; linarith
    · left; linarith

/-- C5 fails as stated at two inputs.  The double nearest to `0.2` (precision 0) passes the
range check and differs from its rounding `0` by more than `0.2`, yet `l_tofix` succeeds with
raw value `0`: the threshold of the code is the double `0.2`, which is above `1/5`.  The value
`-3000000000` (precision 0) passes the one-sided range check and is equal to its rounding, yet
`l_tofix` does not succeed: the conversion of the rounded value to `int` is not defined. -/
theorem C5_counterexample :
    (fl (1 / 5) * 10 ^ 0 < 10 ^ 9 ∧
      |fl (1 / 5) * 10 ^ 0 - roundHalfAway (fl (1 / 5) * 10 ^ 0)| > 1 / 5 ∧
      l_tofix (.number (fl (1 / 5))) 0 = .ok 0) ∧
    ((-3000000000 : ℚ) * 10 ^ 0 < 10 ^ 9 ∧
      ¬ (|(-3000000000 : ℚ) * 10 ^ 0 - roundHalfAway ((-3000000000 : ℚ) * 10 ^ 0)| > 1 / 5) ∧
      l_tofix (.number (-3000000000)) 0 = .error .undefinedCast) := by
  have hr : roundHalfAway (fl (1 / 5) * 10 ^ 0) = 0 := by
    rw [fl_one_fifth]
    exact roundHalfAway_eq _ 0 (by norm_num) (by norm_num)
  have hr3 : roundHalfAway ((-3000000000 : ℚ) * 10 ^ 0) = -3000000000 := by
    have := roundHalfAway_intCast (-3000000000)
    norm_num at this ⊢
    exact this
  refine ⟨⟨by rw [fl_one_fifth]; norm_num, ?_, ?_⟩, ⟨by norm_num, ?_, ?_⟩⟩
  · rw [hr, fl_one_fifth]
    norm_num [abs_of_pos]
  · have h := l_tofix_number (fl (1 / 5)) 0 (by decide)
    have e1 : fl (fl (1 / 5) * 10 ^ 0) = fl (1 / 5) := by
      rw [pow_zero, mul_one]
      exact isDouble_fl _
    have e2 : roundVal (fl (1 / 5)) = 0 :=
      roundVal_eq _ 0 (by decide) (by rw [fl_one_fifth]; norm_num [abs_of_pos])
    have e3 : fl (fl (1 / 5) - ((0 : Int) : ℚ)) = fl (1 / 5) := by
      rw [Int.cast_zero, sub_zero]
      exact isDouble_fl _
    rw [e1, e2, e3, if_neg (by rw [fl_one_fifth]; norm_num), if_pos (by decide),
      if_neg (by rw [abs_of_pos fl_one_fifth_pos]; exact lt_irrefl _)] at h
    exact h
  · rw [hr3]
    norm_num
  · have h := l_tofix_number (-3000000000) 0 (by decide)
    have e1 : fl ((-3000000000 : ℚ) * 10 ^ 0) = -3000000000 := by
      have := fl_intCast (-3000000000) (by decide)
      norm_num at this ⊢
      exact this
    rw [e1, if_neg (by norm_num), if_neg (roundVal_not_int32 _ (by norm_num))] at h
    exact h

/-- C5 (amended): for every double `v` and precision `p` in 0..6 whose scaled double
`val = fl (v * 10^p)` passes the range check (`val < 1e9`) and is above `-2^31 - 1/2`,
`l_tofix` stops with the precision error (digit position `p + 1`) if and only if `val`
differs from its half-away-from-zero rounding by more than the double `0.2`, and succeeds
otherwise, with the raw value of that rounding.  The double `0.2` is
`3602879701896397 / 2^54`, which is above `1/5`.  At and below `-2^31 - 1/2` the conversion of
the rounded value to `int` is not defined. -/
theorem C5_precision_check (v : ℚ) (p : Nat) (hp : p ≤ 6) (hhi : fl (v * 10 ^ p) < 10 ^ 9) :
    (-(2 ^ 31) - 1 / 2 < fl (v * 10 ^ p) →
      (l_tofix (.number v) p = .error (.precision (p + 1)) ↔
        |fl (v * 10 ^ p) - roundHalfAway (fl (v * 10 ^ p))| > fl (1 / 5)) ∧
      (¬ (|fl (v * 10 ^ p) - roundHalfAway (fl (v * 10 ^ p))| > fl (1 / 5)) →
        l_tofix (.number v) p =
          .ok (Int.tdiv (roundHalfAway (fl (v * 10 ^ p)) * 2 ^ 32) (10 ^ p)))) ∧
    (fl (v * 10 ^ p) ≤ -(2 ^ 31) - 1 / 2 → l_tofix (.number v) p = .error .undefinedCast) ∧
    fl (1 / 5) = 3602879701896397 / 18014398509481984 ∧ (1 / 5 : ℚ) < fl (1 / 5) := by
  have h1 : ¬ ((10 : ℚ) ^ 9 ≤ fl (v * 10 ^ p)) := not_le.mpr hhi
  have hd : IsDouble (fl (v * 10 ^ p)) := isDouble_fl _
  rw [l_tofix_number v p hp, if_neg h1]
  generalize fl (v * 10 ^ p) = val at hhi hd
  refine ⟨?_, ?_, fl_one_fifth, by rw [fl_one_fifth]; norm_num⟩
  · intro hlo
    have h2 := roundVal_int32 val hd hlo hhi
    obtain ⟨n1, n2⟩ := roundHalfAway_near val
    have hhalf : |val - roundHalfAway val| ≤ 1 / 2 := by
      rw [abs_le]; constructor <;> linarith
    rw [if_pos h2]
    by_cases hq : |val - roundHalfAway val| < 1 / 4
    · have hR : |roundHalfAway val| < 2 ^ 50 := by
        have b1 : ((-(2 ^ 50) : Int) : ℚ) < (roundHalfAway val : ℚ) := by push_cast; linarith
        have b2 : (roundHalfAway val : ℚ) < ((2 ^ 50 : Int) : ℚ) := by push_cast; linarith
        rw [abs_lt]
        exact ⟨Int.cast_lt.mp b1, Int.cast_lt.mp b2⟩
      have hrv := roundVal_eq val _ hR hq
      have hex : fl (val - roundHalfAway val) = val - roundHalfAway val :=
        isDouble_sub_int val _ hd hhalf
      rw [hrv, hex]
      constructor
      · constructor
        · intro h
          by_contra h3
          rw [if_neg h3] at h
          cases h
        · intro h3
          rw [if_pos h3]
      · intro h3
        rw [if_neg h3]
    · have hq2 : 1 / 4 ≤ |val - roundHalfAway val| := not_lt.mp hq
      have h3 : |val - roundHalfAway val| > fl (1 / 5) := lt_of_lt_of_le fl_one_fifth_lt hq2
      have h4 : |fl (val - roundVal val)| > fl (1 / 5) :=
        lt_of_lt_of_le fl_one_fifth_lt
          (abs_fl_ge_quarter _ (abs_sub_int_ge_quarter val (roundVal val) hq2))
      rw [if_pos h4]
      exact ⟨⟨fun _ => h3, fun _ => rfl⟩, fun hn => absurd h3 hn⟩
  · intro hlo
    rw [if_neg (roundVal_not_int32 val hlo)]

/-- Witness of C5 (amended), the case named in the spec: `fromDecimal(1.2345, 2)`, on the
double nearest to `1.2345` (scaled double `123.44999999999999`, rounded `123`), stops with the
precision error at digit position 3. -/
theorem C5_precision_check_witness :
    l_tofix (.number (fl (12345 / 10000))) 2 = .error (.precision 3) := by
  have hv : fl (12345 / 10000) = 5559693739988877 / 4503599627370496 := by
    have ha : |(12345 / 10000 : ℚ)| = 12345 / 10000 := abs_of_pos (by norm_num)
    have h := fl_eq_of_near (12345 / 10000) 0 5559693739988877 (by decide)
      (by rw [ha]; norm_num) (by rw [ha]; norm_num) (by rw [abs_lt]; norm_num)
    rw [h]
    norm_num
  have hval : fl (fl (12345 / 10000) * 10 ^ 2) = 2171755367183155 / 17592186044416 := by
    rw [hv]
    have ha : |(5559693739988877 / 4503599627370496 * 10 ^ 2 : ℚ)| =
        5559693739988877 / 4503599627370496 * 10 ^ 2 := abs_of_pos (by norm_num)
    have h := fl_eq_of_near (5559693739988877 / 4503599627370496 * 10 ^ 2) 6 8687021468732620
      (by decide) (by rw [ha]; norm_num) (by rw [ha]; norm_num) (by rw [abs_lt]; norm_num)
    rw [h]
    norm_num
  have hr : roundHalfAway (2171755367183155 / 17592186044416 : ℚ) = 123 :=
    roundHalfAway_eq _ 123 (by norm_num) (by norm_num)
  have hhi : fl (fl (12345 / 10000) * 10 ^ 2) < 10 ^ 9 := by rw [hval]; norm_num
  have hlo : -(2 ^ 31) - 1 / 2 < fl (fl (12345 / 10000) * 10 ^ 2) := by rw [hval]; norm_num
  exact ((C5_precision_check (fl (12345 / 10000)) 2 (by decide) hhi).1 hlo).1.mpr (by
    rw [hval, hr, fl_one_fifth]
    norm_num [abs_of_pos])

/-- The constructor `Vector2.New` on a precision in 0..6, as a decision list. -/
theorem Vector2_New_eq (x y : ℚ) (p : Nat) (hp : p ≤ 6) :
    Vector2.New x y p =
      if (10 : ℚ) ^ 9 ≤ fl (x * 10 ^ p) ∨ (10 : ℚ) ^ 9 ≤ fl (y * 10 ^ p) then .error .range
      else if IsInt32 (roundVal (fl (x * 10 ^ p))) ∧ IsInt32 (roundVal (fl (y * 10 ^ p))) then
        .ok ⟨Int.tdiv (roundVal (fl (x * 10 ^ p)) * 2 ^ 32) (10 ^ p),
             Int.tdiv (roundVal (fl (y * 10 ^ p)) * 2 ^ 32) (10 ^ p)⟩
      else .error .undefinedCast := by
  have hn : narrowInt (p : Int) = p := narrowInt_of_int32 _ (by unfold IsInt32; omega)
  have hlen : ¬ ((p : Int) > 6 ∨ (p : Int) < 0) := by omega
  have e9 : (1000000000 : ℚ) = 10 ^ 9 := by norm_num
  simp only [Vector2.New, hn, if_neg hlen, Int.toNat_ofNat, mul_getD p hp, castInt, roundVal,
    ge_iff_le, e9]
  push_cast
  by_cases h1 : (10 : ℚ) ^ 9 ≤ fl (x * 10 ^ p) ∨ (10 : ℚ) ^ 9 ≤ fl (y * 10 ^ p)
  · simp only [if_pos h1]
  · by_cases hx : IsInt32 (truncQ (fl (fl (x * 10 ^ p) +
        (if fl (x * 10 ^ p) > 0 then 1 / 2 else -(1 / 2)))))
    · by_cases hy : IsInt32 (truncQ (fl (fl (y * 10 ^ p) +
          (if fl (y * 10 ^ p) > 0 then 1 / 2 else -(1 / 2)))))
      · simp only [if_neg h1, if_pos hx, if_pos hy, if_pos (And.intro hx hy),
          int2sll_of_int _ hx, int2sll_of_int _ hy]
        norm_num only
      · simp only [if_neg h1, if_pos hx, if_neg hy, if_neg (fun h : _ ∧ _ => hy h.2)]
    · simp only [if_neg h1, if_neg hx, if_neg (fun h : _ ∧ _ => hx h.1)]

/-- The constructor `Vector3.New` on a precision in 0..6, as a decision list. -/
theorem Vector3_New_eq (x y z : ℚ) (p : Nat) (hp : p ≤ 6) :
    Vector3.New x y z p =
      if (10 : ℚ) ^ 9 ≤ fl (x * 10 ^ p) ∨ (10 : ℚ) ^ 9 ≤ fl (y * 10 ^ p) ∨
          (10 : ℚ) ^ 9 ≤ fl (z * 10 ^ p) then
        .error .range
      else if IsInt32 (roundVal (fl (x * 10 ^ p))) ∧ IsInt32 (roundVal (fl (y * 10 ^ p))) ∧
          IsInt32 (roundVal (fl (z * 10 ^ p))) then
        .ok ⟨Int.tdiv (roundVal (fl (x * 10 ^ p)) * 2 ^ 32) (10 ^ p),
             Int.tdiv (roundVal (fl (y * 10 ^ p)) * 2 ^ 32) (10 ^ p),
             Int.tdiv (roundVal (fl (z * 10 ^ p)) * 2 ^ 32) (10 ^ p)⟩
      else .error .undefinedCast := by
  have hn : narrowInt (p : Int) = p := narrowInt_of_int32 _ (by unfold IsInt32; omega)
  have hlen : ¬ ((p : Int) > 6 ∨ (p : Int) < 0) := by omega
  have e9 : (1000000000 : ℚ) = 10 ^ 9 := by norm_num
  simp only [Vector3.New, hn, if_neg hlen, Int.toNat_ofNat, mul_getD p hp, castInt, roundVal,
    ge_iff_le, e9]
  push_cast
  by_cases h1 : (10 : ℚ) ^ 9 ≤ fl (x * 10 ^ p) ∨ (10 : ℚ) ^ 9 ≤ fl (y * 10 ^ p) ∨
      (10 : ℚ) ^ 9 ≤ fl (z * 10 ^ p)
  · simp only [if_pos h1]
  · by_cases hx : IsInt32 (truncQ (fl (fl (x * 10 ^ p) +
        (if fl (x * 10 ^ p) > 0 then 1 / 2 else -(1 / 2)))))
    · by_cases hy : IsInt32 (truncQ (fl (fl (y * 10 ^ p) +
          (if fl (y * 10 ^ p) > 0 then 1 / 2 else -(1 / 2)))))
      · by_cases hz : IsInt32 (truncQ (fl (fl (z * 10 ^ p) +
            (if fl (z * 10 ^ p) > 0 then 1 / 2 else -(1 / 2)))))
        · simp only [if_neg h1, if_pos hx, if_pos hy, if_pos hz,
            if_pos (And.intro hx (And.intro hy hz)),
            int2sll_of_int _ hx, int2sll_of_int _ hy, int2sll_of_int _ hz]
          norm_num only
        · simp only [if_neg h1, if_pos hx, if_pos hy, if_neg hz,
            if_neg (fun h : _ ∧ _ ∧ _ => hz h.2.2)]
      · simp only [if_neg h1, if_pos hx, if_neg hy, if_neg (fun h : _ ∧ _ ∧ _ => hy h.2.1)]
    · simp only [if_neg h1, if_neg hx, if_neg (fun h : _ ∧ _ ∧ _ => hx h.1)]

theorem fl_half : fl (1 / 2) = 1 / 2 := by
  have := isDouble_quarters 2 (by decide)
  unfold IsDouble at this
  norm_num at this
  exact this

theorem fl_one : fl 1 = 1 := by
  have := fl_intCast 1 (by decide)
  simpa using this

theorem fl_neg_half : fl (-(1 / 2)) = -(1 / 2) := by
  have := isDouble_quarters (-2) (by decide)
  unfold IsDouble at this
  norm_num at this ⊢
  exact this

/-- The integer `(int)(0.5 + 0.5)` is `1`. -/
theorem roundVal_half : roundVal (1 / 2) = 1 := by
  have e : fl ((1 / 2 : ℚ) + (if (1 / 2 : ℚ) > 0 then 1 / 2 else -(1 / 2))) = 1 := by
    rw [if_pos (by norm_num), show (1 / 2 + 1 / 2 : ℚ) = 1 by norm_num, fl_one]
  unfold roundVal truncQ
  rw [e]
  norm_num

/-- The integer `(int)(0 - 0.5)` is `0`. -/
theorem roundVal_zero : roundVal 0 = 0 :=
  roundVal_eq 0 0 (by decide) (by norm_num)

/-- C6, the code at the failing input: `New(0.5, 0, 0)` of Vector2 and `New(0.5, 0, 0, 0)` of
Vector3 return a vector whose first component is `1.0`, although `l_tofix(0.5, 0)` stops with
the precision error: the constructors repeat the range check and the rounding of `l_tofix`
but not its precision check. -/
theorem C6_New_skips_precision_check :
    l_tofix (.number (1 / 2)) 0 = .error (.precision 1) ∧
      Vector2.New (1 / 2) 0 0 = .ok ⟨4294967296, 0⟩ ∧
      Vector3.New (1 / 2) 0 0 0 = .ok ⟨4294967296, 0, 0⟩ := by
  have v1 : fl ((1 / 2 : ℚ) * 10 ^ 0) = 1 / 2 := by
    rw [pow_zero, mul_one, fl_half]
  have v0 : fl ((0 : ℚ) * 10 ^ 0) = 0 := by
    rw [zero_mul, fl_zero]
  have i1 : IsInt32 1 := by decide
  have i0 : IsInt32 0 := by decide
  refine ⟨?_, ?_, ?_⟩
  · have h := l_tofix_number (1 / 2) 0 (by decide)
    have hd : fl ((1 / 2 : ℚ) - ((1 : Int) : ℚ)) = -(1 / 2) := by
      rw [show ((1 / 2 : ℚ) - ((1 : Int) : ℚ)) = -(1 / 2) by norm_num, fl_neg_half]
    rw [v1, roundVal_half, hd, if_neg (by norm_num), if_pos i1,
      if_pos (by rw [fl_one_fifth]; norm_num [abs_of_pos])] at h
    exact h
  · have h := Vector2_New_eq (1 / 2) 0 0 (by decide)
    rw [v1, v0, roundVal_half, roundVal_zero, if_neg (by norm_num), if_pos ⟨i1, i0⟩] at h
    exact h
  · have h := Vector3_New_eq (1 / 2) 0 0 0 (by decide)
    rw [v1, v0, roundVal_half, roundVal_zero, if_neg (by norm_num), if_pos ⟨i1, i0, i0⟩] at h
    exact h

/-- A tie of the binary64 rounding goes to the even significand: `1 - 2^-54` is half-way
between `1 - 2^-53` and `1` and is rounded to `1`. -/
theorem fl_tie_below_one : fl (1 - 1 / 2 ^ 54) = 1 ∧ fl (-(1 - 1 / 2 ^ 54)) = -1 := by
  have ha : |(1 - 1 / 2 ^ 54 : ℚ)| = 1 - 1 / 2 ^ 54 := abs_of_pos (by norm_num)
  have e1 : expo (1 - 1 / 2 ^ 54) = -1 :=
    expo_eq _ (-1) (by decide) (by rw [ha]; norm_num) (by rw [ha]; norm_num)
  have e2 : expo (-(1 - 1 / 2 ^ 54)) = -1 :=
    expo_eq _ (-1) (by decide) (by rw [abs_neg, ha]; norm_num) (by rw [abs_neg, ha]; norm_num)
  have u : (2 : ℚ) ^ ((-1 : Int) - 52) = 1 / 2 ^ 53 := by
    rw [show ((-1 : Int) - 52) = -53 by norm_num, zpow_neg]
    norm_num
  have q1 : (1 - 1 / 2 ^ 54 : ℚ) / (1 / 2 ^ 53) = 9007199254740991 + 1 / 2 := by norm_num
  have q2 : (-(1 - 1 / 2 ^ 54) : ℚ) / (1 / 2 ^ 53) = -9007199254740992 + 1 / 2 := by norm_num
  have f1 : ⌊(9007199254740991 + 1 / 2 : ℚ)⌋ = 9007199254740991 := by
    rw [Int.floor_eq_iff]; norm_num
  have f2 : ⌊(-9007199254740992 + 1 / 2 : ℚ)⌋ = -9007199254740992 := by
    rw [Int.floor_eq_iff]; norm_num
  constructor
  · unfold fl ulp
    rw [e1, u, q1]
    unfold roundEven
    rw [f1]
    norm_num
  · unfold fl ulp
    rw [e2, u, q2]
    unfold roundEven
    rw [f2]
    norm_num

/-- The constructor on a tie of the rounded sum: `New(0.49999999999999994,
-0.49999999999999994, 0)` is `(1.0, -1.0)`, because the double sums `x + 0.5` and `y - 0.5`
are rounded to `1` and `-1` before the conversion to `int`. -/
theorem Vector2_New_tie :
    Vector2.New (1 / 2 - 1 / 2 ^ 54) (-(1 / 2 - 1 / 2 ^ 54)) 0 = .ok ⟨4294967296, -4294967296⟩ := by
  have d1 : fl ((1 / 2 - 1 / 2 ^ 54 : ℚ) * 10 ^ 0) = 1 / 2 - 1 / 2 ^ 54 := by
    have := fl_of_mul_zpow 9007199254740991 (-54) (by decide) (by decide)
    have e : ((9007199254740991 : Int) : ℚ) * 2 ^ (-54 : Int) = 1 / 2 - 1 / 2 ^ 54 := by
      rw [zpow_neg]; norm_num
    rw [e] at this
    rw [pow_zero, mul_one]
    exact this
  have d2 : fl ((-(1 / 2 - 1 / 2 ^ 54) : ℚ) * 10 ^ 0) = -(1 / 2 - 1 / 2 ^ 54) := by
    have := fl_of_mul_zpow (-9007199254740991) (-54) (by decide) (by decide)
    have e : ((-9007199254740991 : Int) : ℚ) * 2 ^ (-54 : Int) = -(1 / 2 - 1 / 2 ^ 54) := by
      rw [zpow_neg]; norm_num
    rw [e] at this
    rw [pow_zero, mul_one]
    exact this
  have r1 : roundVal (1 / 2 - 1 / 2 ^ 54) = 1 := by
    have e : fl ((1 / 2 - 1 / 2 ^ 54 : ℚ) + (if (1 / 2 - 1 / 2 ^ 54 : ℚ) > 0 then 1 / 2
        else -(1 / 2))) = 1 := by
      rw [if_pos (by norm_num), show (1 / 2 - 1 / 2 ^ 54 + 1 / 2 : ℚ) = 1 - 1 / 2 ^ 54 by ring]
      exact fl_tie_below_one.1
    unfold roundVal truncQ
    rw [e]
    norm_num
  have r2 : roundVal (-(1 / 2 - 1 / 2 ^ 54)) = -1 := by
    have e : fl ((-(1 / 2 - 1 / 2 ^ 54) : ℚ) + (if (-(1 / 2 - 1 / 2 ^ 54) : ℚ) > 0 then 1 / 2
        else -(1 / 2))) = -1 := by
      rw [if_neg (by norm_num),
        show (-(1 / 2 - 1 / 2 ^ 54) + -(1 / 2) : ℚ) = -(1 - 1 / 2 ^ 54) by ring]
      exact fl_tie_below_one.2
    have hc : ⌈(-1 : ℚ)⌉ = -1 := by
      rw [Int.ceil_eq_iff]; norm_num
    unfold roundVal truncQ
    rw [e, if_neg (by norm_num), hc]
  have h := Vector2_New_eq (1 / 2 - 1 / 2 ^ 54) (-(1 / 2 - 1 / 2 ^ 54)) 0 (by decide)
  rw [d1, d2, r1, r2, if_neg (by norm_num), if_pos ⟨by decide, by decide⟩] at h
  exact h

/-! ## Claim C7: addition, subtraction, negation -/

/-- C7: addition, subtraction and negation are total and wrap modulo `2^64` (their results
are 64-bit values whatever the operands); `slladd(a,b) == slladd(b,a)` and
`sllsub(a,b) == sllneg(sllsub(b,a))`, also when an intermediate result overflows. -/
theorem C7_add_comm_sub_antisymm (a b : Int) :
    slladd a b = slladd b a ∧ sllsub a b = sllneg (sllsub b a) ∧
      IsSll (slladd a b) ∧ IsSll (sllsub a b) ∧ IsSll (sllneg a) ∧
      (slladd a b - (a + b)) % 2 ^ 64 = 0 ∧ (sllsub a b - (a - b)) % 2 ^ 64 = 0 ∧
      (sllneg a - -a) % 2 ^ 64 = 0 := by
  refine ⟨?_, ?_, wrap64_range _, wrap64_range _, wrap64_range _, wrap64_emod _, wrap64_emod _,
    wrap64_emod _⟩
  · unfold slladd
    rw [add_comm]
  · unfold sllsub sllneg
    rw [wrap64_neg_wrap64, neg_sub]

/-! ## Claim C8: the documented decomposition of multiply -/

theorem sll_decompose (a : Int) (ha : IsSll a) :
    a = (if a < 0 then -1 else 0) * 2 ^ 64 + a % 2 ^ 64 / 2 ^ 32 * 2 ^ 32 + a % 2 ^ 32 := by
  unfold IsSll at ha
  split_ifs <;> omega

theorem mul_decomposed (A B ah bh al bl : Int) :
    wrap64 ((A * bl + ah * bh + al * B) % 2 ^ 32 * 2 ^ 32 + (ah * bl + al * bh) % 2 ^ 64
        + al * bl / 2 ^ 32)
      = wrap64 (((A * 2 ^ 64 + ah * 2 ^ 32 + al) * (B * 2 ^ 64 + bh * 2 ^ 32 + bl)) / 2 ^ 32) := by
  have e : (A * 2 ^ 64 + ah * 2 ^ 32 + al) * (B * 2 ^ 64 + bh * 2 ^ 32 + bl)
      = al * bl + (A * B * 2 ^ 96 + (A * bh + ah * B) * 2 ^ 64
          + (A * bl + ah * bh + al * B) * 2 ^ 32 + (ah * bl + al * bh)) * 2 ^ 32 := by
    ring
  rw [e, Int.add_mul_ediv_right _ _ (by norm_num : (2 : Int) ^ 32 ≠ 0)]
  generalize A * bl + ah * bh + al * B = t3
  generalize ah * bl + al * bh = t4
  generalize al * bl / 2 ^ 32 = q
  have e3 := Int.emod_add_ediv t3 (2 ^ 32)
  have e4 := Int.emod_add_ediv t4 (2 ^ 64)
  have e5 : q + (A * B * 2 ^ 96 + (A * bh + ah * B) * 2 ^ 64 + t3 * 2 ^ 32 + t4)
      = (t3 % 2 ^ 32 * 2 ^ 32 + t4 % 2 ^ 64 + q)
        + 2 ^ 64 * (A * B * 2 ^ 32 + (A * bh + ah * B) + t3 / 2 ^ 32 + t4 / 2 ^ 64) := by
    linear_combination (-(2 : Int) ^ 32) * e3 - e4
  rw [e5, wrap64_add_mul]

/-- C8: for every pair of 64-bit operands the documented decomposition of multiply gives the
same 64-bit word as the genuine 128-bit signed product of the raw operands shifted right
arithmetically by 32 and truncated to 64 bits. -/
theorem C8_sllmul_eq_mulWide128 (a b : Int) (ha : IsSll a) (hb : IsSll b) :
    sllmul a b = mulWide128 a b := by
  unfold sllmul mulWide128
  simp only []
  rw [mul_decomposed, Int.shiftRight_eq_div_pow, ← sll_decompose a ha, ← sll_decompose b hb]
  norm_num

/-- Witness of C8 at `a = -1.5 - 2^-32`, `b = -1 - 2^-32` (both negative, both with a
fractional part). -/
theorem C8_sllmul_eq_mulWide128_witness :
    IsSll (-6442450945) ∧ IsSll (-4294967297) ∧
      sllmul (-6442450945) (-4294967297) = mulWide128 (-6442450945) (-4294967297) :=
  ⟨by decide, by decide, C8_sllmul_eq_mulWide128 (-6442450945) (-4294967297) (by decide)
    (by decide)⟩

/-! ## Claim C9: shifts -/

/-- C9: for `0 ≤ n ≤ 31`, `slldiv2n(x, n)` is `floor(x / 2^n)` (toward minus infinity, also
for negative `x`); `sllmul2n(x, n)` is `x * 2^n` wrapped modulo `2^64` (a 64-bit value
congruent to `x * 2^n`); and `slldiv2n(sllmul2n(x, n), n) == x` whenever `x * 2^n` does not
overflow 64 bits. -/
theorem C9_shifts (x : Int) (n : Nat) (hn : n ≤ 31) :
    slldiv2n x n = ⌊(x : ℚ) / 2 ^ n⌋ ∧
      (IsSll (sllmul2n x n) ∧ (sllmul2n x n - x * 2 ^ n) % 2 ^ 64 = 0) ∧
      (IsSll (x * 2 ^ n) → slldiv2n (sllmul2n x n) n = x) := by
  have hn64 : n < 64 := by omega
  refine ⟨?_, ⟨wrap64_range _, wrap64_emod _⟩, ?_⟩
  · unfold slldiv2n
    rw [Int.shiftRight_eq_div_pow]
    have h := Rat.floor_intCast_div_natCast x (2 ^ n)
    push_cast at h ⊢
    exact h.symm
  · intro h
    unfold slldiv2n sllmul2n
    rw [wrap64_of_range _ h, Int.shiftRight_eq_div_pow]
    push_cast
    exact Int.mul_ediv_cancel x (by positivity)

/-- Witness of C9 at `x = -5` (raw), `n = 1`: the right shift gives `-3`, the floor of
`-5/2`. -/
theorem C9_shifts_witness :
    slldiv2n (-5) 1 = ⌊((-5 : Int) : ℚ) / 2 ^ 1⌋ ∧
      (IsSll (sllmul2n (-5) 1) ∧ (sllmul2n (-5) 1 - -5 * 2 ^ 1) % 2 ^ 64 = 0) ∧
      slldiv2n (sllmul2n (-5) 1) 1 = -5 :=
  ⟨(C9_shifts (-5) 1 (by decide)).1, (C9_shifts (-5) 1 (by decide)).2.1,
    (C9_shifts (-5) 1 (by decide)).2.2 (by decide)⟩

/-! ## Claim C10: floor -/

theorem land_high_mask (u : Nat) (hu : u < 2 ^ 64) :
    u &&& 0xffffffff00000000 = u / 2 ^ 32 * 2 ^ 32 := by
  have hm : (0xffffffff00000000 : Nat) = (2 ^ 32 - 1) <<< 32 := by decide
  rw [hm, ← Nat.shiftRight_eq_div_pow, ← Nat.shiftLeft_eq]
  apply Nat.eq_of_testBit_eq
  intro i
  simp only [Nat.testBit_and, Nat.testBit_shiftLeft, Nat.testBit_two_pow_sub_one,
    Nat.testBit_shiftRight]
  by_cases h : 32 ≤ i
  · have e : 32 + (i - 32) = i := by omega
    by_cases h2 : i < 64
    · have h3 : i - 32 < 32 := by omega
      simp [h, h3, e]
    · have h3 : ¬ (i - 32 < 32) := by omega
      have h4 : u < 2 ^ i := lt_of_lt_of_le hu (Nat.pow_le_pow_right (by decide) (by omega))
      simp [h, h3, e, Nat.testBit_lt_two_pow h4]
  · simp [h]

theorem sllint_eq (x : Int) (hx : IsSll x) : sllint x = x - x % 2 ^ 32 := by
  unfold sllint toU64
  have hu : (x % 2 ^ 64).toNat < 2 ^ 64 := by omega
  rw [land_high_mask _ hu]
  push_cast
  rw [Int.toNat_of_nonneg (by omega)]
  unfold IsSll at hx
  unfold wrap64
  omega

/-- C10: for every 64-bit fixed value `x`, `sllfloor(x)` is the largest multiple of `2^32`
(whole-number fixed value) not larger than `x`; it always equals `sllint(x)`, the test
`retval > x` being false, so the branch that subtracts one unit is never taken. -/
theorem C10_sllfloor (x : Int) (hx : IsSll x) :
    sllfloor x = sllint x ∧ ¬ (sllint x > x) ∧
      (2 : Int) ^ 32 ∣ sllfloor x ∧ IsSll (sllfloor x) ∧ sllfloor x ≤ x ∧
      ∀ m : Int, (2 : Int) ^ 32 ∣ m → m ≤ x → m ≤ sllfloor x := by
  have h1 : ¬ (sllint x > x) := by
    rw [sllint_eq x hx]; omega
  have h2 : sllfloor x = sllint x := by
    unfold sllfloor
    simp only [if_neg h1]
  rw [h2, sllint_eq x hx]
  unfold IsSll at hx ⊢
  refine ⟨rfl, by omega, by omega, by omega, by omega, ?_⟩
  intro m hm hle
  omega

/-- Witness of C10 at `x = -1.5` (raw `-6442450944`), whose floor is `-2.0`
(raw `-8589934592`). -/
theorem C10_sllfloor_witness :
    IsSll (-6442450944) ∧ sllfloor (-6442450944) = sllint (-6442450944) ∧
      ¬ (sllint (-6442450944) > -6442450944) ∧ (2 : Int) ^ 32 ∣ sllfloor (-6442450944) ∧
      sllfloor (-6442450944) ≤ -6442450944 ∧ -8589934592 ≤ sllfloor (-6442450944) :=
  ⟨by decide, (C10_sllfloor (-6442450944) (by decide)).1,
    (C10_sllfloor (-6442450944) (by decide)).2.1,
    (C10_sllfloor (-6442450944) (by decide)).2.2.1,
    (C10_sllfloor (-6442450944) (by decide)).2.2.2.2.1,
    (C10_sllfloor (-6442450944) (by decide)).2.2.2.2.2 (-8589934592) (by decide) (by decide)⟩

/-! ## Claim C11: ceiling -/

theorem sllfloor_eq (x : Int) (hx : IsSll x) : sllfloor x = x - x % 2 ^ 32 := by
  have h1 : ¬ (sllint x > x) := by
    rw [sllint_eq x hx]; omega
  unfold sllfloor
  simp only [if_neg h1]
  exact sllint_eq x hx

theorem sllceil_eq (x : Int) (hx : IsSll x) :
    sllceil x = if x % 2 ^ 32 = 0 then x else wrap64 (x - x % 2 ^ 32 + 2 ^ 32) := by
  unfold sllceil slladd CONST_1
  simp only [sllint_eq x hx]
  by_cases h : x % 2 ^ 32 = 0
  · rw [if_pos h, if_neg (by omega)]
    omega
  · rw [if_neg h, if_pos (by omega)]
    norm_num

/-- C11 fails as stated: for `x = CONST_MAX` (raw `2^63 - 1`) the masked value
`0x7fffffff00000000` is below `x`, the added unit wraps around and `sllceil(x)` is
`CONST_MIN`, which is smaller than `x`. -/
theorem C11_counterexample :
    IsSll (2 ^ 63 - 1) ∧ sllceil (2 ^ 63 - 1) = -2 ^ 63 ∧ ¬ (2 ^ 63 - 1 ≤ sllceil (2 ^ 63 - 1)) := by
  decide

/-- C11 (amended): for every 64-bit fixed value `x` not above `0x7fffffff00000000` (the largest
whole number), `sllceil(x)` is the smallest multiple of `2^32` not smaller than `x`, so that
`sllfloor(x) <= x <= sllceil(x)`; for every larger `x` the added unit wraps around and
`sllceil(x)` is `CONST_MIN`. -/
theorem C11_sllceil (x : Int) (hx : IsSll x) :
    (x ≤ 0x7fffffff00000000 →
      ((2 : Int) ^ 32 ∣ sllceil x ∧ IsSll (sllceil x) ∧ sllfloor x ≤ x ∧ x ≤ sllceil x ∧
        ∀ m : Int, (2 : Int) ^ 32 ∣ m → x ≤ m → sllceil x ≤ m)) ∧
      (0x7fffffff00000000 < x → sllceil x = -2 ^ 63) := by
  rw [sllceil_eq x hx, sllfloor_eq x hx]
  unfold IsSll at hx ⊢
  constructor
  · intro hrep
    by_cases h : x % 2 ^ 32 = 0
    · rw [if_pos h]
      refine ⟨by omega, by omega, by omega, by omega, ?_⟩
      intro m hm hle
      omega
    · rw [if_neg h, wrap64_of_range _ (by omega)]
      refine ⟨by omega, by omega, by omega, by omega, ?_⟩
      intro m hm hle
      omega
  · intro hbig
    rw [if_neg (by omega)]
    unfold wrap64
    omega

/-- Witness of C11 (amended) at `x = -1.5` (raw `-6442450944`), whose ceiling is `-1.0`
(raw `-4294967296`). -/
theorem C11_sllceil_witness :
    IsSll (-6442450944) ∧ (-6442450944 : Int) ≤ 0x7fffffff00000000 ∧
      sllfloor (-6442450944) ≤ -6442450944 ∧ -6442450944 ≤ sllceil (-6442450944) ∧
      sllceil (-6442450944) ≤ -4294967296 :=
  ⟨by decide, by decide,
    ((C11_sllceil (-6442450944) (by decide)).1 (by decide)).2.2.1,
    ((C11_sllceil (-6442450944) (by decide)).1 (by decide)).2.2.2.1,
    ((C11_sllceil (-6442450944) (by decide)).1 (by decide)).2.2.2.2 (-4294967296) (by decide)
      (by decide)⟩

/-! ## Claim C12: clamp -/

/-- C12: for all fixed values `x`, `lo`, `hi` with `lo <= hi`, `clamp_fix(x, lo, hi)` lies in
`[lo, hi]`, equals `x` when `lo <= x <= hi`, equals `lo` when `x < lo` and `hi` when
`x > hi`; clamping is idempotent. -/
theorem C12_clamp_fix (x lo hi : Int) (h : lo ≤ hi) :
    (lo ≤ clamp_fix x lo hi ∧ clamp_fix x lo hi ≤ hi) ∧
      (lo ≤ x ∧ x ≤ hi → clamp_fix x lo hi = x) ∧
      (x < lo → clamp_fix x lo hi = lo) ∧
      (x > hi → clamp_fix x lo hi = hi) ∧
      clamp_fix (clamp_fix x lo hi) lo hi = clamp_fix x lo hi := by
  unfold clamp_fix
  refine ⟨?_, ?_, ?_, ?_, ?_⟩
  · split_ifs <;> omega
  · intro hx
    rw [if_neg (by omega), if_neg (by omega)]
  · intro hx
    rw [if_pos hx]
  · intro hx
    split_ifs <;> omega
  · split_ifs <;> omega

/-- Witness of C12 with `lo = 0`, `hi = 1.0` and `x = 2.0`: the clamp returns `hi`. -/
theorem C12_clamp_fix_witness :
    (0 : Int) ≤ 4294967296 ∧ clamp_fix 8589934592 0 4294967296 = 4294967296 ∧
      clamp_fix (clamp_fix 8589934592 0 4294967296) 0 4294967296
        = clamp_fix 8589934592 0 4294967296 :=
  ⟨by decide, (C12_clamp_fix 8589934592 0 4294967296 (by decide)).2.2.2.1 (by decide),
    (C12_clamp_fix 8589934592 0 4294967296 (by decide)).2.2.2.2⟩

/-! ## Claim C13: which scalar operations can raise -/

/-- C13 fails as stated: `mod` with a zero divisor raises the error "mod zero!" instead of
returning a value. -/
theorem C13_counterexample : fix_mod CONST_1 0 = .error .modZero := by
  rfl

/-- C13 (amended): the scalar operations that can report an error on well-typed operands are
the decimal-to-fixed conversion and `mod`, which raises "mod zero!" exactly when the divisor
is zero; every other registered scalar arithmetic operation (add, sub, mul, div, pow, neg,
comparisons, abs, floor, ceil, min, max, clamp) returns a value for every pair of fixed
operands, including a zero divisor of `div`, and never raises. -/
theorem C13_only_tofix_and_mod_raise (sllinv : Int → Int) (sllpow : Int → Int → Int)
    (a b c : Int) :
    (fix_add a b = .ok (slladd a b) ∧ fix_sub a b = .ok (sllsub a b) ∧
      fix_mul a b = .ok (sllmul a b) ∧ fix_div sllinv a b = .ok (sllmul a (sllinv b)) ∧
      fix_div sllinv a 0 = .ok (sllmul a (sllinv 0)) ∧
      fix_pow sllpow a b = .ok (sllpow a b) ∧ fix_unm a = .ok (sllneg a) ∧
      fix_lt a b = .ok (decide (a < b)) ∧ fix_le a b = .ok (decide (a ≤ b)) ∧
      fix_eq a b = .ok (decide (a = b)) ∧ fix_abs a = .ok (sllabs a) ∧
      fix_floor a = .ok (sllfloor a) ∧ fix_ceil a = .ok (sllceil a) ∧
      fix_min a b = .ok (if a < b then a else b) ∧
      fix_max a b = .ok (if a > b then a else b) ∧
      fix_clamp a b c = .ok (clamp_fix a b c)) ∧
    (fix_mod a b = .error .modZero ↔ b = 0) ∧
    (fix_mod a b = .ok (Int.tmod a b) ↔ (b ≠ 0 ∧ ¬ (a = -2 ^ 63 ∧ b = -1))) ∧
    l_tofix (.number 2000000000) 0 = .error .range := by
  refine ⟨⟨rfl, rfl, rfl, rfl, rfl, rfl, rfl, rfl, rfl, rfl, rfl, rfl, rfl, rfl, rfl, rfl⟩,
    ?_, ?_, ?_⟩
  · unfold fix_mod
    split_ifs with h1 h2
    · simp [h1]
    · simp [h1]
    · simp [h1]
  · unfold fix_mod
    split_ifs with h1 h2
    · simp [h1]
    · constructor
      · intro h
        cases h
      · intro h
        exact absurd h2 h.2
    · simp only [h1, h2, ne_eq, not_false_eq_true, and_self]
  · have h := l_tofix_number 2000000000 0 (by decide)
    rw [if_pos (fl_ge_billion _ (by norm_num))] at h
    exact h

/-! ## Claim C14: derived functions -/

theorem sllmul2_eq (x : Int) : sllmul2 x = sllmul2n x 1 := by
  unfold sllmul2 sllmul2n
  norm_num

/-- C14: with the primitives `sllinv`, `sllsin`, `sllcos`, `sllasin`, `sllexp` taken as given
functions, each derived function is exactly its stated identity, where divide is
`multiply(x, reciprocal(y))`, `2x` and `2*` are left shifts by one, the halving is a right
shift by one and `1` is `CONST_1`. -/
theorem C14_derived_identities (sllinv sllsin sllcos sllasin sllexp : Int → Int) (x y : Int) :
    slldiv sllinv x y = sllmul x (sllinv y) ∧
    sllacos sllasin x = sllsub CONST_PI_2 (sllasin x) ∧
    sllsec sllinv sllcos x = sllinv (sllcos x) ∧
    sllcsc sllinv sllsin x = sllinv (sllsin x) ∧
    sllcot sllinv sllcos sllsin x = slldiv sllinv (sllcos x) (sllsin x) ∧
    sllcosh sllexp x = slldiv2n (slladd (sllexp x) (sllexp (sllneg x))) 1 ∧
    sllsinh sllexp x = slldiv2n (sllsub (sllexp x) (sllexp (sllneg x))) 1 ∧
    slltanh sllinv sllexp x
      = slldiv sllinv (sllsub (sllexp (sllmul2n x 1)) CONST_1)
          (slladd (sllexp (sllmul2n x 1)) CONST_1) ∧
    sllsech sllinv sllexp x
      = slldiv sllinv (sllmul2n (sllexp x) 1) (slladd (sllexp (sllmul2n x 1)) CONST_1) ∧
    sllcsch sllinv sllexp x
      = slldiv sllinv (sllmul2n (sllexp x) 1) (sllsub (sllexp (sllmul2n x 1)) CONST_1) ∧
    sllcoth sllinv sllexp x
      = slldiv sllinv (slladd (sllexp (sllmul2n x 1)) CONST_1)
          (sllsub (sllexp (sllmul2n x 1)) CONST_1) ∧
    fix_deg x = .ok (sllmul x CONST_180_PI) ∧
    fix_rad x = .ok (sllmul x CONST_PI_180) ∧
    CONST_1 = 2 ^ 32 := by
  refine ⟨rfl, rfl, rfl, rfl, rfl, rfl, rfl, ?_, ?_, ?_, ?_, rfl, rfl, by decide⟩
  · simp only [slltanh, sllmul2_eq]
  · simp only [sllsech, sllmul2_eq]
  · simp only [sllcsch, sllmul2_eq]
  · simp only [sllcoth, sllmul2_eq]

/-! ## Claim C15: cross product -/

theorem sllmul_comm (a b : Int) : sllmul a b = sllmul b a := by
  unfold sllmul
  simp only []
  rw [show (if b < 0 then (-1 : Int) else 0) * (a % 2 ^ 32)
        + b % 2 ^ 64 / 2 ^ 32 * (a % 2 ^ 64 / 2 ^ 32)
        + b % 2 ^ 32 * (if a < 0 then (-1 : Int) else 0)
      = (if a < 0 then (-1 : Int) else 0) * (b % 2 ^ 32)
        + a % 2 ^ 64 / 2 ^ 32 * (b % 2 ^ 64 / 2 ^ 32)
        + a % 2 ^ 32 * (if b < 0 then (-1 : Int) else 0) from by ring,
    show b % 2 ^ 64 / 2 ^ 32 * (a % 2 ^ 32) + b % 2 ^ 32 * (a % 2 ^ 64 / 2 ^ 32)
      = a % 2 ^ 64 / 2 ^ 32 * (b % 2 ^ 32) + a % 2 ^ 32 * (b % 2 ^ 64 / 2 ^ 32) from by ring,
    show b % 2 ^ 32 * (a % 2 ^ 32) = a % 2 ^ 32 * (b % 2 ^ 32) from by ring]

theorem sllsub_antisymm (a b : Int) : sllsub a b = sllneg (sllsub b a) := by
  unfold sllsub sllneg
  rw [wrap64_neg_wrap64, neg_sub]

/-- C15: for all Vector3 `a` and `b`, `vec3_cross(a, b)` has the components of the standard
determinant expansion and is exactly the component-wise negation (`Unm`) of
`vec3_cross(b, a)`, also when sums or products wrap; multiply is commutative. -/
theorem C15_cross_antisymm (a b : Vector3) :
    vec3_cross a b
      = ⟨sllsub (sllmul a.y b.z) (sllmul a.z b.y),
         sllsub (sllmul a.z b.x) (sllmul a.x b.z),
         sllsub (sllmul a.x b.y) (sllmul a.y b.x)⟩ ∧
    vec3_cross a b = Vector3.Unm (vec3_cross b a) ∧
    Vector3.Cross a b = Vector3.Unm (Vector3.Cross b a) ∧
    (∀ x y : Int, sllmul x y = sllmul y x) := by
  have h : vec3_cross a b = Vector3.Unm (vec3_cross b a) := by
    unfold vec3_cross Vector3.Unm
    simp only [← sllsub_antisymm, sllmul_comm b.x, sllmul_comm b.y, sllmul_comm b.z]
  exact ⟨rfl, h, h, sllmul_comm⟩

/-! ## Claim C16: squared magnitude and magnitude -/

/-- On 64-bit operands the decomposition `sllmul` is the exact product divided by `2^32`
(rounded toward minus infinity) and kept to 64 bits. -/
theorem sllmul_trunc (a b : Int) (ha : IsSll a) (hb : IsSll b) :
    sllmul a b = wrap64 (a * b / 2 ^ 32) := by
  unfold sllmul
  simp only []
  rw [mul_decomposed, ← sll_decompose a ha, ← sll_decompose b hb]

theorem isSll_of_abs_lt (x : Int) (h : |x| < 2 ^ 47) : IsSll x := by
  rw [abs_lt] at h
  unfold IsSll
  omega

theorem sllmul_self_of_abs_lt (x : Int) (k : Nat) (hk : k ≤ 47) (h : |x| < 2 ^ k) :
    sllmul x x = x * x / 2 ^ 32 ∧ 0 ≤ x * x / 2 ^ 32 ∧ x * x / 2 ^ 32 * 2 ^ 32 < 2 ^ (2 * k) := by
  have hk2 : (2 : Int) ^ k ≤ 2 ^ 47 := pow_le_pow_right₀ (by norm_num) hk
  have hx : IsSll x := isSll_of_abs_lt x (lt_of_lt_of_le h hk2)
  have h0 : 0 ≤ x * x / 2 ^ 32 := Int.ediv_nonneg (mul_self_nonneg x) (by norm_num)
  have hsq : x * x < 2 ^ (2 * k) := by
    have h2 : |x| * |x| < 2 ^ k * 2 ^ k :=
      mul_self_lt_mul_self (abs_nonneg x) h
    rw [abs_mul_abs_self] at h2
    rw [two_mul, pow_add]
    exact h2
  have hle : x * x / 2 ^ 32 * 2 ^ 32 ≤ x * x := Int.ediv_mul_le _ (by norm_num)
  have h94 : (2 : Int) ^ (2 * k) ≤ 2 ^ 94 := pow_le_pow_right₀ (by norm_num) (by omega)
  refine ⟨?_, h0, lt_of_le_of_lt hle hsq⟩
  rw [sllmul_trunc x x hx hx]
  apply wrap64_of_range
  constructor
  · omega
  · have : x * x / 2 ^ 32 * 2 ^ 32 < 2 ^ 94 := lt_of_lt_of_le (lt_of_le_of_lt hle hsq) h94
    omega

/-- C16 fails as stated for Vector3: every component of `(32767.0, 32767.0, 32767.0)` has
magnitude below `2^15` (raw `140733193388032 < 2^47`), but the three squares add up to more
than `2^31` and the squared magnitude wraps around to a negative value. -/
theorem C16_counterexample :
    |(140733193388032 : Int)| < 2 ^ 47 ∧
      Vector3.SqrMagnitude ⟨140733193388032, 140733193388032, 140733193388032⟩ < 0 := by
  decide

/-- C16 (amended): for every Vector2 and Vector3 `v`, `sqrMagnitude(v)` equals `dot(v, v)` and
`magnitude(v)` equals `sqrtExtended(sqrMagnitude(v))`; with multiply the truncated product,
`sqrMagnitude(v)` is non-negative and free of wrap-around (it is the exact sum of the
truncated squares) whenever every component has magnitude below `2^15` (raw below `2^47`)
for a Vector2, and below `2^14` (raw below `2^46`) for a Vector3. -/
theorem C16_sqrMagnitude (slld2dsqrt : Int → Int) (v : Vector2) (w : Vector3) :
    Vector2.SqrMagnitude v = vec2_dot v v ∧
    Vector2.Magnitude slld2dsqrt v = slld2dsqrt (Vector2.SqrMagnitude v) ∧
    Vector3.SqrMagnitude w = vec3_dot w w ∧
    Vector3.Magnitude slld2dsqrt w = slld2dsqrt (Vector3.SqrMagnitude w) ∧
    (|v.x| < 2 ^ 47 ∧ |v.y| < 2 ^ 47 →
      0 ≤ Vector2.SqrMagnitude v ∧
      Vector2.SqrMagnitude v = v.x * v.x / 2 ^ 32 + v.y * v.y / 2 ^ 32) ∧
    (|w.x| < 2 ^ 46 ∧ |w.y| < 2 ^ 46 ∧ |w.z| < 2 ^ 46 →
      0 ≤ Vector3.SqrMagnitude w ∧
      Vector3.SqrMagnitude w
        = w.x * w.x / 2 ^ 32 + w.y * w.y / 2 ^ 32 + w.z * w.z / 2 ^ 32) := by
  refine ⟨rfl, rfl, rfl, rfl, ?_, ?_⟩
  · rintro ⟨hx, hy⟩
    obtain ⟨ex, x0, xb⟩ := sllmul_self_of_abs_lt v.x 47 (by decide) hx
    obtain ⟨ey, y0, yb⟩ := sllmul_self_of_abs_lt v.y 47 (by decide) hy
    unfold Vector2.SqrMagnitude vec2_sqrmagnitude slladd
    rw [ex, ey, wrap64_of_range _ (by omega)]
    exact ⟨by omega, rfl⟩
  · rintro ⟨hx, hy, hz⟩
    obtain ⟨ex, x0, xb⟩ := sllmul_self_of_abs_lt w.x 46 (by decide) hx
    obtain ⟨ey, y0, yb⟩ := sllmul_self_of_abs_lt w.y 46 (by decide) hy
    obtain ⟨ez, z0, zb⟩ := sllmul_self_of_abs_lt w.z 46 (by decide) hz
    unfold Vector3.SqrMagnitude vec3_dot slladd
    rw [ex, ey, ez, wrap64_of_range (w.y * w.y / 2 ^ 32 + w.z * w.z / 2 ^ 32) (by omega),
      wrap64_of_range _ (by omega)]
    exact ⟨by omega, by ring⟩

/-- Witness of C16 (amended) at the Vector2 `(3.0, 4.0)` and the Vector3 `(1.0, 2.0, 2.0)`:
the squared magnitudes are `25.0` and `9.0`. -/
theorem C16_sqrMagnitude_witness :
    Vector2.SqrMagnitude ⟨12884901888, 17179869184⟩ = 107374182400 ∧
      Vector3.SqrMagnitude ⟨4294967296, 8589934592, 8589934592⟩ = 38654705664 :=
  ⟨((C16_sqrMagnitude (fun x => x) ⟨12884901888, 17179869184⟩ ⟨0, 0, 0⟩).2.2.2.2.1
      ⟨by decide, by decide⟩).2,
    ((C16_sqrMagnitude (fun x => x) ⟨0, 0⟩ ⟨4294967296, 8589934592, 8589934592⟩).2.2.2.2.2
      ⟨by decide, by decide, by decide⟩).2⟩

/-! ## Claims C17 and C18: normalization -/

theorem sllmul_zero_left (y : Int) : sllmul 0 y = 0 := by
  unfold sllmul wrap64
  simp

theorem sllmul_zero_right (x : Int) : sllmul x 0 = 0 := by
  rw [sllmul_comm, sllmul_zero_left]

theorem vec2_set_normalize_pos (slld2dsqrt sllinv : Int → Int) (v : Vector2)
    (h : vec2_magnitude slld2dsqrt v > 0) :
    vec2_set_normalize slld2dsqrt sllinv v
      = ⟨slldiv sllinv v.x (vec2_magnitude slld2dsqrt v),
         slldiv sllinv v.y (vec2_magnitude slld2dsqrt v)⟩ := by
  unfold vec2_set_normalize CONST_0
  simp only [if_pos h]

theorem vec2_set_normalize_nonpos (slld2dsqrt sllinv : Int → Int) (v : Vector2)
    (h : vec2_magnitude slld2dsqrt v ≤ 0) :
    vec2_set_normalize slld2dsqrt sllinv v = ⟨0, 0⟩ := by
  unfold vec2_set_normalize CONST_0
  simp only [if_neg (not_lt.mpr h)]

theorem vec3_set_normalize_pos (slld2dsqrt sllinv : Int → Int) (w : Vector3)
    (h : vec3_magnitude slld2dsqrt w > 0) :
    vec3_set_normalize slld2dsqrt sllinv w
      = ⟨slldiv sllinv w.x (vec3_magnitude slld2dsqrt w),
         slldiv sllinv w.y (vec3_magnitude slld2dsqrt w),
         slldiv sllinv w.z (vec3_magnitude slld2dsqrt w)⟩ := by
  unfold vec3_set_normalize CONST_0
  simp only [if_pos h]

theorem vec3_set_normalize_nonpos (slld2dsqrt sllinv : Int → Int) (w : Vector3)
    (h : vec3_magnitude slld2dsqrt w ≤ 0) :
    vec3_set_normalize slld2dsqrt sllinv w = ⟨0, 0, 0⟩ := by
  unfold vec3_set_normalize CONST_0
  simp only [if_neg (not_lt.mpr h)]

theorem vec2_set_normalize_zero (slld2dsqrt sllinv : Int → Int) :
    vec2_set_normalize slld2dsqrt sllinv ⟨0, 0⟩ = ⟨0, 0⟩ := by
  by_cases h : vec2_magnitude slld2dsqrt ⟨0, 0⟩ > 0
  · rw [vec2_set_normalize_pos _ _ _ h]
    simp only [slldiv, sllmul_zero_left]
  · exact vec2_set_normalize_nonpos _ _ _ (not_lt.mp h)

theorem vec3_set_normalize_zero (slld2dsqrt sllinv : Int → Int) :
    vec3_set_normalize slld2dsqrt sllinv ⟨0, 0, 0⟩ = ⟨0, 0, 0⟩ := by
  by_cases h : vec3_magnitude slld2dsqrt ⟨0, 0, 0⟩ > 0
  · rw [vec3_set_normalize_pos _ _ _ h]
    simp only [slldiv, sllmul_zero_left]
  · exact vec3_set_normalize_nonpos _ _ _ (not_lt.mp h)

/-- C17: for every Vector2 `v` and Vector3 `w`, `Normalize` and `SetNormalize` divide the
components (multiply by the reciprocal of the magnitude) only when the magnitude is positive:
the result does not depend on what the reciprocal returns at a zero or negative argument;
whenever the magnitude is not positive the result is exactly the zero vector; and the zero
vector is normalized to the zero vector. -/
theorem C17_normalize_guard (slld2dsqrt sllinv : Int → Int) (v : Vector2) (w : Vector3) :
    (Vector2.SetNormalize slld2dsqrt sllinv v = Vector2.Normalize slld2dsqrt sllinv v ∧
      (vec2_magnitude slld2dsqrt v > 0 →
        Vector2.Normalize slld2dsqrt sllinv v
          = ⟨sllmul v.x (sllinv (vec2_magnitude slld2dsqrt v)),
             sllmul v.y (sllinv (vec2_magnitude slld2dsqrt v))⟩) ∧
      (vec2_magnitude slld2dsqrt v ≤ 0 → Vector2.Normalize slld2dsqrt sllinv v = ⟨0, 0⟩) ∧
      (∀ inv2 : Int → Int, (∀ m : Int, 0 < m → inv2 m = sllinv m) →
        Vector2.Normalize slld2dsqrt inv2 v = Vector2.Normalize slld2dsqrt sllinv v) ∧
      Vector2.Normalize slld2dsqrt sllinv ⟨0, 0⟩ = ⟨0, 0⟩) ∧
    (Vector3.SetNormalize slld2dsqrt sllinv w = Vector3.Normalize slld2dsqrt sllinv w ∧
      (vec3_magnitude slld2dsqrt w > 0 →
        Vector3.Normalize slld2dsqrt sllinv w
          = ⟨sllmul w.x (sllinv (vec3_magnitude slld2dsqrt w)),
             sllmul w.y (sllinv (vec3_magnitude slld2dsqrt w)),
             sllmul w.z (sllinv (vec3_magnitude slld2dsqrt w))⟩) ∧
      (vec3_magnitude slld2dsqrt w ≤ 0 → Vector3.Normalize slld2dsqrt sllinv w = ⟨0, 0, 0⟩) ∧
      (∀ inv2 : Int → Int, (∀ m : Int, 0 < m → inv2 m = sllinv m) →
        Vector3.Normalize slld2dsqrt inv2 w = Vector3.Normalize slld2dsqrt sllinv w) ∧
      Vector3.Normalize slld2dsqrt sllinv ⟨0, 0, 0⟩ = ⟨0, 0, 0⟩) := by
  refine ⟨⟨rfl, ?_, ?_, ?_, ?_⟩, ⟨rfl, ?_, ?_, ?_, ?_⟩⟩
  · intro h
    exact vec2_set_normalize_pos _ _ _ h
  · intro h
    exact vec2_set_normalize_nonpos _ _ _ h
  · intro inv2 hinv
    unfold Vector2.Normalize
    by_cases h : vec2_magnitude slld2dsqrt v > 0
    · rw [vec2_set_normalize_pos _ _ _ h, vec2_set_normalize_pos _ _ _ h]
      simp only [slldiv, hinv _ h]
    · rw [vec2_set_normalize_nonpos _ _ _ (not_lt.mp h),
        vec2_set_normalize_nonpos _ _ _ (not_lt.mp h)]
  · exact vec2_set_normalize_zero _ _
  · intro h
    exact vec3_set_normalize_pos _ _ _ h
  · intro h
    exact vec3_set_normalize_nonpos _ _ _ h
  · intro inv2 hinv
    unfold Vector3.Normalize
    by_cases h : vec3_magnitude slld2dsqrt w > 0
    · rw [vec3_set_normalize_pos _ _ _ h, vec3_set_normalize_pos _ _ _ h]
      simp only [slldiv, hinv _ h]
    · rw [vec3_set_normalize_nonpos _ _ _ (not_lt.mp h),
        vec3_set_normalize_nonpos _ _ _ (not_lt.mp h)]
  · exact vec3_set_normalize_zero _ _

theorem sqrtIdeal_25 : sqrtIdeal 107374182400 = 21474836480 := by
  unfold sqrtIdeal
  rw [if_neg (by decide)]
  have e : (107374182400 : Int).toNat * 2 ^ 32 = 21474836480 * 21474836480 := by decide
  rw [e, Nat.sqrt_eq]
  rfl

theorem vec2_magnitude_3_4 :
    vec2_magnitude sqrtIdeal ⟨12884901888, 17179869184⟩ = 21474836480 := by
  have e : vec2_sqrmagnitude ⟨12884901888, 17179869184⟩ = 107374182400 := by decide
  unfold vec2_magnitude
  rw [e, sqrtIdeal_25]

/-- Witness of C17 with the ideal square root and reciprocal: the Vector2 `(3.0, 4.0)` has
magnitude `5.0 > 0` and is normalized to `(0.6, 0.8)` (chopped); the Vector2 with raw
components `(1, 0)` has magnitude `0` and is normalized to the zero vector. -/
theorem C17_normalize_guard_witness :
    Vector2.Normalize sqrtIdeal invIdeal ⟨12884901888, 17179869184⟩
        = ⟨2576980377, 3435973836⟩ ∧
      Vector2.Normalize sqrtIdeal invIdeal ⟨1, 0⟩ = ⟨0, 0⟩ ∧
      Vector3.Normalize sqrtIdeal invIdeal ⟨0, 0, 1⟩ = ⟨0, 0, 0⟩ := by
  have h1 := (C17_normalize_guard sqrtIdeal invIdeal ⟨12884901888, 17179869184⟩ ⟨0, 0, 1⟩).1.2.1
    (by rw [vec2_magnitude_3_4]; decide)
  rw [vec2_magnitude_3_4] at h1
  exact ⟨h1,
    (C17_normalize_guard sqrtIdeal invIdeal ⟨1, 0⟩ ⟨0, 0, 1⟩).1.2.2.1 (by decide),
    (C17_normalize_guard sqrtIdeal invIdeal ⟨1, 0⟩ ⟨0, 0, 1⟩).2.2.2.1 (by decide)⟩

theorem sllmul_self_eq_zero (x : Int) (h : |x| < 2 ^ 16) : sllmul x x = 0 := by
  obtain ⟨e, h0, hb⟩ := sllmul_self_of_abs_lt x 16 (by decide) h
  rw [e]
  omega

theorem vec2_sqrmagnitude_tiny (v : Vector2) (hx : |v.x| < 2 ^ 16) (hy : |v.y| < 2 ^ 16) :
    vec2_sqrmagnitude v = 0 := by
  unfold vec2_sqrmagnitude
  rw [sllmul_self_eq_zero _ hx, sllmul_self_eq_zero _ hy]
  rfl

theorem vec3_sqrmagnitude_tiny (w : Vector3) (hx : |w.x| < 2 ^ 16) (hy : |w.y| < 2 ^ 16)
    (hz : |w.z| < 2 ^ 16) :
    slladd (sllmul w.x w.x) (slladd (sllmul w.y w.y) (sllmul w.z w.z)) = 0 := by
  rw [sllmul_self_eq_zero _ hx, sllmul_self_eq_zero _ hy, sllmul_self_eq_zero _ hz]
  rfl

/-- A Vector2 whose squares are all chopped to zero is normalized to the zero vector. -/
theorem normalize_tiny_vec2 (slld2dsqrt sllinv : Int → Int) (h0 : slld2dsqrt 0 = 0)
    (v : Vector2) (hx : |v.x| < 2 ^ 16) (hy : |v.y| < 2 ^ 16) :
    Vector2.Normalize slld2dsqrt sllinv v = ⟨0, 0⟩ ∧
      Vector2.Magnitude slld2dsqrt (Vector2.Normalize slld2dsqrt sllinv v) = 0 := by
  have hm : vec2_magnitude slld2dsqrt v = 0 := by
    unfold vec2_magnitude
    rw [vec2_sqrmagnitude_tiny v hx hy, h0]
  have hn : Vector2.Normalize slld2dsqrt sllinv v = ⟨0, 0⟩ :=
    vec2_set_normalize_nonpos _ _ _ (le_of_eq hm)
  refine ⟨hn, ?_⟩
  rw [hn]
  unfold Vector2.Magnitude vec2_magnitude
  rw [vec2_sqrmagnitude_tiny ⟨0, 0⟩ (by decide) (by decide), h0]

/-- A Vector3 whose squares are all chopped to zero is normalized to the zero vector. -/
theorem normalize_tiny_vec3 (slld2dsqrt sllinv : Int → Int) (h0 : slld2dsqrt 0 = 0)
    (w : Vector3) (hx : |w.x| < 2 ^ 16) (hy : |w.y| < 2 ^ 16) (hz : |w.z| < 2 ^ 16) :
    Vector3.Normalize slld2dsqrt sllinv w = ⟨0, 0, 0⟩ ∧
      Vector3.Magnitude slld2dsqrt (Vector3.Normalize slld2dsqrt sllinv w) = 0 := by
  have hm : vec3_magnitude slld2dsqrt w = 0 := by
    unfold vec3_magnitude
    rw [vec3_sqrmagnitude_tiny w hx hy hz, h0]
  have hn : Vector3.Normalize slld2dsqrt sllinv w = ⟨0, 0, 0⟩ :=
    vec3_set_normalize_nonpos _ _ _ (le_of_eq hm)
  refine ⟨hn, ?_⟩
  rw [hn]
  unfold Vector3.Magnitude vec3_magnitude
  rw [vec3_sqrmagnitude_tiny ⟨0, 0, 0⟩ (by decide) (by decide) (by decide), h0]

/-! ## Accuracy of normalization -/


/-- Norm of the chopped products: with `a = q x - fx` etc. -/
theorem chopped_norm (x y z fx fy fz q N : ℝ) (hN0 : 0 ≤ N) (hNQ : N ^ 2 = x ^ 2 + y ^ 2 + z ^ 2)
    (hq : 0 ≤ q) (hfx : 0 ≤ fx ∧ fx ≤ 1) (hfy : 0 ≤ fy ∧ fy ≤ 1) (hfz : 0 ≤ fz ∧ fz ≤ 1) :
    (q * x - fx) ^ 2 + (q * y - fy) ^ 2 + (q * z - fz) ^ 2 ≤ (q * N + 2) ^ 2 ∧
      (q * N - 2) ^ 2 - 4 ≤ (q * x - fx) ^ 2 + (q * y - fy) ^ 2 + (q * z - fz) ^ 2 := by
  have hf2 : fx ^ 2 + fy ^ 2 + fz ^ 2 ≤ 3 := by
    nlinarith [hfx.1, hfx.2, hfy.1, hfy.2, hfz.1, hfz.2]
  have hf0 : 0 ≤ fx ^ 2 + fy ^ 2 + fz ^ 2 := by positivity
  have cs : (x * fx + y * fy + z * fz) ^ 2 ≤ (2 * N) ^ 2 := by
    have h1 : (x * fx + y * fy + z * fz) ^ 2 ≤ (x ^ 2 + y ^ 2 + z ^ 2) * (fx ^ 2 + fy ^ 2 + fz ^ 2) := by
      nlinarith [sq_nonneg (x * fy - y * fx), sq_nonneg (x * fz - z * fx), sq_nonneg (y * fz - z * fy)]
    have h2 : (x ^ 2 + y ^ 2 + z ^ 2) * (fx ^ 2 + fy ^ 2 + fz ^ 2) ≤ N ^ 2 * 3 := by
      rw [← hNQ]
      exact mul_le_mul_of_nonneg_left hf2 (sq_nonneg N)
    nlinarith
  have cs2 := abs_le_of_sq_le_sq' cs (by linarith)
  have e : (q * x - fx) ^ 2 + (q * y - fy) ^ 2 + (q * z - fz) ^ 2 =
      q ^ 2 * N ^ 2 - 2 * q * (x * fx + y * fy + z * fz) + (fx ^ 2 + fy ^ 2 + fz ^ 2) := by
    rw [hNQ]; ring
  rw [e]
  constructor
  · nlinarith [mul_nonneg hq (show 0 ≤ x * fx + y * fy + z * fz + 2 * N by linarith [cs2.1])]
  · nlinarith [mul_nonneg hq (show 0 ≤ 2 * N - (x * fx + y * fy + z * fz) by linarith [cs2.2])]


/-- Bounds on the computed magnitude `m`, the reciprocal `r` and the product `r * N`. -/
theorem normalize_real (N m r s M t : ℝ)
    (hM16 : 2 ^ 16 ≤ M) (hM46 : M < 2 ^ 46) (hMN : M ≤ N) (hN2M : N ≤ 2 * M)
    (ht : t * M = 2 ^ 32)
    (hs0 : 0 ≤ s) (hsN : s ≤ N) (hsT : N ^ 2 - 3 * 2 ^ 32 < (s + 1) ^ 2)
    (hsM : M ^ 2 ≤ 2 * (s + 1) ^ 2) (hms : |m - s| ≤ 1)
    (hr1 : r * m ≤ 2 ^ 64 + m) (hr2 : 2 ^ 64 - 2 * m < r * m) :
    M ≤ 2 * m ∧ m ≤ 2 * M + 1 ∧ 0 ≤ r ∧ r ≤ 2 ^ 33 * t + 1 ∧
      r * N ≤ 2 ^ 64 + m + (2 ^ 33 * t + 1) * (2 + 3 * t) ∧ 2 ^ 64 - 2 * m - r < r * N := by
  rw [abs_le] at hms
  have hM0 : 0 < M := by linarith [show (0 : ℝ) < 2 ^ 16 by positivity]
  have ht0 : 0 < t := by
    by_contra h
    have : t * M ≤ 0 := mul_nonpos_of_nonpos_of_nonneg (not_lt.mp h) hM0.le
    linarith [show (0 : ℝ) < 2 ^ 32 by positivity]
  have hs7 : 7 / 10 * M ≤ s + 1 := by
    by_contra h
    have h1 : s + 1 < 7 / 10 * M := not_le.mp h
    have h2 : (s + 1) ^ 2 < (7 / 10 * M) ^ 2 := by
      apply sq_lt_sq' <;> linarith
    nlinarith
  have hmM : M ≤ 2 * m := by
    have : (2 : ℝ) ^ 16 = 65536 := by norm_num
    linarith
  have hm0 : 0 < m := by linarith
  have hmN : m ≤ 2 * M + 1 := by linarith
  have hm48 : 2 * m < 2 ^ 64 := by
    norm_num at hM46 ⊢
    linarith
  have hr0 : 0 ≤ r := by
    by_contra h
    have : r * m ≤ 0 := mul_nonpos_of_nonpos_of_nonneg (not_le.mp h).le hm0.le
    linarith
  have hrt : r ≤ 2 ^ 33 * t + 1 := by
    have h1 : (2 : ℝ) ^ 64 ≤ 2 ^ 33 * t * m := by
      have : t * M ≤ t * (2 * m) := mul_le_mul_of_nonneg_left hmM ht0.le
      nlinarith
    have h2 : r * m ≤ (2 ^ 33 * t + 1) * m := by linarith
    exact le_of_mul_le_mul_right h2 hm0
  have hd : N - m ≤ 2 + 3 * t := by
    have h1 : (N - s - 1) * N ≤ 3 * t * N := by
      have h3 : 3 * 2 ^ 32 ≤ 3 * t * N := by
        have : t * M ≤ t * N := mul_le_mul_of_nonneg_left hMN ht0.le
        linarith
      by_cases hc : 0 ≤ N - s - 1
      · nlinarith
      · have : (N - s - 1) * N ≤ 0 :=
          mul_nonpos_of_nonpos_of_nonneg (not_le.mp hc).le (by linarith)
        nlinarith [mul_pos ht0 hM0]
    have h2 : N - s - 1 ≤ 3 * t := le_of_mul_le_mul_right h1 (by linarith)
    linarith
  refine ⟨hmM, hmN, hr0, hrt, ?_, ?_⟩
  · have h1 : r * (N - m) ≤ (2 ^ 33 * t + 1) * (2 + 3 * t) := by
      by_cases hc : 0 ≤ N - m
      · calc r * (N - m) ≤ (2 ^ 33 * t + 1) * (N - m) := mul_le_mul_of_nonneg_right hrt hc
          _ ≤ (2 ^ 33 * t + 1) * (2 + 3 * t) := mul_le_mul_of_nonneg_left hd (by positivity)
      · have : r * (N - m) ≤ 0 := mul_nonpos_of_nonneg_of_nonpos hr0 (not_le.mp hc).le
        have : 0 ≤ (2 ^ 33 * t + 1) * (2 + 3 * t) := by positivity
        linarith
    nlinarith
  · have h1 : r * (m - 1) ≤ r * N := mul_le_mul_of_nonneg_left (by linarith) hr0
    nlinarith

/-- From the norm of the normalized vector to its computed magnitude. -/
theorem magnitude_real (qN P T' s' m' : ℝ) (hqlo : 3 * 2 ^ 30 + 4 ≤ qN)
    (hP1 : P ≤ (qN + 2) ^ 2) (hP2 : (qN - 2) ^ 2 - 4 ≤ P)
    (hT1 : P - 3 * 2 ^ 32 < T') (hT2 : T' ≤ P) (hs0 : 0 ≤ s') (hs1 : s' ^ 2 ≤ T')
    (hs2 : T' < (s' + 1) ^ 2) (hm : |m' - s'| ≤ 1) :
    qN - 6 < m' ∧ m' ≤ qN + 3 := by
  rw [abs_le] at hm
  have hq0 : 0 < qN := by linarith [show (0 : ℝ) < 3 * 2 ^ 30 + 4 by positivity]
  have h1 : s' ≤ qN + 2 := by
    by_contra h
    have h2 : (qN + 2) ^ 2 < s' ^ 2 := by
      apply sq_lt_sq' <;> linarith
    linarith
  have h2 : qN - 4 < s' + 1 := by
    by_contra h
    have h3 : (s' + 1) ^ 2 ≤ (qN - 4) ^ 2 := by
      apply sq_le_sq' <;> linarith
    nlinarith
  constructor <;> linarith


theorem sqrtIdeal_spec (S : Int) (h : 0 < S) :
    0 ≤ sqrtIdeal S ∧ sqrtIdeal S * sqrtIdeal S ≤ S * 2 ^ 32 ∧
      S * 2 ^ 32 < (sqrtIdeal S + 1) * (sqrtIdeal S + 1) := by
  obtain ⟨n, rfl⟩ := Int.eq_ofNat_of_zero_le h.le
  unfold sqrtIdeal
  rw [if_neg (by omega), Int.toNat_ofNat]
  refine ⟨Int.natCast_nonneg _, ?_, ?_⟩
  · have := Nat.sqrt_le (n * 2 ^ 32)
    exact_mod_cast this
  · have := Nat.lt_succ_sqrt (n * 2 ^ 32)
    exact_mod_cast this

theorem invIdeal_spec (m : Int) (h : 3 ≤ m) :
    invIdeal m = 2 ^ 64 / m ∧ invIdeal m * m ≤ 2 ^ 64 ∧ 2 ^ 64 < (invIdeal m + 1) * m := by
  have hq : invIdeal m = 2 ^ 64 / m := by
    unfold invIdeal
    rw [if_neg (by omega), Int.tdiv_eq_ediv (by norm_num) (by omega)]
    unfold wrap64
    have h1 : (2 : Int) ^ 64 / m < 2 ^ 63 := Int.ediv_lt_of_lt_mul (by omega) (by omega)
    have h2 : 0 ≤ (2 : Int) ^ 64 / m := Int.ediv_nonneg (by norm_num) (by omega)
    omega
  rw [hq]
  exact ⟨rfl, Int.ediv_mul_le _ (by omega), Int.lt_ediv_add_one_mul_self _ (by omega)⟩

/-- The sum of the chopped squares of a vector whose largest component magnitude is `M`. -/
theorem sqr_sum_bounds (x y z M : Int) (hx : |x| ≤ M) (hy : |y| ≤ M) (hz : |z| ≤ M)
    (hmax : M ≤ |x| ∨ M ≤ |y| ∨ M ≤ |z|) (h16 : 2 ^ 16 ≤ M) (h46 : M < 2 ^ 46) :
    0 < x * x / 2 ^ 32 + y * y / 2 ^ 32 + z * z / 2 ^ 32 ∧
      x * x / 2 ^ 32 + y * y / 2 ^ 32 + z * z / 2 ^ 32 < 2 ^ 62 ∧
      (x * x / 2 ^ 32 + y * y / 2 ^ 32 + z * z / 2 ^ 32) * 2 ^ 32 ≤ x * x + y * y + z * z ∧
      x * x + y * y + z * z - 3 * 2 ^ 32 <
        (x * x / 2 ^ 32 + y * y / 2 ^ 32 + z * z / 2 ^ 32) * 2 ^ 32 ∧
      M * M < 2 * ((x * x / 2 ^ 32 + y * y / 2 ^ 32 + z * z / 2 ^ 32) * 2 ^ 32) ∧
      M * M ≤ x * x + y * y + z * z ∧ x * x + y * y + z * z ≤ 3 * (M * M) := by
  have sq : ∀ u : Int, |u| ≤ M → 0 ≤ u * u ∧ u * u ≤ M * M := by
    intro u hu
    refine ⟨mul_self_nonneg u, ?_⟩
    rw [← abs_mul_abs_self u]
    exact mul_self_le_mul_self (abs_nonneg u) hu
  have sqM : ∀ u : Int, |u| ≤ M → M ≤ |u| → u * u = M * M := by
    intro u h1 h2
    rw [← abs_mul_abs_self u, le_antisymm h1 h2]
  have hMM1 : (2 : Int) ^ 32 ≤ M * M := by nlinarith
  have hMM2 : M * M < 2 ^ 92 := by nlinarith
  obtain ⟨x0, x1⟩ := sq x hx
  obtain ⟨y0, y1⟩ := sq y hy
  obtain ⟨z0, z1⟩ := sq z hz
  have hmax2 : x * x = M * M ∨ y * y = M * M ∨ z * z = M * M := by
    rcases hmax with h | h | h
    · exact Or.inl (sqM x hx h)
    · exact Or.inr (Or.inl (sqM y hy h))
    · exact Or.inr (Or.inr (sqM z hz h))
  generalize x * x = X at *
  generalize y * y = Y at *
  generalize z * z = Z at *
  generalize M * M = MM at *
  omega


/-- Numeric form of the bounds of `normalize_real`, in the scale `t = 2^32 / M` and
`w = M / 2^32`. -/
theorem scaled_bounds (rN m r M t w : ℝ) (hM16 : 2 ^ 16 ≤ M) (hM46 : M < 2 ^ 46)
    (ht : t * M = 2 ^ 32) (hw : w * 2 ^ 32 = M) (hmN : m ≤ 2 * M + 1)
    (hrt : r ≤ 2 ^ 33 * t + 1)
    (h1 : rN ≤ 2 ^ 64 + m + (2 ^ 33 * t + 1) * (2 + 3 * t)) (h2 : 2 ^ 64 - 2 * m - r < rN) :
    0 < t ∧ t ≤ 2 ^ 16 ∧ 0 < w ∧ w < 2 ^ 14 ∧
      2 ^ 32 - 4 * w - 2 * t - 1 < rN / 2 ^ 32 ∧
      rN / 2 ^ 32 ≤ 2 ^ 32 + 6 * t ^ 2 + 4 * t + 2 * w + 1 := by
  have hM0 : 0 < M := by linarith [show (0 : ℝ) < 2 ^ 16 by positivity]
  have ht0 : 0 < t := by
    by_contra h
    have : t * M ≤ 0 := mul_nonpos_of_nonpos_of_nonneg (not_lt.mp h) hM0.le
    linarith [show (0 : ℝ) < 2 ^ 32 by positivity]
  have ht16 : t ≤ 2 ^ 16 := by
    by_contra h
    have : (2 : ℝ) ^ 16 * 2 ^ 16 < t * M := by
      have h3 := not_le.mp h
      calc (2 : ℝ) ^ 16 * 2 ^ 16 < t * 2 ^ 16 := by
            apply mul_lt_mul_of_pos_right h3 (by positivity)
        _ ≤ t * M := mul_le_mul_of_nonneg_left hM16 ht0.le
    norm_num at this ht
    linarith
  have hw0 : 0 < w := by
    norm_num at hw hM0 ⊢
    linarith
  have hw14 : w < 2 ^ 14 := by
    norm_num at hw hM46 ⊢
    linarith
  refine ⟨ht0, ht16, hw0, hw14, ?_, ?_⟩
  · rw [lt_div_iff₀ (by positivity)]
    norm_num at hw ht16 ⊢
    nlinarith
  · rw [div_le_iff₀ (by positivity)]
    norm_num at hw ht16 h1 ⊢
    nlinarith


/-- The computed magnitude `m` of a vector is between half and twice its largest component
magnitude `M`. -/
theorem magnitude_bounds_real (N m s M : ℝ) (hM16 : 2 ^ 16 ≤ M) (hN2M : N ≤ 2 * M)
    (hsN : s ≤ N) (hsM : M ^ 2 ≤ 2 * (s + 1) ^ 2) (hs0 : 0 ≤ s) (hms : |m - s| ≤ 1) :
    M ≤ 2 * m ∧ m ≤ 2 * M + 1 := by
  rw [abs_le] at hms
  have hM0 : 0 < M := by linarith [show (0 : ℝ) < 2 ^ 16 by positivity]
  have hs7 : 7 / 10 * M ≤ s + 1 := by
    by_contra h
    have h1 : s + 1 < 7 / 10 * M := not_le.mp h
    have h2 : (s + 1) ^ 2 < (7 / 10 * M) ^ 2 := by
      apply sq_lt_sq' <;> linarith
    nlinarith
  have : (2 : ℝ) ^ 16 = 65536 := by norm_num
  constructor <;> linarith

/-- Chopped quotient by `2^32`, in real terms. -/
theorem chop_real (p a : Int) (h : a = p / 2 ^ 32) :
    0 ≤ (p : ℝ) / 2 ^ 32 - a ∧ (p : ℝ) / 2 ^ 32 - a ≤ 1 := by
  have h1 : a * 2 ^ 32 ≤ p := by rw [h]; exact Int.ediv_mul_le _ (by norm_num)
  have h2 : p < (a + 1) * 2 ^ 32 := by rw [h]; exact Int.lt_ediv_add_one_mul_self _ (by norm_num)
  have c1 : (a : ℝ) * 2 ^ 32 ≤ p := by exact_mod_cast h1
  have c2 : (p : ℝ) < (a + 1) * 2 ^ 32 := by exact_mod_cast h2
  constructor
  · rw [sub_nonneg, le_div_iff₀ (by positivity)]
    exact c1
  · rw [sub_le_iff_le_add, div_le_iff₀ (by positivity)]
    linarith

set_option maxHeartbeats 1600000 in
/-- Accuracy of normalization on raw integers. -/
theorem normalize_core (slld2dsqrt sllinv : Int → Int)
    (hs : ∀ S : Int, 0 < S → S < 2 ^ 62 → |slld2dsqrt S - sqrtIdeal S| ≤ 1)
    (hi : ∀ m : Int, 2 ^ 15 ≤ m → m < 2 ^ 48 → |sllinv m - invIdeal m| ≤ 1)
    (x y z M : Int) (hx : |x| ≤ M) (hy : |y| ≤ M) (hz : |z| ≤ M)
    (hmax : M ≤ |x| ∨ M ≤ |y| ∨ M ≤ |z|) (h16 : 2 ^ 16 ≤ M) (h46 : M < 2 ^ 46)
    (S m r a b c S' : Int)
    (hS : S = x * x / 2 ^ 32 + y * y / 2 ^ 32 + z * z / 2 ^ 32)
    (hm : m = slld2dsqrt S) (hr : r = sllinv m)
    (ha : a = x * r / 2 ^ 32) (hb : b = y * r / 2 ^ 32) (hc : c = z * r / 2 ^ 32)
    (hS' : S' = a * a / 2 ^ 32 + b * b / 2 ^ 32 + c * c / 2 ^ 32) :
    0 < S ∧ S < 2 ^ 62 ∧ 2 ^ 15 ≤ m ∧ m < 2 ^ 48 ∧ 0 ≤ r ∧ r < 2 ^ 50 ∧
      |a| < 2 ^ 36 ∧ |b| < 2 ^ 36 ∧ |c| < 2 ^ 36 ∧ 0 < S' ∧ S' < 2 ^ 62 ∧
      (2 ^ 32 - (2 ^ 34 / (M : ℝ) + M / 2 ^ 29 + 10) ≤ S') ∧
      |((slld2dsqrt S' : Int) : ℝ) - 2 ^ 32| ≤
        2 ^ 67 / (M : ℝ) ^ 2 + 2 ^ 34 / M + M / 2 ^ 30 + 8 := by
  obtain ⟨S0, S62, ST1, ST2, SM, MQ, Q3⟩ := sqr_sum_bounds x y z M hx hy hz hmax h16 h46
  rw [← hS] at S0 S62 ST1 ST2 SM
  obtain ⟨s0, s1, s2⟩ := sqrtIdeal_spec S S0
  have hms := hs S S0 S62
  rw [← hm] at hms
  generalize sqrtIdeal S = s at s0 s1 s2 hms
  -- the exact magnitude
  have hQ0 : (0 : ℝ) ≤ (x : ℝ) ^ 2 + (y : ℝ) ^ 2 + (z : ℝ) ^ 2 := by positivity
  obtain ⟨N, hN0, hNQ⟩ : ∃ N : ℝ, 0 ≤ N ∧ N ^ 2 = (x : ℝ) ^ 2 + (y : ℝ) ^ 2 + (z : ℝ) ^ 2 :=
    ⟨Real.sqrt _, Real.sqrt_nonneg _, Real.sq_sqrt hQ0⟩
  have cM16 : (2 : ℝ) ^ 16 ≤ M := by exact_mod_cast h16
  have cM46 : (M : ℝ) < 2 ^ 46 := by exact_mod_cast h46
  have cM0 : (0 : ℝ) < M := by linarith [show (0 : ℝ) < 2 ^ 16 by positivity]
  have cMQ : (M : ℝ) * M ≤ (x : ℝ) * x + y * y + z * z := by exact_mod_cast MQ
  have cQ3 : (x : ℝ) * x + y * y + z * z ≤ 3 * ((M : ℝ) * M) := by exact_mod_cast Q3
  have cST1 : (S : ℝ) * 2 ^ 32 ≤ (x : ℝ) * x + y * y + z * z := by exact_mod_cast ST1
  have cST2 : (x : ℝ) * x + y * y + z * z - 3 * 2 ^ 32 < (S : ℝ) * 2 ^ 32 := by
    exact_mod_cast ST2
  have cSM : (M : ℝ) * M < 2 * ((S : ℝ) * 2 ^ 32) := by exact_mod_cast SM
  have cs0 : (0 : ℝ) ≤ s := by exact_mod_cast s0
  have cs1 : (s : ℝ) * s ≤ (S : ℝ) * 2 ^ 32 := by exact_mod_cast s1
  have cs2 : (S : ℝ) * 2 ^ 32 < ((s : ℝ) + 1) * (s + 1) := by exact_mod_cast s2
  have cms : |(m : ℝ) - s| ≤ 1 := by exact_mod_cast hms
  have cMN : (M : ℝ) ≤ N := (abs_le_of_sq_le_sq' (by rw [hNQ]; linarith) hN0).2
  have cN2M : N ≤ 2 * M :=
    (abs_le_of_sq_le_sq' (by rw [hNQ]; linarith [mul_self_nonneg (M : ℝ)]) (by linarith)).2
  have csN : (s : ℝ) ≤ N := (abs_le_of_sq_le_sq' (by rw [hNQ]; linarith) hN0).2
  have csT : N ^ 2 - 3 * 2 ^ 32 < ((s : ℝ) + 1) ^ 2 := by rw [hNQ]; linarith
  have csM : (M : ℝ) ^ 2 ≤ 2 * ((s : ℝ) + 1) ^ 2 := by linarith
  obtain ⟨rmM, rmN⟩ := magnitude_bounds_real N m s M cM16 cN2M csN csM cs0 cms
  have imM : M ≤ 2 * m := by exact_mod_cast rmM
  have imN : m ≤ 2 * M + 1 := by exact_mod_cast rmN
  have m15 : 2 ^ 15 ≤ m := by omega
  have m48 : m < 2 ^ 48 := by omega
  -- the reciprocal
  have hri := hi m m15 m48
  rw [← hr] at hri
  obtain ⟨-, R1, R2⟩ := invIdeal_spec m (by omega)
  generalize invIdeal m = R0 at hri R1 R2
  rw [abs_le] at hri
  have ir1 : r * m ≤ 2 ^ 64 + m := by
    have h1 : r * m ≤ (R0 + 1) * m := Int.mul_le_mul_of_nonneg_right (by omega) (by omega)
    linarith
  have ir2 : 2 ^ 64 - 2 * m < r * m := by
    have h1 : (R0 - 1) * m ≤ r * m := Int.mul_le_mul_of_nonneg_right (by omega) (by omega)
    linarith
  have cr1 : (r : ℝ) * m ≤ 2 ^ 64 + m := by exact_mod_cast ir1
  have cr2 : (2 : ℝ) ^ 64 - 2 * m < r * m := by exact_mod_cast ir2
  obtain ⟨t, ht⟩ : ∃ t : ℝ, t * M = 2 ^ 32 := ⟨2 ^ 32 / M, div_mul_cancel₀ _ cM0.ne.symm⟩
  obtain ⟨w, hw⟩ : ∃ w : ℝ, w * 2 ^ 32 = M := ⟨M / 2 ^ 32, div_mul_cancel₀ _ (by positivity)⟩
  obtain ⟨-, -, r0, rt, rN1, rN2⟩ :=
    normalize_real N m r s M t cM16 cM46 cMN cN2M ht cs0 csN csT csM cms cr1 cr2
  obtain ⟨t0, t16, w0, w14, q1, q2⟩ :=
    scaled_bounds ((r : ℝ) * N) m r M t w cM16 cM46 ht hw rmN rt rN1 rN2
  have t2 : t ^ 2 ≤ 2 ^ 32 := by
    have h := mul_le_mul t16 t16 t0.le (by positivity)
    calc t ^ 2 = t * t := pow_two t
      _ ≤ 2 ^ 16 * 2 ^ 16 := h
      _ = 2 ^ 32 := by norm_num
  have ir0 : 0 ≤ r := by exact_mod_cast r0
  have r50 : r < 2 ^ 50 := by
    have : (r : ℝ) < 2 ^ 50 := by
      norm_num at t16 rt ⊢
      linarith
    exact_mod_cast this
  -- the chopped products
  obtain ⟨fa0, fa1⟩ := chop_real (x * r) a ha
  obtain ⟨fb0, fb1⟩ := chop_real (y * r) b hb
  obtain ⟨fc0, fc1⟩ := chop_real (z * r) c hc
  push_cast at fa0 fa1 fb0 fb1 fc0 fc1
  have hq0 : (0 : ℝ) ≤ r / 2 ^ 32 := div_nonneg r0 (by positivity)
  obtain ⟨P1, P2⟩ := chopped_norm x y z ((x : ℝ) * r / 2 ^ 32 - a) ((y : ℝ) * r / 2 ^ 32 - b)
    ((z : ℝ) * r / 2 ^ 32 - c) (r / 2 ^ 32) N hN0 hNQ hq0 ⟨fa0, fa1⟩ ⟨fb0, fb1⟩ ⟨fc0, fc1⟩
  have ea : (r : ℝ) / 2 ^ 32 * x - ((x : ℝ) * r / 2 ^ 32 - a) = a := by ring
  have eb : (r : ℝ) / 2 ^ 32 * y - ((y : ℝ) * r / 2 ^ 32 - b) = b := by ring
  have ec : (r : ℝ) / 2 ^ 32 * z - ((z : ℝ) * r / 2 ^ 32 - c) = c := by ring
  have eq : (r : ℝ) / 2 ^ 32 * N = (r : ℝ) * N / 2 ^ 32 := by ring
  rw [ea, eb, ec, eq] at P1 P2
  generalize (r : ℝ) * N / 2 ^ 32 = qN at q1 q2 P1 P2
  have qlo : (2 : ℝ) ^ 32 - 2 ^ 19 ≤ qN := by
    norm_num at t16 w14 q1 ⊢
    linarith
  have qhi : qN + 2 < 2 ^ 36 := by
    norm_num at t16 w14 q2 t2 ⊢
    linarith
  have q0 : 0 ≤ qN + 2 := by
    norm_num at qlo ⊢
    linarith
  have absb : ∀ u : ℝ, u ^ 2 ≤ (qN + 2) ^ 2 → |u| < 2 ^ 36 := by
    intro u hu
    have := abs_le_of_sq_le_sq' hu q0
    rw [abs_lt]
    constructor <;> linarith
  have ia : |a| < 2 ^ 36 := by
    have := absb a (by linarith [sq_nonneg (b : ℝ), sq_nonneg (c : ℝ)])
    exact_mod_cast this
  have ib : |b| < 2 ^ 36 := by
    have := absb b (by linarith [sq_nonneg (a : ℝ), sq_nonneg (c : ℝ)])
    exact_mod_cast this
  have ic : |c| < 2 ^ 36 := by
    have := absb c (by linarith [sq_nonneg (a : ℝ), sq_nonneg (b : ℝ)])
    exact_mod_cast this
  -- the chopped squares of the result
  have iT : S' * 2 ^ 32 ≤ a * a + b * b + c * c ∧
      a * a + b * b + c * c - 3 * 2 ^ 32 < S' * 2 ^ 32 := by
    rw [hS']
    generalize a * a = A
    generalize b * b = B
    generalize c * c = C
    omega
  have cT2 : (S' : ℝ) * 2 ^ 32 ≤ (a : ℝ) ^ 2 + (b : ℝ) ^ 2 + (c : ℝ) ^ 2 := by
    have : ((S' * 2 ^ 32 : Int) : ℝ) ≤ ((a * a + b * b + c * c : Int) : ℝ) := Int.cast_le.mpr iT.1
    push_cast at this
    linarith
  have cT1 : (a : ℝ) ^ 2 + (b : ℝ) ^ 2 + (c : ℝ) ^ 2 - 3 * 2 ^ 32 < (S' : ℝ) * 2 ^ 32 := by
    have : ((a * a + b * b + c * c - 3 * 2 ^ 32 : Int) : ℝ) < ((S' * 2 ^ 32 : Int) : ℝ) :=
      Int.cast_lt.mpr iT.2
    push_cast at this
    linarith
  generalize (a : ℝ) ^ 2 + (b : ℝ) ^ 2 + (c : ℝ) ^ 2 = P at P1 P2 cT1 cT2
  have hL : (2 : ℝ) ^ 32 - (4 * w + 2 * t + 3) ≤ qN - 2 := by linarith
  have hL0 : (0 : ℝ) ≤ 2 ^ 32 - (4 * w + 2 * t + 3) := by
    norm_num at t16 w14 ⊢
    linarith
  have hLsq : ((2 : ℝ) ^ 32 - (4 * w + 2 * t + 3)) ^ 2 ≤ (qN - 2) ^ 2 :=
    pow_le_pow_left₀ hL0 hL 2
  have hLlin : (2 : ℝ) ^ 64 - 2 ^ 33 * (4 * w + 2 * t + 3) ≤
      ((2 : ℝ) ^ 32 - (4 * w + 2 * t + 3)) ^ 2 := by
    have e : ((2 : ℝ) ^ 32 - (4 * w + 2 * t + 3)) ^ 2 =
        2 ^ 64 - 2 ^ 33 * (4 * w + 2 * t + 3) + (4 * w + 2 * t + 3) ^ 2 := by ring
    rw [e]
    linarith [sq_nonneg (4 * w + 2 * t + 3)]
  have cSplo : (2 : ℝ) ^ 32 - (4 * t + 8 * w + 10) ≤ S' := by
    norm_num at hLsq hLlin cT1 P2 ⊢
    linarith
  have Sp0 : 0 < S' := by
    have : (0 : ℝ) < S' := by
      norm_num at t16 w14 cSplo
      linarith
    exact_mod_cast this
  have Sp62 : S' < 2 ^ 62 := by
    have h1 : (qN + 2) ^ 2 < (2 ^ 36) ^ 2 := pow_lt_pow_left₀ qhi q0 (by norm_num)
    have : (S' : ℝ) < 2 ^ 62 := by
      norm_num at h1 cT2 P1 ⊢
      linarith
    exact_mod_cast this
  obtain ⟨u0, u1, u2⟩ := sqrtIdeal_spec S' Sp0
  have hmps := hs S' Sp0 Sp62
  generalize sqrtIdeal S' = s' at u0 u1 u2 hmps
  generalize slld2dsqrt S' = m' at hmps ⊢
  have cu0 : (0 : ℝ) ≤ s' := by exact_mod_cast u0
  have cu1 : (s' : ℝ) ^ 2 ≤ (S' : ℝ) * 2 ^ 32 := by
    have : ((s' * s' : Int) : ℝ) ≤ ((S' * 2 ^ 32 : Int) : ℝ) := Int.cast_le.mpr u1
    push_cast at this
    linarith
  have cu2 : (S' : ℝ) * 2 ^ 32 < ((s' : ℝ) + 1) ^ 2 := by
    have : ((S' * 2 ^ 32 : Int) : ℝ) < (((s' + 1) * (s' + 1) : Int) : ℝ) := Int.cast_lt.mpr u2
    push_cast at this
    linarith
  have cmps : |(m' : ℝ) - s'| ≤ 1 := by exact_mod_cast hmps
  obtain ⟨f1, f2⟩ := magnitude_real qN P ((S' : ℝ) * 2 ^ 32) s' m'
    (by norm_num at qlo ⊢; linarith) P1 P2 cT1 cT2 cu0 cu1 cu2 cmps
  have e34 : (2 : ℝ) ^ 34 / M = 4 * t := by
    rw [div_eq_iff cM0.ne.symm]
    linarith
  have e29 : (M : ℝ) / 2 ^ 29 = 8 * w := by
    rw [div_eq_iff (by positivity)]
    linarith
  have e30 : (M : ℝ) / 2 ^ 30 = 4 * w := by
    rw [div_eq_iff (by positivity)]
    linarith
  have e67 : (2 : ℝ) ^ 67 / (M : ℝ) ^ 2 = 8 * t ^ 2 := by
    rw [div_eq_iff (by positivity)]
    have : t ^ 2 * (M : ℝ) ^ 2 = 2 ^ 64 := by rw [← mul_pow, ht]; norm_num
    linarith
  refine ⟨S0, S62, m15, m48, ir0, r50, ia, ib, ic, Sp0, Sp62, ?_, ?_⟩
  · rw [e34, e29]
    linarith
  · rw [e67, e34, e30, abs_le]
    have : (0 : ℝ) ≤ t ^ 2 := sq_nonneg t
    constructor <;> linarith

/-- The chopped product of a component and a reciprocal, when no wrap-around occurs. -/
theorem sllmul_chop (x r : Int) (hx : |x| < 2 ^ 47) (hr0 : 0 ≤ r) (hr : r < 2 ^ 50)
    (h : |x * r / 2 ^ 32| < 2 ^ 36) : sllmul x r = x * r / 2 ^ 32 := by
  rw [sllmul_trunc x r (isSll_of_abs_lt x hx) (by unfold IsSll; omega)]
  apply wrap64_of_range
  rw [abs_lt] at h
  omega

theorem sllmul_sq_chop (a : Int) (h : |a| < 2 ^ 36) :
    sllmul a a = a * a / 2 ^ 32 ∧ 0 ≤ a * a / 2 ^ 32 ∧ a * a / 2 ^ 32 < 2 ^ 40 := by
  obtain ⟨e, h0, hb⟩ := sllmul_self_of_abs_lt a 36 (by decide) h
  refine ⟨e, h0, ?_⟩
  norm_num at hb
  omega

/-- What `vec3_set_normalize` computes on a vector whose largest component magnitude `M` is
between `2^16` and `2^46`, with a square root and a reciprocal accurate to one raw unit. -/
theorem vec3_normalize_chop (slld2dsqrt sllinv : Int → Int)
    (hs : ∀ S : Int, 0 < S → S < 2 ^ 62 → |slld2dsqrt S - sqrtIdeal S| ≤ 1)
    (hi : ∀ m : Int, 2 ^ 15 ≤ m → m < 2 ^ 48 → |sllinv m - invIdeal m| ≤ 1)
    (x y z M : Int) (hx : |x| ≤ M) (hy : |y| ≤ M) (hz : |z| ≤ M)
    (hmax : M ≤ |x| ∨ M ≤ |y| ∨ M ≤ |z|) (h16 : 2 ^ 16 ≤ M) (h46 : M < 2 ^ 46) :
    ∃ a b c : Int,
      vec3_set_normalize slld2dsqrt sllinv ⟨x, y, z⟩ = ⟨a, b, c⟩ ∧
      (z = 0 → c = 0 ∧ vec2_set_normalize slld2dsqrt sllinv ⟨x, y⟩ = ⟨a, b⟩) ∧
      vec3_dot ⟨a, b, c⟩ ⟨a, b, c⟩ = a * a / 2 ^ 32 + b * b / 2 ^ 32 + c * c / 2 ^ 32 ∧
      vec2_dot ⟨a, b⟩ ⟨a, b⟩ = a * a / 2 ^ 32 + b * b / 2 ^ 32 ∧
      0 < a * a / 2 ^ 32 + b * b / 2 ^ 32 + c * c / 2 ^ 32 ∧
      (2 ^ 32 - (2 ^ 34 / (M : ℝ) + M / 2 ^ 29 + 10) ≤
        ((a * a / 2 ^ 32 + b * b / 2 ^ 32 + c * c / 2 ^ 32 : Int) : ℝ)) ∧
      |((slld2dsqrt (a * a / 2 ^ 32 + b * b / 2 ^ 32 + c * c / 2 ^ 32) : Int) : ℝ) - 2 ^ 32| ≤
        2 ^ 67 / (M : ℝ) ^ 2 + 2 ^ 34 / M + M / 2 ^ 30 + 8 := by
  have hx47 : |x| < 2 ^ 47 := by omega
  have hy47 : |y| < 2 ^ 47 := by omega
  have hz47 : |z| < 2 ^ 47 := by omega
  obtain ⟨ex, x0, -⟩ := sllmul_self_of_abs_lt x 47 (by decide) hx47
  obtain ⟨ey, y0, -⟩ := sllmul_self_of_abs_lt y 47 (by decide) hy47
  obtain ⟨ez, z0, -⟩ := sllmul_self_of_abs_lt z 47 (by decide) hz47
  obtain ⟨S0, S62, m15, m48, r0, r50, ia, ib, ic, Sp0, Sp62, lo, acc⟩ :=
    normalize_core slld2dsqrt sllinv hs hi x y z M hx hy hz hmax h16 h46 _ _ _ _ _ _ _
      rfl rfl rfl rfl rfl rfl rfl
  have hsum3 : slladd (sllmul x x) (slladd (sllmul y y) (sllmul z z)) =
      x * x / 2 ^ 32 + y * y / 2 ^ 32 + z * z / 2 ^ 32 := by
    rw [ex, ey, ez]
    unfold slladd
    rw [wrap64_of_range (y * y / 2 ^ 32 + z * z / 2 ^ 32) (by omega),
      wrap64_of_range _ (by omega)]
    ring
  have hmag3 : vec3_magnitude slld2dsqrt ⟨x, y, z⟩ =
      slld2dsqrt (x * x / 2 ^ 32 + y * y / 2 ^ 32 + z * z / 2 ^ 32) := by
    unfold vec3_magnitude
    rw [hsum3]
  generalize hm : slld2dsqrt (x * x / 2 ^ 32 + y * y / 2 ^ 32 + z * z / 2 ^ 32) = m
    at hmag3 m15 m48 r0 r50 ia ib ic Sp0 Sp62 lo acc
  generalize hr : sllinv m = r at r0 r50 ia ib ic Sp0 Sp62 lo acc
  have ea := sllmul_chop x r hx47 r0 r50 ia
  have eb := sllmul_chop y r hy47 r0 r50 ib
  have ec := sllmul_chop z r hz47 r0 r50 ic
  generalize x * r / 2 ^ 32 = a at ea ia Sp0 Sp62 lo acc
  generalize y * r / 2 ^ 32 = b at eb ib Sp0 Sp62 lo acc
  generalize hcz : z * r / 2 ^ 32 = c at ec ic Sp0 Sp62 lo acc
  obtain ⟨sa, a0, a40⟩ := sllmul_sq_chop a ia
  obtain ⟨sb, b0, b40⟩ := sllmul_sq_chop b ib
  obtain ⟨sc, c0, c40⟩ := sllmul_sq_chop c ic
  refine ⟨a, b, c, ?_, ?_, ?_, ?_, Sp0, lo, acc⟩
  · rw [vec3_set_normalize_pos _ _ _ (by rw [hmag3]; omega), hmag3]
    simp only [slldiv, hr, ea, eb, ec]
  · intro hz0
    have hc0 : c = 0 := by rw [← hcz, hz0]; simp
    refine ⟨hc0, ?_⟩
    have hmag2 : vec2_magnitude slld2dsqrt ⟨x, y⟩ = m := by
      unfold vec2_magnitude vec2_sqrmagnitude
      rw [← hm, ex, ey, hz0]
      unfold slladd
      rw [wrap64_of_range _ (by omega)]
      simp
    rw [vec2_set_normalize_pos _ _ _ (by rw [hmag2]; omega), hmag2]
    simp only [slldiv, hr, ea, eb]
  · unfold vec3_dot slladd
    simp only [sa, sb, sc]
    rw [wrap64_of_range (b * b / 2 ^ 32 + c * c / 2 ^ 32) (by omega),
      wrap64_of_range _ (by omega)]
    ring
  · unfold vec2_dot slladd
    simp only [sa, sb]
    rw [wrap64_of_range _ (by omega)]

theorem normError_cast (M : Int) :
    ((normError M : ℚ) : ℝ) = 2 ^ 67 / (M : ℝ) ^ 2 + 2 ^ 34 / M + M / 2 ^ 30 + 8 := by
  unfold normError
  push_cast
  rfl

theorem maxAbs2_spec (v : Vector2) :
    |v.x| ≤ v.maxAbs ∧ |v.y| ≤ v.maxAbs ∧ |(0 : Int)| ≤ v.maxAbs ∧
      (v.maxAbs ≤ |v.x| ∨ v.maxAbs ≤ |v.y| ∨ v.maxAbs ≤ |(0 : Int)|) := by
  unfold Vector2.maxAbs
  have h1 := abs_nonneg v.x
  have h2 := le_max_left |v.x| |v.y|
  have h3 := le_max_right |v.x| |v.y|
  rw [abs_zero]
  refine ⟨h2, h3, by omega, ?_⟩
  rcases max_cases |v.x| |v.y| with ⟨e, -⟩ | ⟨e, -⟩
  · exact Or.inl (le_of_eq e)
  · exact Or.inr (Or.inl (le_of_eq e))

theorem maxAbs3_spec (w : Vector3) :
    |w.x| ≤ w.maxAbs ∧ |w.y| ≤ w.maxAbs ∧ |w.z| ≤ w.maxAbs ∧
      (w.maxAbs ≤ |w.x| ∨ w.maxAbs ≤ |w.y| ∨ w.maxAbs ≤ |w.z|) := by
  unfold Vector3.maxAbs
  have h2 := le_max_left |w.x| |w.y|
  have h3 := le_max_right |w.x| |w.y|
  have h4 := le_max_left (max |w.x| |w.y|) |w.z|
  have h5 := le_max_right (max |w.x| |w.y|) |w.z|
  refine ⟨le_trans h2 h4, le_trans h3 h4, h5, ?_⟩
  rcases max_cases (max |w.x| |w.y|) |w.z| with ⟨e2, -⟩ | ⟨e2, -⟩
  · rcases max_cases |w.x| |w.y| with ⟨e, -⟩ | ⟨e, -⟩
    · exact Or.inl (le_of_eq (e2.trans e))
    · exact Or.inr (Or.inl (le_of_eq (e2.trans e)))
  · exact Or.inr (Or.inr (le_of_eq e2))

/-- Normalization of a Vector2 whose largest component magnitude is between `2^16` and
`2^46`. -/
theorem vec2_normalize_accuracy (slld2dsqrt sllinv : Int → Int)
    (hs : ∀ S : Int, 0 < S → S < 2 ^ 62 → |slld2dsqrt S - sqrtIdeal S| ≤ 1)
    (hi : ∀ m : Int, 2 ^ 15 ≤ m → m < 2 ^ 48 → |sllinv m - invIdeal m| ≤ 1)
    (v : Vector2) (h16 : 2 ^ 16 ≤ v.maxAbs) (h46 : v.maxAbs < 2 ^ 46) :
    vec2_set_normalize slld2dsqrt sllinv v ≠ ⟨0, 0⟩ ∧
      (2 ^ 32 - (2 ^ 34 / (v.maxAbs : ℝ) + v.maxAbs / 2 ^ 29 + 10) ≤
        ((vec2_dot (vec2_set_normalize slld2dsqrt sllinv v)
          (vec2_set_normalize slld2dsqrt sllinv v) : Int) : ℝ)) ∧
      |((vec2_magnitude slld2dsqrt (vec2_set_normalize slld2dsqrt sllinv v) : Int) : ℚ)
          - 2 ^ 32| ≤ normError v.maxAbs := by
  obtain ⟨mx, my, mz, mm⟩ := maxAbs2_spec v
  obtain ⟨a, b, c, -, h2, -, hdot, Sp0, lo, acc⟩ :=
    vec3_normalize_chop slld2dsqrt sllinv hs hi v.x v.y 0 v.maxAbs mx my mz mm h16 h46
  obtain ⟨hc, hn⟩ := h2 rfl
  have hv : (⟨v.x, v.y⟩ : Vector2) = v := rfl
  rw [hv] at hn
  have e0 : a * a / 2 ^ 32 + b * b / 2 ^ 32 + c * c / 2 ^ 32 = a * a / 2 ^ 32 + b * b / 2 ^ 32 := by
    rw [hc]; simp
  rw [e0] at Sp0 lo acc
  rw [hn]
  refine ⟨?_, ?_, ?_⟩
  · intro h
    have ha : a = 0 := congrArg Vector2.x h
    have hb : b = 0 := congrArg Vector2.y h
    rw [ha, hb] at Sp0
    simp at Sp0
  · rw [hdot]
    exact lo
  · have hmag : vec2_magnitude slld2dsqrt ⟨a, b⟩ = slld2dsqrt (a * a / 2 ^ 32 + b * b / 2 ^ 32) := by
      have := hdot
      unfold vec2_dot at this
      unfold vec2_magnitude vec2_sqrmagnitude
      rw [this]
    rw [hmag]
    have h : ((|((slld2dsqrt (a * a / 2 ^ 32 + b * b / 2 ^ 32) : Int) : ℚ) - 2 ^ 32| : ℚ) : ℝ) ≤
        ((normError v.maxAbs : ℚ) : ℝ) := by
      rw [normError_cast]
      push_cast
      exact acc
    exact_mod_cast h

/-- Normalization of a Vector3 whose largest component magnitude is between `2^16` and
`2^46`. -/
theorem vec3_normalize_accuracy (slld2dsqrt sllinv : Int → Int)
    (hs : ∀ S : Int, 0 < S → S < 2 ^ 62 → |slld2dsqrt S - sqrtIdeal S| ≤ 1)
    (hi : ∀ m : Int, 2 ^ 15 ≤ m → m < 2 ^ 48 → |sllinv m - invIdeal m| ≤ 1)
    (w : Vector3) (h16 : 2 ^ 16 ≤ w.maxAbs) (h46 : w.maxAbs < 2 ^ 46) :
    vec3_set_normalize slld2dsqrt sllinv w ≠ ⟨0, 0, 0⟩ ∧
      |((vec3_magnitude slld2dsqrt (vec3_set_normalize slld2dsqrt sllinv w) : Int) : ℚ)
          - 2 ^ 32| ≤ normError w.maxAbs := by
  obtain ⟨mx, my, mz, mm⟩ := maxAbs3_spec w
  obtain ⟨a, b, c, hn, -, hdot, -, Sp0, -, acc⟩ :=
    vec3_normalize_chop slld2dsqrt sllinv hs hi w.x w.y w.z w.maxAbs mx my mz mm h16 h46
  have hw : (⟨w.x, w.y, w.z⟩ : Vector3) = w := rfl
  rw [hw] at hn
  rw [hn]
  refine ⟨?_, ?_⟩
  · intro h
    have ha : a = 0 := congrArg Vector3.x h
    have hb : b = 0 := congrArg Vector3.y h
    have hc : c = 0 := congrArg Vector3.z h
    rw [ha, hb, hc] at Sp0
    simp at Sp0
  · have hmag : vec3_magnitude slld2dsqrt ⟨a, b, c⟩ =
        slld2dsqrt (a * a / 2 ^ 32 + b * b / 2 ^ 32 + c * c / 2 ^ 32) := by
      have := hdot
      unfold vec3_dot at this
      unfold vec3_magnitude
      rw [this]
    rw [hmag]
    have h : ((|((slld2dsqrt (a * a / 2 ^ 32 + b * b / 2 ^ 32 + c * c / 2 ^ 32) : Int) : ℚ)
        - 2 ^ 32| : ℚ) : ℝ) ≤ ((normError w.maxAbs : ℚ) : ℝ) := by
      rw [normError_cast]
      push_cast
      exact acc
    exact_mod_cast h

/-- Evaluation of the ideal square root between two consecutive squares. -/
theorem sqrtIdeal_eval (x : Int) (k : Nat) (hx : 0 < x) (h1 : k * k ≤ x.toNat * 2 ^ 32)
    (h2 : x.toNat * 2 ^ 32 < (k + 1) * (k + 1)) : sqrtIdeal x = k := by
  unfold sqrtIdeal
  rw [if_neg (by omega), ← Nat.eq_sqrt.mpr ⟨h1, h2⟩]

/-- C18 fails as stated at two inputs.  The Vector2 with raw components `(1, 0)` (the value
`2^-32`) is not the zero vector, but its squared magnitude is truncated to zero, so with any
square root that is exact at `0` (and any reciprocal) its magnitude is `0`, `Normalize`
returns the zero vector and the magnitude of the result is `0`, not `1.0`.  The Vector2 with
raw components `(100000, 0)` is normalized, with the ideal square root and reciprocal, to
the raw vector `(4634140002, 0)`, whose magnitude is raw `4634140001`, about `1.079`: the
chopped square `2` of the component has lost most of its bits. -/
theorem C18_counterexample :
    ((⟨1, 0⟩ : Vector2) ≠ ⟨0, 0⟩ ∧ Vector2.SqrMagnitude ⟨1, 0⟩ = 0 ∧
      ∀ slld2dsqrt sllinv : Int → Int, slld2dsqrt 0 = 0 →
        Vector2.Normalize slld2dsqrt sllinv ⟨1, 0⟩ = ⟨0, 0⟩ ∧
        Vector2.Magnitude slld2dsqrt (Vector2.Normalize slld2dsqrt sllinv ⟨1, 0⟩) = 0) ∧
    (Vector2.Normalize sqrtIdeal invIdeal ⟨100000, 0⟩ = ⟨4634140002, 0⟩ ∧
      Vector2.Magnitude sqrtIdeal (Vector2.Normalize sqrtIdeal invIdeal ⟨100000, 0⟩)
        = 4634140001 ∧
      (4634140001 : Int) > CONST_1 + 2 ^ 28) := by
  have hm : vec2_magnitude sqrtIdeal ⟨100000, 0⟩ = 92681 := by
    have e : vec2_sqrmagnitude ⟨100000, 0⟩ = 2 := by decide
    unfold vec2_magnitude
    rw [e]
    exact sqrtIdeal_eval 2 92681 (by decide) (by decide) (by decide)
  have hn : Vector2.Normalize sqrtIdeal invIdeal ⟨100000, 0⟩ = ⟨4634140002, 0⟩ := by
    have h := vec2_set_normalize_pos sqrtIdeal invIdeal ⟨100000, 0⟩ (by rw [hm]; decide)
    rw [hm] at h
    exact h
  refine ⟨⟨by decide, by decide, fun slld2dsqrt sllinv h0 =>
    normalize_tiny_vec2 slld2dsqrt sllinv h0 ⟨1, 0⟩ (by decide) (by decide)⟩, hn, ?_, by decide⟩
  rw [hn]
  have e : vec2_sqrmagnitude ⟨4634140002, 0⟩ = 5000097108 := by decide
  unfold Vector2.Magnitude vec2_magnitude
  rw [e]
  exact sqrtIdeal_eval 5000097108 4634140001 (by decide) (by decide) (by decide)

theorem normError_le (M : Int) (h32 : 2 ^ 32 ≤ M) : normError M ≤ (M : ℚ) / 2 ^ 30 + 20 := by
  have c32 : (2 : ℚ) ^ 32 ≤ M := by exact_mod_cast h32
  have cM0 : (0 : ℚ) < M := lt_of_lt_of_le (by positivity) c32
  have h1 : (2 : ℚ) ^ 34 / M ≤ 4 := by
    rw [div_le_iff₀ cM0]
    norm_num at c32 ⊢
    linarith
  have h2 : (2 : ℚ) ^ 67 / (M : ℚ) ^ 2 ≤ 8 := by
    rw [div_le_iff₀ (by positivity)]
    have := mul_le_mul c32 c32 (by positivity) cM0.le
    norm_num at this ⊢
    nlinarith
  unfold normError
  linarith

/-- C18 (amended): let `M` be the largest raw component magnitude of a vector.  Given a
square root and a reciprocal that are within one raw unit of the exact (chopped) ones and
multiply the truncated product: (1) for every Vector2 and Vector3 with `2^16 ≤ M < 2^46`
(largest component between `2^-16` and `2^14` in magnitude) `Normalize(v)` is not the zero
vector and `Magnitude(Normalize(v))` is within `normError M` raw units of `1.0`, where
`normError M = 2^67 / M^2 + 2^34 / M + M / 2^30 + 8`; (2) this bound is at most
`M / 2^30 + 20` raw units as soon as a component has magnitude at least `1.0`; (3) given a
square root exact at `0`, for every vector with `M < 2^16` (all squares are chopped to zero),
nonzero vectors included, `Normalize(v)` is the zero vector and the magnitude of the result
is `0`. -/
theorem C18_normalize_accuracy (slld2dsqrt sllinv : Int → Int) (h0 : slld2dsqrt 0 = 0)
    (hs : ∀ S : Int, 0 < S → S < 2 ^ 62 → |slld2dsqrt S - sqrtIdeal S| ≤ 1)
    (hi : ∀ m : Int, 2 ^ 15 ≤ m → m < 2 ^ 48 → |sllinv m - invIdeal m| ≤ 1)
    (v : Vector2) (w : Vector3) :
    (2 ^ 16 ≤ v.maxAbs ∧ v.maxAbs < 2 ^ 46 →
      Vector2.Normalize slld2dsqrt sllinv v ≠ ⟨0, 0⟩ ∧
      |((Vector2.Magnitude slld2dsqrt (Vector2.Normalize slld2dsqrt sllinv v) : Int) : ℚ)
        - 2 ^ 32| ≤ normError v.maxAbs) ∧
    (2 ^ 16 ≤ w.maxAbs ∧ w.maxAbs < 2 ^ 46 →
      Vector3.Normalize slld2dsqrt sllinv w ≠ ⟨0, 0, 0⟩ ∧
      |((Vector3.Magnitude slld2dsqrt (Vector3.Normalize slld2dsqrt sllinv w) : Int) : ℚ)
        - 2 ^ 32| ≤ normError w.maxAbs) ∧
    (∀ M : Int, 2 ^ 32 ≤ M → normError M ≤ (M : ℚ) / 2 ^ 30 + 20) ∧
    (v.maxAbs < 2 ^ 16 →
      Vector2.Normalize slld2dsqrt sllinv v = ⟨0, 0⟩ ∧
      Vector2.Magnitude slld2dsqrt (Vector2.Normalize slld2dsqrt sllinv v) = 0) ∧
    (w.maxAbs < 2 ^ 16 →
      Vector3.Normalize slld2dsqrt sllinv w = ⟨0, 0, 0⟩ ∧
      Vector3.Magnitude slld2dsqrt (Vector3.Normalize slld2dsqrt sllinv w) = 0) := by
  refine ⟨?_, ?_, normError_le, ?_, ?_⟩
  · rintro ⟨h16, h46⟩
    obtain ⟨h1, -, h3⟩ := vec2_normalize_accuracy slld2dsqrt sllinv hs hi v h16 h46
    exact ⟨h1, h3⟩
  · rintro ⟨h16, h46⟩
    exact vec3_normalize_accuracy slld2dsqrt sllinv hs hi w h16 h46
  · intro h
    obtain ⟨mx, my, -, -⟩ := maxAbs2_spec v
    exact normalize_tiny_vec2 slld2dsqrt sllinv h0 v (by omega) (by omega)
  · intro h
    obtain ⟨mx, my, mz, -⟩ := maxAbs3_spec w
    exact normalize_tiny_vec3 slld2dsqrt sllinv h0 w (by omega) (by omega) (by omega)

/-- Witness of C18 (amended) with the ideal square root and reciprocal: the Vector2
`(3.0, 4.0)` and the Vector3 `(3.0, 0, 4.0)` (largest raw component `4 * 2^32`) are
normalized to a nonzero vector whose magnitude is within `normError (4 * 2^32)` raw units
of `1.0`, and the raw Vector2 `(1, 0)` to the zero vector. -/
theorem C18_normalize_accuracy_witness :
    (Vector2.Normalize sqrtIdeal invIdeal ⟨12884901888, 17179869184⟩ ≠ ⟨0, 0⟩ ∧
      |((Vector2.Magnitude sqrtIdeal
          (Vector2.Normalize sqrtIdeal invIdeal ⟨12884901888, 17179869184⟩) : Int) : ℚ)
        - 2 ^ 32| ≤ normError 17179869184) ∧
    (Vector3.Normalize sqrtIdeal invIdeal ⟨12884901888, 0, 17179869184⟩ ≠ ⟨0, 0, 0⟩ ∧
      |((Vector3.Magnitude sqrtIdeal
          (Vector3.Normalize sqrtIdeal invIdeal ⟨12884901888, 0, 17179869184⟩) : Int) : ℚ)
        - 2 ^ 32| ≤ normError 17179869184) ∧
    normError 17179869184 ≤ 36 ∧
    Vector2.Normalize sqrtIdeal invIdeal ⟨1, 0⟩ = ⟨0, 0⟩ := by
  have hs : ∀ S : Int, 0 < S → S < 2 ^ 62 → |sqrtIdeal S - sqrtIdeal S| ≤ 1 := by
    intro S _ _
    simp
  have hi : ∀ m : Int, 2 ^ 15 ≤ m → m < 2 ^ 48 → |invIdeal m - invIdeal m| ≤ 1 := by
    intro m _ _
    simp
  have e2 : (⟨12884901888, 17179869184⟩ : Vector2).maxAbs = 17179869184 := by decide
  have e3 : (⟨12884901888, 0, 17179869184⟩ : Vector3).maxAbs = 17179869184 := by decide
  have h := C18_normalize_accuracy sqrtIdeal invIdeal rfl hs hi ⟨12884901888, 17179869184⟩
    ⟨12884901888, 0, 17179869184⟩
  rw [e2, e3] at h
  refine ⟨h.1 ⟨by decide, by decide⟩, h.2.1 ⟨by decide, by decide⟩, ?_, ?_⟩
  · have := h.2.2.1 17179869184 (by decide)
    norm_num at this ⊢
    linarith
  · exact ((C18_normalize_accuracy sqrtIdeal invIdeal rfl hs hi ⟨1, 0⟩ ⟨0, 0, 0⟩).2.2.2.1
      (by decide)).1

/-! ## Claims C19 and C20: linear interpolation -/

theorem sllmul_one_right (d : Int) (hd : IsSll d) : sllmul d CONST_1 = d := by
  rw [sllmul_trunc d CONST_1 hd (by decide)]
  unfold CONST_1
  rw [show (0x0000000100000000 : Int) = 2 ^ 32 by norm_num,
    Int.mul_ediv_cancel d (by norm_num)]
  exact wrap64_of_range d hd

theorem lerp_component_zero (a b : Int) (ha : IsSll a) :
    slladd a (sllmul (sllsub b a) 0) = a := by
  rw [sllmul_zero_right]
  unfold slladd
  rw [add_zero]
  exact wrap64_of_range a ha

theorem lerp_component_one (a b : Int) (hb : IsSll b) :
    slladd a (sllmul (sllsub b a) CONST_1) = b := by
  unfold sllsub
  rw [sllmul_one_right _ (wrap64_range _)]
  unfold slladd wrap64
  unfold IsSll at hb
  omega

/-- C19: for all vectors `a` and `b` (Vector2 and Vector3) whose components are 64-bit
values, `lerp(a, b, 0) == a` and `lerp(a, b, 1.0) == b` exactly, component by component,
including when the difference `b - a` wraps around 64 bits. -/
theorem C19_lerp_endpoints (a b : Vector2) (c d : Vector3) (ha : a.IsValid) (hb : b.IsValid)
    (hc : c.IsValid) (hd : d.IsValid) :
    vec2_lerp a b CONST_0 = a ∧ vec2_lerp a b CONST_1 = b ∧
      vec3_lerp c d CONST_0 = c ∧ vec3_lerp c d CONST_1 = d := by
  obtain ⟨hax, hay⟩ := ha
  obtain ⟨hbx, hby⟩ := hb
  obtain ⟨hcx, hcy, hcz⟩ := hc
  obtain ⟨hdx, hdy, hdz⟩ := hd
  have e0 : clamp_fix CONST_0 CONST_0 CONST_1 = 0 := by decide
  have e1 : clamp_fix CONST_1 CONST_0 CONST_1 = CONST_1 := by decide
  refine ⟨?_, ?_, ?_, ?_⟩
  · unfold vec2_lerp
    simp only [e0, lerp_component_zero _ _ hax, lerp_component_zero _ _ hay]
  · unfold vec2_lerp
    simp only [e1, lerp_component_one _ _ hbx, lerp_component_one _ _ hby]
  · unfold vec3_lerp
    simp only [e0, lerp_component_zero _ _ hcx, lerp_component_zero _ _ hcy,
      lerp_component_zero _ _ hcz]
  · unfold vec3_lerp
    simp only [e1, lerp_component_one _ _ hdx, lerp_component_one _ _ hdy,
      lerp_component_one _ _ hdz]

/-- Witness of C19 on extreme components, where every difference `b - a` wraps around. -/
theorem C19_lerp_endpoints_witness :
    vec2_lerp ⟨2 ^ 63 - 1, -2 ^ 63⟩ ⟨-2 ^ 63, 2 ^ 63 - 1⟩ CONST_0 = ⟨2 ^ 63 - 1, -2 ^ 63⟩ ∧
      vec2_lerp ⟨2 ^ 63 - 1, -2 ^ 63⟩ ⟨-2 ^ 63, 2 ^ 63 - 1⟩ CONST_1 = ⟨-2 ^ 63, 2 ^ 63 - 1⟩ ∧
      vec3_lerp ⟨2 ^ 63 - 1, -2 ^ 63, 0⟩ ⟨-2 ^ 63, 2 ^ 63 - 1, 5⟩ CONST_0
        = ⟨2 ^ 63 - 1, -2 ^ 63, 0⟩ ∧
      vec3_lerp ⟨2 ^ 63 - 1, -2 ^ 63, 0⟩ ⟨-2 ^ 63, 2 ^ 63 - 1, 5⟩ CONST_1
        = ⟨-2 ^ 63, 2 ^ 63 - 1, 5⟩ :=
  C19_lerp_endpoints ⟨2 ^ 63 - 1, -2 ^ 63⟩ ⟨-2 ^ 63, 2 ^ 63 - 1⟩ ⟨2 ^ 63 - 1, -2 ^ 63, 0⟩
    ⟨-2 ^ 63, 2 ^ 63 - 1, 5⟩ (by decide) (by decide) (by decide) (by decide)

theorem vec2_lerp_below (a b : Vector2) (t : Int) (ha : a.IsValid) (ht : t < CONST_0) :
    vec2_lerp a b t = a := by
  have e : clamp_fix t CONST_0 CONST_1 = 0 := by
    unfold clamp_fix
    rw [if_pos ht]
    rfl
  unfold vec2_lerp
  simp only [e, lerp_component_zero _ _ ha.1, lerp_component_zero _ _ ha.2]

theorem vec2_lerp_above (a b : Vector2) (t : Int) (hb : b.IsValid) (ht : t > CONST_1) :
    vec2_lerp a b t = b := by
  have e : clamp_fix t CONST_0 CONST_1 = CONST_1 := by
    unfold clamp_fix
    unfold CONST_1 at ht
    rw [if_neg (by unfold CONST_0; omega), if_pos (by unfold CONST_1; omega)]
  unfold vec2_lerp
  simp only [e, lerp_component_one _ _ hb.1, lerp_component_one _ _ hb.2]

theorem vec3_lerp_below (a b : Vector3) (t : Int) (ha : a.IsValid) (ht : t < CONST_0) :
    vec3_lerp a b t = a := by
  have e : clamp_fix t CONST_0 CONST_1 = 0 := by
    unfold clamp_fix
    rw [if_pos ht]
    rfl
  unfold vec3_lerp
  simp only [e, lerp_component_zero _ _ ha.1, lerp_component_zero _ _ ha.2.1,
    lerp_component_zero _ _ ha.2.2]

theorem vec3_lerp_above (a b : Vector3) (t : Int) (hb : b.IsValid) (ht : t > CONST_1) :
    vec3_lerp a b t = b := by
  have e : clamp_fix t CONST_0 CONST_1 = CONST_1 := by
    unfold clamp_fix
    unfold CONST_1 at ht
    rw [if_neg (by unfold CONST_0; omega), if_pos (by unfold CONST_1; omega)]
  unfold vec3_lerp
  simp only [e, lerp_component_one _ _ hb.1, lerp_component_one _ _ hb.2.1,
    lerp_component_one _ _ hb.2.2]

theorem clamp_fix_inside (t lo hi : Int) (h : lo ≤ t ∧ t ≤ hi) : clamp_fix t lo hi = t := by
  unfold clamp_fix
  rw [if_neg (by omega), if_neg (by omega)]

/-- C20: for all vectors `a`, `b` (Vector2 and Vector3, components 64-bit values) and every
fixed `t`, `Lerp(a, b, t) == LerpUnclamped(a, b, clamp_fix(t, 0, 1.0))`: the two agree for
every `t` in `[0, 1.0]`, `Lerp` returns `a` for every `t < 0` and `b` for every `t > 1.0`,
and `LerpUnclamped` does not clamp (for some `a`, `b` and `t > 1.0` it returns a value
different from `b`). -/
theorem C20_lerp_clamps (a b : Vector2) (c d : Vector3) (t : Int) (ha : a.IsValid)
    (hb : b.IsValid) (hc : c.IsValid) (hd : d.IsValid) :
    (Vector2.Lerp a b t = Vector2.LerpUnclamped a b (clamp_fix t CONST_0 CONST_1) ∧
      (CONST_0 ≤ t ∧ t ≤ CONST_1 → Vector2.Lerp a b t = Vector2.LerpUnclamped a b t) ∧
      (t < CONST_0 → Vector2.Lerp a b t = a) ∧
      (t > CONST_1 → Vector2.Lerp a b t = b)) ∧
    (Vector3.Lerp c d t = Vector3.LerpUnclamped c d (clamp_fix t CONST_0 CONST_1) ∧
      (CONST_0 ≤ t ∧ t ≤ CONST_1 → Vector3.Lerp c d t = Vector3.LerpUnclamped c d t) ∧
      (t < CONST_0 → Vector3.Lerp c d t = c) ∧
      (t > CONST_1 → Vector3.Lerp c d t = d)) ∧
    (∃ (a1 b1 : Vector2) (t1 : Int), a1.IsValid ∧ b1.IsValid ∧ t1 > CONST_1 ∧
      Vector2.LerpUnclamped a1 b1 t1 ≠ b1) ∧
    (∃ (c1 d1 : Vector3) (t1 : Int), c1.IsValid ∧ d1.IsValid ∧ t1 > CONST_1 ∧
      Vector3.LerpUnclamped c1 d1 t1 ≠ d1) := by
  refine ⟨⟨rfl, ?_, ?_, ?_⟩, ⟨rfl, ?_, ?_, ?_⟩, ?_, ?_⟩
  · intro ht
    unfold Vector2.Lerp vec2_lerp Vector2.LerpUnclamped
    simp only [clamp_fix_inside t CONST_0 CONST_1 ht]
  · intro ht
    exact vec2_lerp_below a b t ha ht
  · intro ht
    exact vec2_lerp_above a b t hb ht
  · intro ht
    unfold Vector3.Lerp vec3_lerp Vector3.LerpUnclamped
    simp only [clamp_fix_inside t CONST_0 CONST_1 ht]
  · intro ht
    exact vec3_lerp_below c d t hc ht
  · intro ht
    exact vec3_lerp_above c d t hd ht
  · exact ⟨⟨0, 0⟩, ⟨4294967296, 0⟩, 8589934592, by decide, by decide, by decide, by decide⟩
  · exact ⟨⟨0, 0, 0⟩, ⟨4294967296, 0, 0⟩, 8589934592, by decide, by decide, by decide,
      by decide⟩

/-- Witness of C20 with `a = (0, 0)`, `b = (1.0, 0)` and `t = 2.0`: `Lerp` returns `b` while
`LerpUnclamped` returns `(2.0, 0)`; likewise for Vector3. -/
theorem C20_lerp_clamps_witness :
    Vector2.Lerp ⟨0, 0⟩ ⟨4294967296, 0⟩ 8589934592 = ⟨4294967296, 0⟩ ∧
      Vector2.LerpUnclamped ⟨0, 0⟩ ⟨4294967296, 0⟩ 8589934592 = ⟨8589934592, 0⟩ ∧
      Vector3.Lerp ⟨0, 0, 0⟩ ⟨4294967296, 0, 0⟩ 8589934592 = ⟨4294967296, 0, 0⟩ ∧
      Vector3.LerpUnclamped ⟨0, 0, 0⟩ ⟨4294967296, 0, 0⟩ 8589934592 = ⟨8589934592, 0, 0⟩ :=
  ⟨(C20_lerp_clamps ⟨0, 0⟩ ⟨4294967296, 0⟩ ⟨0, 0, 0⟩ ⟨4294967296, 0, 0⟩ 8589934592 (by decide)
      (by decide) (by decide) (by decide)).1.2.2.2 (by decide),
    by decide,
    (C20_lerp_clamps ⟨0, 0⟩ ⟨4294967296, 0⟩ ⟨0, 0, 0⟩ ⟨4294967296, 0, 0⟩ 8589934592 (by decide)
      (by decide) (by decide) (by decide)).2.1.2.2.2 (by decide),
    by decide⟩

/-! ## Claim C21: component-wise maximum and minimum -/

theorem max_fold_spec (l : List Vector2) (acc : Vector2) :
    ((l.foldl Vector2.maxStep acc).x = acc.x ∨
        ∃ v ∈ l, (l.foldl Vector2.maxStep acc).x = v.x) ∧
      ((l.foldl Vector2.maxStep acc).y = acc.y ∨
        ∃ v ∈ l, (l.foldl Vector2.maxStep acc).y = v.y) ∧
      acc.x ≤ (l.foldl Vector2.maxStep acc).x ∧ acc.y ≤ (l.foldl Vector2.maxStep acc).y ∧
      ∀ v ∈ l, v.x ≤ (l.foldl Vector2.maxStep acc).x ∧
        v.y ≤ (l.foldl Vector2.maxStep acc).y := by
  induction l generalizing acc with
  | nil => simp
  | cons a t ih =>
    simp only [List.foldl_cons, List.mem_cons, exists_eq_or_imp, forall_eq_or_imp]
    obtain ⟨hx, hy, hax, hay, hall⟩ := ih (Vector2.maxStep acc a)
    have sx : (Vector2.maxStep acc a).x = if acc.x > a.x then acc.x else a.x := rfl
    have sy : (Vector2.maxStep acc a).y = if acc.y > a.y then acc.y else a.y := rfl
    refine ⟨?_, ?_, ?_, ?_, ⟨?_, ?_⟩, hall⟩
    · rcases hx with h | h
      · rw [h, sx]
        by_cases hc : acc.x > a.x
        · left; rw [if_pos hc]
        · right; left; rw [if_neg hc]
      · right; right; exact h
    · rcases hy with h | h
      · rw [h, sy]
        by_cases hc : acc.y > a.y
        · left; rw [if_pos hc]
        · right; left; rw [if_neg hc]
      · right; right; exact h
    · refine le_trans ?_ hax
      rw [sx]; split_ifs <;> omega
    · refine le_trans ?_ hay
      rw [sy]; split_ifs <;> omega
    · refine le_trans ?_ hax
      rw [sx]; split_ifs <;> omega
    · refine le_trans ?_ hay
      rw [sy]; split_ifs <;> omega

theorem min_fold_spec (l : List Vector2) (acc : Vector2) :
    ((l.foldl Vector2.minStep acc).x = acc.x ∨
        ∃ v ∈ l, (l.foldl Vector2.minStep acc).x = v.x) ∧
      ((l.foldl Vector2.minStep acc).y = acc.y ∨
        ∃ v ∈ l, (l.foldl Vector2.minStep acc).y = v.y) ∧
      (l.foldl Vector2.minStep acc).x ≤ acc.x ∧ (l.foldl Vector2.minStep acc).y ≤ acc.y ∧
      ∀ v ∈ l, (l.foldl Vector2.minStep acc).x ≤ v.x ∧
        (l.foldl Vector2.minStep acc).y ≤ v.y := by
  induction l generalizing acc with
  | nil => simp
  | cons a t ih =>
    simp only [List.foldl_cons, List.mem_cons, exists_eq_or_imp, forall_eq_or_imp]
    obtain ⟨hx, hy, hax, hay, hall⟩ := ih (Vector2.minStep acc a)
    have sx : (Vector2.minStep acc a).x = if acc.x < a.x then acc.x else a.x := rfl
    have sy : (Vector2.minStep acc a).y = if acc.y < a.y then acc.y else a.y := rfl
    refine ⟨?_, ?_, ?_, ?_, ⟨?_, ?_⟩, hall⟩
    · rcases hx with h | h
      · rw [h, sx]
        by_cases hc : acc.x < a.x
        · left; rw [if_pos hc]
        · right; left; rw [if_neg hc]
      · right; right; exact h
    · rcases hy with h | h
      · rw [h, sy]
        by_cases hc : acc.y < a.y
        · left; rw [if_pos hc]
        · right; left; rw [if_neg hc]
      · right; right; exact h
    · refine le_trans hax ?_
      rw [sx]; split_ifs <;> omega
    · refine le_trans hay ?_
      rw [sy]; split_ifs <;> omega
    · refine le_trans hax ?_
      rw [sx]; split_ifs <;> omega
    · refine le_trans hay ?_
      rw [sy]; split_ifs <;> omega

theorem maxStep_right_comm (acc a b : Vector2) :
    Vector2.maxStep (Vector2.maxStep acc a) b = Vector2.maxStep (Vector2.maxStep acc b) a := by
  unfold Vector2.maxStep
  simp only [Vector2.mk.injEq]
  constructor <;> split_ifs <;> omega

theorem minStep_right_comm (acc a b : Vector2) :
    Vector2.minStep (Vector2.minStep acc a) b = Vector2.minStep (Vector2.minStep acc b) a := by
  unfold Vector2.minStep
  simp only [Vector2.mk.injEq]
  constructor <;> split_ifs <;> omega

/-- C21: for every sequence of Vector2 values (components 64-bit values), `Max` folds the
component-wise maximum from the seed `CONST_MIN` and `Min` the minimum from `CONST_MAX`: for
a non-empty sequence each result component is a component of some element and bounds all of
them, the result does not depend on the order of the elements, and for the empty sequence
the result is the seed. -/
theorem C21_max_min (l : List Vector2) (hl : ∀ v ∈ l, v.IsValid) :
    (Vector2.Max [] = ⟨CONST_MIN, CONST_MIN⟩ ∧ Vector2.Min [] = ⟨CONST_MAX, CONST_MAX⟩) ∧
    (l ≠ [] →
      ((∃ v ∈ l, (Vector2.Max l).x = v.x) ∧ (∃ v ∈ l, (Vector2.Max l).y = v.y) ∧
        ∀ v ∈ l, v.x ≤ (Vector2.Max l).x ∧ v.y ≤ (Vector2.Max l).y) ∧
      ((∃ v ∈ l, (Vector2.Min l).x = v.x) ∧ (∃ v ∈ l, (Vector2.Min l).y = v.y) ∧
        ∀ v ∈ l, (Vector2.Min l).x ≤ v.x ∧ (Vector2.Min l).y ≤ v.y)) ∧
    (∀ l2 : List Vector2, l2.Perm l →
      Vector2.Max l2 = Vector2.Max l ∧ Vector2.Min l2 = Vector2.Min l) := by
  refine ⟨⟨rfl, rfl⟩, ?_, ?_⟩
  · intro hne
    obtain ⟨w, hw⟩ := List.exists_mem_of_ne_nil l hne
    have hwv := hl w hw
    unfold Vector2.IsValid IsSll at hwv
    obtain ⟨hx, hy, -, -, hall⟩ := max_fold_spec l ⟨CONST_MIN, CONST_MIN⟩
    obtain ⟨kx, ky, -, -, kall⟩ := min_fold_spec l ⟨CONST_MAX, CONST_MAX⟩
    have emin : CONST_MIN = -2 ^ 63 := by decide
    have emax : CONST_MAX = 2 ^ 63 - 1 := by decide
    refine ⟨⟨?_, ?_, hall⟩, ⟨?_, ?_, kall⟩⟩
    · rcases hx with h | h
      · have h2 : (Vector2.Max l).x = CONST_MIN := h
        have h3 : w.x ≤ (Vector2.Max l).x := (hall w hw).1
        exact ⟨w, hw, by omega⟩
      · exact h
    · rcases hy with h | h
      · have h2 : (Vector2.Max l).y = CONST_MIN := h
        have h3 : w.y ≤ (Vector2.Max l).y := (hall w hw).2
        exact ⟨w, hw, by omega⟩
      · exact h
    · rcases kx with h | h
      · have h2 : (Vector2.Min l).x = CONST_MAX := h
        have h3 : (Vector2.Min l).x ≤ w.x := (kall w hw).1
        exact ⟨w, hw, by omega⟩
      · exact h
    · rcases ky with h | h
      · have h2 : (Vector2.Min l).y = CONST_MAX := h
        have h3 : (Vector2.Min l).y ≤ w.y := (kall w hw).2
        exact ⟨w, hw, by omega⟩
      · exact h
  · intro l2 hp
    exact ⟨List.Perm.foldl_eq' hp (fun x _ y _ z => maxStep_right_comm z x y) _,
      List.Perm.foldl_eq' hp (fun x _ y _ z => minStep_right_comm z x y) _⟩

/-- Witness of C21, the case named in the spec: `max([(1,5),(3,2),(0,9)]) == (3,9)`, and the
minimum of the same list is `(0,2)`; also with the elements in another order. -/
theorem C21_max_min_witness :
    Vector2.Max [⟨4294967296, 21474836480⟩, ⟨12884901888, 8589934592⟩, ⟨0, 38654705664⟩]
        = ⟨12884901888, 38654705664⟩ ∧
      Vector2.Min [⟨4294967296, 21474836480⟩, ⟨12884901888, 8589934592⟩, ⟨0, 38654705664⟩]
        = ⟨0, 8589934592⟩ ∧
      Vector2.Max [⟨0, 38654705664⟩, ⟨4294967296, 21474836480⟩, ⟨12884901888, 8589934592⟩]
        = Vector2.Max
            [⟨4294967296, 21474836480⟩, ⟨12884901888, 8589934592⟩, ⟨0, 38654705664⟩] :=
  ⟨by decide, by decide,
    ((C21_max_min
      [⟨4294967296, 21474836480⟩, ⟨12884901888, 8589934592⟩, ⟨0, 38654705664⟩]
      (by decide)).2.2
      [⟨0, 38654705664⟩, ⟨4294967296, 21474836480⟩, ⟨12884901888, 8589934592⟩]
      (by decide)).1⟩

/-! ## Claims C22, C23 and C26: `Angle` -/

theorem vec3_magnitude_3_0_4 :
    vec3_magnitude sqrtIdeal ⟨12884901888, 0, 17179869184⟩ = 21474836480 := by
  have e : slladd (sllmul 12884901888 12884901888)
      (slladd (sllmul 0 0) (sllmul 17179869184 17179869184)) = 107374182400 := by decide
  unfold vec3_magnitude
  simp only [e, sqrtIdeal_25]

theorem vec3_magnitude_0_5_0 :
    vec3_magnitude sqrtIdeal ⟨0, 21474836480, 0⟩ = 21474836480 := by
  have e : slladd (sllmul 0 0)
      (slladd (sllmul 21474836480 21474836480) (sllmul 0 0)) = 107374182400 := by decide
  unfold vec3_magnitude
  simp only [e, sqrtIdeal_25]

/-- C22, the code at the failing input (ideal square root and reciprocal, any `asin`): after
the Vector3 `Angle(from, to)` with `from = (3.0, 0, 4.0)` and `to = (0, 5.0, 0)` the operand
`from` holds `(0.6, 0, 0.8)` (chopped) and `to` holds `(0, 0.99999.., 0)`, because
`vec3_set_normalize` is applied to the operands themselves; the Vector2 `Angle` works on the
copies `_from`, `_to` and leaves its operands as they were.  Whatever the primitives, the
Vector3 operands end up normalized, and with any square root that is exact at `0` the raw
operand `(0, 0, 1)` ends up as the zero vector. -/
theorem C22_Vector3_Angle_normalizes_operands (sllasin : Int → Int) :
    (Vector3.Angle sqrtIdeal invIdeal sllasin ⟨12884901888, 0, 17179869184⟩
        ⟨0, 21474836480, 0⟩).2
      = (⟨2576980377, 0, 3435973836⟩, ⟨0, 4294967295, 0⟩) ∧
    (Vector2.Angle sqrtIdeal invIdeal sllasin ⟨12884901888, 17179869184⟩
        ⟨0, 21474836480⟩).2
      = (⟨12884901888, 17179869184⟩, ⟨0, 21474836480⟩) ∧
    (∀ (slld2dsqrt sllinv : Int → Int) (a b : Vector2),
      (Vector2.Angle slld2dsqrt sllinv sllasin a b).2 = (a, b)) ∧
    (∀ (slld2dsqrt sllinv : Int → Int) (c d : Vector3),
      (Vector3.Angle slld2dsqrt sllinv sllasin c d).2
        = (Vector3.SetNormalize slld2dsqrt sllinv c,
           Vector3.SetNormalize slld2dsqrt sllinv d)) ∧
    (∀ (slld2dsqrt sllinv : Int → Int) (d : Vector3), slld2dsqrt 0 = 0 →
      (Vector3.Angle slld2dsqrt sllinv sllasin ⟨0, 0, 1⟩ d).2.1 = ⟨0, 0, 0⟩) := by
  refine ⟨?_, rfl, fun _ _ _ _ => rfl, fun _ _ _ _ => rfl, fun slld2dsqrt sllinv d h0 =>
    (normalize_tiny_vec3 slld2dsqrt sllinv h0 ⟨0, 0, 1⟩ (by decide) (by decide)
      (by decide)).1⟩
  have h1 := vec3_set_normalize_pos sqrtIdeal invIdeal ⟨12884901888, 0, 17179869184⟩
    (by rw [vec3_magnitude_3_0_4]; decide)
  have h2 := vec3_set_normalize_pos sqrtIdeal invIdeal ⟨0, 21474836480, 0⟩
    (by rw [vec3_magnitude_0_5_0]; decide)
  rw [vec3_magnitude_3_0_4] at h1
  rw [vec3_magnitude_0_5_0] at h2
  unfold Vector3.Angle
  simp only [h1, h2]
  decide

theorem clamp_fix_unit_range (d : Int) :
    CONST_neg1 ≤ clamp_fix d CONST_neg1 CONST_1 ∧ clamp_fix d CONST_neg1 CONST_1 ≤ CONST_1 := by
  have e1 : CONST_neg1 = -2 ^ 32 := by decide
  have e2 : CONST_1 = 2 ^ 32 := by decide
  unfold clamp_fix
  rw [e1, e2]
  split_ifs <;> omega

/-- With `sqrtExtended(0) = 0` and `asin(0) = 0`, the Vector2 `Angle(v, v)` of a vector whose
squares are chopped to zero is `acos(0)` in degrees. -/
theorem angle_self_tiny (slld2dsqrt sllinv sllasin : Int → Int) (h0 : slld2dsqrt 0 = 0)
    (ha0 : sllasin 0 = 0) (v : Vector2) (hx : |v.x| < 2 ^ 16) (hy : |v.y| < 2 ^ 16) :
    (Vector2.Angle slld2dsqrt sllinv sllasin v v).1 = sllmul CONST_PI_2 CONST_180_PI := by
  have hn : vec2_set_normalize slld2dsqrt sllinv v = ⟨0, 0⟩ :=
    (normalize_tiny_vec2 slld2dsqrt sllinv h0 v hx hy).1
  have hd : Vector2.Angle_d slld2dsqrt sllinv v v = 0 := by
    unfold Vector2.Angle_d
    simp only [hn, sllmul_zero_left]
    decide
  unfold Vector2.Angle
  simp only [hd, sllacos, ha0]
  have e : sllsub CONST_PI_2 0 = CONST_PI_2 := by decide
  rw [e]

/-- The chopped product with a non-negative constant is monotone and non-negative on small
non-negative operands. -/
theorem sllmul_mono_small (p q K : Int) (hp : 0 ≤ p) (hpq : p ≤ q) (hq : q < 2 ^ 40)
    (hK0 : 0 ≤ K) (hK : K < 2 ^ 40) : 0 ≤ sllmul p K ∧ sllmul p K ≤ sllmul q K := by
  have val : ∀ u : Int, 0 ≤ u → u < 2 ^ 40 →
      sllmul u K = u * K / 2 ^ 32 ∧ 0 ≤ u * K / 2 ^ 32 := by
    intro u hu0 hu
    have h0 : 0 ≤ u * K := mul_nonneg hu0 hK0
    have h1 : u * K < 2 ^ 40 * 2 ^ 40 := by
      calc u * K ≤ u * 2 ^ 40 := mul_le_mul_of_nonneg_left hK.le hu0
        _ < 2 ^ 40 * 2 ^ 40 := by omega
    have h2 : 0 ≤ u * K / 2 ^ 32 := Int.ediv_nonneg h0 (by norm_num)
    have h3 : u * K / 2 ^ 32 < 2 ^ 48 := Int.ediv_lt_of_lt_mul (by norm_num) (by omega)
    refine ⟨?_, h2⟩
    rw [sllmul_trunc u K (by unfold IsSll; omega) (by unfold IsSll; omega)]
    exact wrap64_of_range _ (by omega)
  obtain ⟨e1, n1⟩ := val p hp (by omega)
  obtain ⟨e2, -⟩ := val q (by omega) hq
  rw [e1, e2]
  exact ⟨n1, Int.ediv_le_ediv (by norm_num) (mul_le_mul_of_nonneg_right hpq hK0)⟩

/-- The integer slack `dotSlack M` covers the bound of `vec2_normalize_accuracy`. -/
theorem dotSlack_covers (M d : Int) (h16 : 2 ^ 16 ≤ M) (h46 : M < 2 ^ 46)
    (lo : 2 ^ 32 - (2 ^ 34 / (M : ℝ) + M / 2 ^ 29 + 10) ≤ (d : ℝ)) :
    CONST_1 - dotSlack M ≤ d ∧ 0 ≤ CONST_1 - dotSlack M ∧ 0 < dotSlack M := by
  have e1 : CONST_1 = 2 ^ 32 := by decide
  have hM0 : 0 < M := by omega
  have cM0 : (0 : ℝ) < M := by exact_mod_cast hM0
  have q1 : (2 : Int) ^ 34 < (2 ^ 34 / M + 1) * M := Int.lt_ediv_add_one_mul_self _ hM0
  have q2 : M < (M / 2 ^ 29 + 1) * 2 ^ 29 := Int.lt_ediv_add_one_mul_self _ (by norm_num)
  have c1 : (2 : ℝ) ^ 34 / M ≤ ((2 ^ 34 / M : Int) : ℝ) + 1 := by
    rw [div_le_iff₀ cM0]
    have : ((2 ^ 34 : Int) : ℝ) < (((2 ^ 34 / M + 1) * M : Int) : ℝ) := Int.cast_lt.mpr q1
    push_cast at this
    linarith
  have c2 : (M : ℝ) / 2 ^ 29 ≤ ((M / 2 ^ 29 : Int) : ℝ) + 1 := by
    rw [div_le_iff₀ (by positivity)]
    have : ((M : Int) : ℝ) < (((M / 2 ^ 29 + 1) * 2 ^ 29 : Int) : ℝ) := Int.cast_lt.mpr q2
    push_cast at this
    linarith
  have b1 : (2 : Int) ^ 34 / M ≤ 2 ^ 18 := Int.ediv_le_of_le_mul hM0 (by omega)
  have b2 : M / 2 ^ 29 ≤ 2 ^ 17 := by omega
  have b3 : 0 ≤ (2 : Int) ^ 34 / M := Int.ediv_nonneg (by norm_num) hM0.le
  refine ⟨?_, ?_, ?_⟩
  · have : ((CONST_1 - dotSlack M : Int) : ℝ) ≤ (d : ℝ) := by
      unfold dotSlack
      rw [e1]
      push_cast
      linarith
    exact_mod_cast this
  · unfold dotSlack
    rw [e1]
    omega
  · unfold dotSlack
    omega

/-- The Vector2 `Angle(v, v)` of a vector whose largest component magnitude `M` is between
`2^16` and `2^46` lies between `0` and the `acos` of `1.0 - dotSlack M`, in degrees. -/
theorem angle_self_bounds (slld2dsqrt sllinv sllasin : Int → Int)
    (hs : ∀ S : Int, 0 < S → S < 2 ^ 62 → |slld2dsqrt S - sqrtIdeal S| ≤ 1)
    (hi : ∀ m : Int, 2 ^ 15 ≤ m → m < 2 ^ 48 → |sllinv m - invIdeal m| ≤ 1)
    (ha0 : sllasin 0 = 0) (ha1 : sllasin CONST_1 = CONST_PI_2)
    (hmono : ∀ a b : Int, 0 ≤ a → a ≤ b → b ≤ CONST_1 → sllasin a ≤ sllasin b)
    (v : Vector2) (h16 : 2 ^ 16 ≤ v.maxAbs) (h46 : v.maxAbs < 2 ^ 46) :
    0 ≤ (Vector2.Angle slld2dsqrt sllinv sllasin v v).1 ∧
      (Vector2.Angle slld2dsqrt sllinv sllasin v v).1 ≤
        sllmul (sllacos sllasin (CONST_1 - dotSlack v.maxAbs)) CONST_180_PI := by
  obtain ⟨-, lo, -⟩ := vec2_normalize_accuracy slld2dsqrt sllinv hs hi v h16 h46
  obtain ⟨hd, hnn, hpos⟩ := dotSlack_covers v.maxAbs _ h16 h46 lo
  have e1 : CONST_1 = 2 ^ 32 := by decide
  have eneg : CONST_neg1 = -2 ^ 32 := by decide
  have epi : CONST_PI_2 = 6746518852 := by decide
  have hdA : CONST_1 - dotSlack v.maxAbs ≤ Vector2.Angle_d slld2dsqrt sllinv v v ∧
      Vector2.Angle_d slld2dsqrt sllinv v v ≤ CONST_1 := by
    unfold Vector2.Angle_d
    unfold vec2_dot at hd
    simp only []
    generalize slladd _ _ = d at hd
    generalize dotSlack v.maxAbs = k at hd hpos
    unfold clamp_fix
    rw [eneg, e1] at *
    split_ifs <;> omega
  unfold Vector2.Angle
  simp only [sllacos, sllsub]
  generalize Vector2.Angle_d slld2dsqrt sllinv v v = d at hdA
  generalize CONST_1 - dotSlack v.maxAbs = c at hnn hdA
  have m1 := hmono 0 c (le_refl 0) hnn (by omega)
  have m2 := hmono c d hnn hdA.1 hdA.2
  have m3 := hmono d CONST_1 (by omega) hdA.2 (le_refl _)
  rw [ha0] at m1
  rw [ha1] at m3
  rw [epi] at m3 ⊢
  rw [wrap64_of_range (6746518852 - sllasin d) (by omega),
    wrap64_of_range (6746518852 - sllasin c) (by omega)]
  exact sllmul_mono_small _ _ CONST_180_PI (by omega) (by omega) (by omega) (by decide)
    (by decide)

theorem normalize_3_4 :
    vec2_set_normalize sqrtIdeal invIdeal ⟨12884901888, 17179869184⟩
      = ⟨2576980377, 3435973836⟩ := by
  have h := vec2_set_normalize_pos sqrtIdeal invIdeal ⟨12884901888, 17179869184⟩
    (by rw [vec2_magnitude_3_4]; decide)
  rw [vec2_magnitude_3_4] at h
  exact h

/-- The stand-in `asin(x) = x * CONST_PI_2`: exact at `0` and at `1.0` and non-decreasing on
`[0, 1.0]`. -/
theorem asin_linear_contract :
    sllmul 0 CONST_PI_2 = 0 ∧ sllmul CONST_1 CONST_PI_2 = CONST_PI_2 ∧
      ∀ a b : Int, 0 ≤ a → a ≤ b → b ≤ CONST_1 → sllmul a CONST_PI_2 ≤ sllmul b CONST_PI_2 := by
  refine ⟨by decide, by decide, ?_⟩
  intro a b ha hab hb
  have e1 : CONST_1 = 2 ^ 32 := by decide
  rw [e1] at hb
  exact (sllmul_mono_small a b CONST_PI_2 ha hab (by omega) (by decide) (by decide)).2

/-- C23 fails as stated at two inputs.  The Vector2 with raw components `(1, 0)` is not the
zero vector, but with any primitives meeting the stated contract (`sqrtExtended(0) = 0`,
`asin(0) = 0`, `asin(1.0) = CONST_PI_2`) its normalized copy is the zero vector, the value
passed to `acos` is `0` and `Angle(v, v)` is `sllmul(CONST_PI_2, CONST_180_PI)`, raw
`386547056624`, just under 90 degrees.  For `v = (3.0, 4.0)`, with the ideal square root and
reciprocal and the stand-in `asin(x) = x * CONST_PI_2` (exact at `0` and at `1.0`), the
self-dot of the normalized copy is `1.0 - 3` raw units and `Angle(v, v)` is raw `286`, not
`0`. -/
theorem C23_counterexample :
    ((⟨1, 0⟩ : Vector2) ≠ ⟨0, 0⟩ ∧
      ∀ slld2dsqrt sllinv sllasin : Int → Int, slld2dsqrt 0 = 0 → sllasin 0 = 0 →
        sllasin CONST_1 = CONST_PI_2 →
        (Vector2.Angle slld2dsqrt sllinv sllasin ⟨1, 0⟩ ⟨1, 0⟩).1 = 386547056624) ∧
    (sqrtIdeal 0 = 0 ∧ sllmul 0 CONST_PI_2 = 0 ∧ sllmul CONST_1 CONST_PI_2 = CONST_PI_2 ∧
      Vector2.Angle_d sqrtIdeal invIdeal ⟨12884901888, 17179869184⟩
        ⟨12884901888, 17179869184⟩ = CONST_1 - 3 ∧
      (Vector2.Angle sqrtIdeal invIdeal (fun x => sllmul x CONST_PI_2)
        ⟨12884901888, 17179869184⟩ ⟨12884901888, 17179869184⟩).1 = 286) := by
  have hd : Vector2.Angle_d sqrtIdeal invIdeal ⟨12884901888, 17179869184⟩
      ⟨12884901888, 17179869184⟩ = 4294967293 := by
    unfold Vector2.Angle_d
    simp only [normalize_3_4]
    decide
  refine ⟨⟨by decide, fun slld2dsqrt sllinv sllasin h0 ha0 _ => ?_⟩,
    rfl, by decide, by decide, ?_, ?_⟩
  · rw [angle_self_tiny slld2dsqrt sllinv sllasin h0 ha0 ⟨1, 0⟩ (by decide) (by decide)]
    decide
  · rw [hd]
    decide
  · unfold Vector2.Angle
    simp only [hd]
    decide

/-- C23 (amended): let `M` be the largest raw component magnitude of a Vector2 `v`.  Given a
square root and a reciprocal within one raw unit of the exact (chopped) ones, an `asin` that
is `0` at `0`, `CONST_PI_2` at `1.0` and non-decreasing on `[0, 1.0]`, and multiply the
truncated product: (1) for every `v` with `2^16 ≤ M < 2^46`, `Angle(v, v)` lies between `0`
and the angle whose cosine is `1.0 - dotSlack M` raw units,
`sllmul(sllacos(1.0 - dotSlack M), CONST_180_PI)`, where
`dotSlack M = 2^34 / M + M / 2^29 + 12`; (2) `dotSlack M` is at most `M / 2^29 + 16` as
soon as a component has magnitude at least `1.0`; (3) given a square root exact at `0`, for
every `v` with `M < 2^16`, nonzero vectors included, the normalized copy is the zero vector
and `Angle(v, v)` is `sllmul(CONST_PI_2, CONST_180_PI)`, raw `386547056624`, just under 90
degrees. -/
theorem C23_angle_self (slld2dsqrt sllinv sllasin : Int → Int) (h0 : slld2dsqrt 0 = 0)
    (hs : ∀ S : Int, 0 < S → S < 2 ^ 62 → |slld2dsqrt S - sqrtIdeal S| ≤ 1)
    (hi : ∀ m : Int, 2 ^ 15 ≤ m → m < 2 ^ 48 → |sllinv m - invIdeal m| ≤ 1)
    (ha0 : sllasin 0 = 0) (ha1 : sllasin CONST_1 = CONST_PI_2)
    (hmono : ∀ a b : Int, 0 ≤ a → a ≤ b → b ≤ CONST_1 → sllasin a ≤ sllasin b)
    (v : Vector2) :
    (2 ^ 16 ≤ v.maxAbs ∧ v.maxAbs < 2 ^ 46 →
      0 ≤ (Vector2.Angle slld2dsqrt sllinv sllasin v v).1 ∧
      (Vector2.Angle slld2dsqrt sllinv sllasin v v).1 ≤
        sllmul (sllacos sllasin (CONST_1 - dotSlack v.maxAbs)) CONST_180_PI) ∧
    (∀ M : Int, 2 ^ 32 ≤ M → dotSlack M ≤ M / 2 ^ 29 + 16) ∧
    (v.maxAbs < 2 ^ 16 →
      (Vector2.Angle slld2dsqrt sllinv sllasin v v).1 = sllmul CONST_PI_2 CONST_180_PI) ∧
    sllmul CONST_PI_2 CONST_180_PI = 386547056624 := by
  refine ⟨?_, ?_, ?_, by decide⟩
  · rintro ⟨h16, h46⟩
    exact angle_self_bounds slld2dsqrt sllinv sllasin hs hi ha0 ha1 hmono v h16 h46
  · intro M hM
    have : (2 : Int) ^ 34 / M ≤ 4 := Int.ediv_le_of_le_mul (by omega) (by omega)
    unfold dotSlack
    omega
  · intro h
    obtain ⟨mx, my, -, -⟩ := maxAbs2_spec v
    exact angle_self_tiny slld2dsqrt sllinv sllasin h0 ha0 v (by omega) (by omega)

/-- Witness of C23 (amended) with the ideal square root and reciprocal and the stand-in
`asin(x) = x * CONST_PI_2`: for `v = (3.0, 4.0)` (largest raw component `4 * 2^32`,
`dotSlack = 45`) `Angle(v, v)` lies between `0` and raw `4068`; for the raw vector `(1, 0)`
it is `386547056624`, just under 90 degrees. -/
theorem C23_angle_self_witness :
    (0 ≤ (Vector2.Angle sqrtIdeal invIdeal (fun x => sllmul x CONST_PI_2)
        ⟨12884901888, 17179869184⟩ ⟨12884901888, 17179869184⟩).1 ∧
      (Vector2.Angle sqrtIdeal invIdeal (fun x => sllmul x CONST_PI_2)
        ⟨12884901888, 17179869184⟩ ⟨12884901888, 17179869184⟩).1 ≤ 4068) ∧
    (Vector2.Angle sqrtIdeal invIdeal (fun x => sllmul x CONST_PI_2) ⟨1, 0⟩ ⟨1, 0⟩).1
      = 386547056624 := by
  have hs : ∀ S : Int, 0 < S → S < 2 ^ 62 → |sqrtIdeal S - sqrtIdeal S| ≤ 1 := by
    intro S _ _
    simp
  have hi : ∀ m : Int, 2 ^ 15 ≤ m → m < 2 ^ 48 → |invIdeal m - invIdeal m| ≤ 1 := by
    intro m _ _
    simp
  obtain ⟨l0, l1, lm⟩ := asin_linear_contract
  have e2 : (⟨12884901888, 17179869184⟩ : Vector2).maxAbs = 17179869184 := by decide
  have eb : sllmul (sllacos (fun x => sllmul x CONST_PI_2) (CONST_1 - dotSlack 17179869184))
      CONST_180_PI = 4068 := by decide
  have h := (C23_angle_self sqrtIdeal invIdeal (fun x => sllmul x CONST_PI_2) rfl hs hi l0 l1 lm
    ⟨12884901888, 17179869184⟩).1
  rw [e2, eb] at h
  have h2 := C23_angle_self sqrtIdeal invIdeal (fun x => sllmul x CONST_PI_2) rfl hs hi l0 l1 lm
    ⟨1, 0⟩
  exact ⟨h ⟨by decide, by decide⟩, (h2.2.2.1 (by decide)).trans h2.2.2.2⟩

/-- C26: for all Vector2 (and Vector3) operands the value `d` that `Angle` passes to `acos`
lies in `[CONST_neg1, CONST_1]`, that is `[-1.0, 1.0]`, whatever the normalization and the
dot product return (for Vector3 also when both operands are the same userdata); hence the
result of `Angle` depends on `asin` only through its values on that interval. -/
theorem C26_acos_domain (slld2dsqrt sllinv sllasin : Int → Int) (a b : Vector2)
    (c d : Vector3) :
    (CONST_neg1 = -2 ^ 32 ∧ CONST_1 = 2 ^ 32) ∧
    ((Vector2.Angle slld2dsqrt sllinv sllasin a b).1
        = sllmul (sllacos sllasin (Vector2.Angle_d slld2dsqrt sllinv a b)) CONST_180_PI ∧
      CONST_neg1 ≤ Vector2.Angle_d slld2dsqrt sllinv a b ∧
      Vector2.Angle_d slld2dsqrt sllinv a b ≤ CONST_1) ∧
    ((Vector3.Angle slld2dsqrt sllinv sllasin c d).1
        = sllmul (sllacos sllasin (Vector3.Angle_d slld2dsqrt sllinv c d)) CONST_180_PI ∧
      CONST_neg1 ≤ Vector3.Angle_d slld2dsqrt sllinv c d ∧
      Vector3.Angle_d slld2dsqrt sllinv c d ≤ CONST_1) ∧
    (CONST_neg1 ≤ Vector3.Angle_d_same slld2dsqrt sllinv c ∧
      Vector3.Angle_d_same slld2dsqrt sllinv c ≤ CONST_1) ∧
    (∀ asin2 : Int → Int, (∀ x : Int, CONST_neg1 ≤ x → x ≤ CONST_1 → asin2 x = sllasin x) →
      (Vector2.Angle slld2dsqrt sllinv asin2 a b).1
          = (Vector2.Angle slld2dsqrt sllinv sllasin a b).1 ∧
        (Vector3.Angle slld2dsqrt sllinv asin2 c d).1
          = (Vector3.Angle slld2dsqrt sllinv sllasin c d).1) := by
  refine ⟨⟨by decide, by decide⟩, ⟨rfl, clamp_fix_unit_range _⟩, ⟨rfl, clamp_fix_unit_range _⟩,
    clamp_fix_unit_range _, ?_⟩
  intro asin2 h
  have r2 : CONST_neg1 ≤ Vector2.Angle_d slld2dsqrt sllinv a b ∧
      Vector2.Angle_d slld2dsqrt sllinv a b ≤ CONST_1 := clamp_fix_unit_range _
  have r3 : CONST_neg1 ≤ Vector3.Angle_d slld2dsqrt sllinv c d ∧
      Vector3.Angle_d slld2dsqrt sllinv c d ≤ CONST_1 := clamp_fix_unit_range _
  unfold Vector2.Angle Vector3.Angle sllacos
  simp only [h _ r2.1 r2.2, h _ r3.1 r3.2, and_self]

/-! ## Claim C24: ground-plane operations of Vector3 -/

theorem ground_plane_25 :
    slladd (sllmul (sllsub 0 12884901888) (sllsub 0 12884901888))
      (sllmul (sllsub 0 17179869184) (sllsub 0 17179869184)) = 107374182400 := by
  have s1 : sllsub 0 12884901888 = -12884901888 := by decide
  have s2 : sllsub 0 17179869184 = -17179869184 := by decide
  have m1 : sllmul (-12884901888) (-12884901888) = 38654705664 := by decide
  have m2 : sllmul (-17179869184) (-17179869184) = 68719476736 := by decide
  rw [s1, s2, m1, m2]
  decide

/-- C24: the ground-plane operations of Vector3 do not depend on `y`: on operands that agree
on `x` and `z` each returns the same result, and each equals the corresponding Vector2
formula on `(x, z)`; for `a = (0,5,0)`, `b = (3,9,4)` the value under the root in
`Vec2Distance` is exactly `25.0`, so `Vec2Distance(a, b) = sqrtExtended(25.0)`. -/
theorem C24_ground_plane (slld2dsqrt : Int → Int) (a b a2 b2 : Vector3)
    (hax : a.x = a2.x) (haz : a.z = a2.z) (hbx : b.x = b2.x) (hbz : b.z = b2.z) :
    (Vector3.Vec2Dot a b = Vector3.Vec2Dot a2 b2 ∧
      Vector3.Vec2Cross a b = Vector3.Vec2Cross a2 b2 ∧
      Vector3.Vec2Magnitude slld2dsqrt a = Vector3.Vec2Magnitude slld2dsqrt a2 ∧
      Vector3.Vec2SqrMagnitude a = Vector3.Vec2SqrMagnitude a2 ∧
      Vector3.Vec2Distance slld2dsqrt a b = Vector3.Vec2Distance slld2dsqrt a2 b2 ∧
      Vector3.Vec2SqrDistance a b = Vector3.Vec2SqrDistance a2 b2) ∧
    (Vector3.Vec2Dot a b = vec2_dot (Vector2.NewFromVec3 a) (Vector2.NewFromVec3 b) ∧
      Vector3.Vec2Cross a b = vec2_cross (Vector2.NewFromVec3 a) (Vector2.NewFromVec3 b) ∧
      Vector3.Vec2Magnitude slld2dsqrt a = vec2_magnitude slld2dsqrt (Vector2.NewFromVec3 a) ∧
      Vector3.Vec2SqrMagnitude a = vec2_sqrmagnitude (Vector2.NewFromVec3 a) ∧
      Vector3.Vec2Distance slld2dsqrt a b
        = slld2dsqrt (Vector2.SqrDistance (Vector2.NewFromVec3 a) (Vector2.NewFromVec3 b)) ∧
      Vector3.Vec2SqrDistance a b
        = Vector2.SqrDistance (Vector2.NewFromVec3 a) (Vector2.NewFromVec3 b)) ∧
    (Vector3.Vec2SqrDistance ⟨0, 21474836480, 0⟩ ⟨12884901888, 38654705664, 17179869184⟩
        = 107374182400 ∧
      Vector3.Vec2Distance slld2dsqrt ⟨0, 21474836480, 0⟩
          ⟨12884901888, 38654705664, 17179869184⟩
        = slld2dsqrt 107374182400) := by
  refine ⟨?_, ⟨rfl, rfl, rfl, rfl, rfl, rfl⟩, ⟨?_, ?_⟩⟩
  · unfold Vector3.Vec2Dot Vector3.Vec2Cross Vector3.Vec2Magnitude Vector3.Vec2SqrMagnitude
      Vector3.Vec2Distance Vector3.Vec2SqrDistance
    rw [hax, haz, hbx, hbz]
    exact ⟨rfl, rfl, rfl, rfl, rfl, rfl⟩
  · unfold Vector3.Vec2SqrDistance
    exact ground_plane_25
  · unfold Vector3.Vec2Distance
    simp only [ground_plane_25]

/-- Witness of C24 with the ideal square root: `a = (0,5,0)` and `(0,7,0)`, `b = (3,9,4)`
and `(3,-1,4)` agree on `x` and `z`, and `Vec2Distance` is `5.0` for both pairs. -/
theorem C24_ground_plane_witness :
    Vector3.Vec2Distance sqrtIdeal ⟨0, 21474836480, 0⟩ ⟨12884901888, 38654705664, 17179869184⟩
        = Vector3.Vec2Distance sqrtIdeal ⟨0, 30064771072, 0⟩
            ⟨12884901888, -4294967296, 17179869184⟩ ∧
      Vector3.Vec2Distance sqrtIdeal ⟨0, 21474836480, 0⟩
          ⟨12884901888, 38654705664, 17179869184⟩ = 21474836480 :=
  ⟨(C24_ground_plane sqrtIdeal ⟨0, 21474836480, 0⟩ ⟨12884901888, 38654705664, 17179869184⟩
      ⟨0, 30064771072, 0⟩ ⟨12884901888, -4294967296, 17179869184⟩ rfl rfl rfl rfl).1.2.2.2.2.1,
    ((C24_ground_plane sqrtIdeal ⟨0, 21474836480, 0⟩ ⟨12884901888, 38654705664, 17179869184⟩
      ⟨0, 30064771072, 0⟩ ⟨12884901888, -4294967296, 17179869184⟩ rfl rfl rfl rfl).2.2.2).trans
      sqrtIdeal_25⟩

/-! ## Claim C25: `AddVec2` -/

/-- C25: for every Vector3 `self` and Vector2 `v2`, after `AddVec2(self, v2)` the object
`self` has `x = old x + v2.x` and `z = old z + v2.y` (64-bit values congruent to the exact
sums modulo `2^64`), while `self.y` and both components of `v2` are unchanged. -/
theorem C25_AddVec2 (self : Vector3) (v2 : Vector2) :
    (Vector3.AddVec2 self v2).1.x = slladd self.x v2.x ∧
    (Vector3.AddVec2 self v2).1.z = slladd self.z v2.y ∧
    (Vector3.AddVec2 self v2).1.y = self.y ∧
    (Vector3.AddVec2 self v2).2 = v2 ∧
    (IsSll (Vector3.AddVec2 self v2).1.x ∧
      ((Vector3.AddVec2 self v2).1.x - (self.x + v2.x)) % 2 ^ 64 = 0) ∧
    (IsSll (Vector3.AddVec2 self v2).1.z ∧
      ((Vector3.AddVec2 self v2).1.z - (self.z + v2.y)) % 2 ^ 64 = 0) ∧
    (IsSll (self.x + v2.x) → (Vector3.AddVec2 self v2).1.x = self.x + v2.x) ∧
    (IsSll (self.z + v2.y) → (Vector3.AddVec2 self v2).1.z = self.z + v2.y) :=
  ⟨rfl, rfl, rfl, rfl, ⟨wrap64_range _, wrap64_emod _⟩, ⟨wrap64_range _, wrap64_emod _⟩,
    fun h => wrap64_of_range _ h, fun h => wrap64_of_range _ h⟩

/-- Witness of C25 at `self = (1.0, 2.0, 3.0)` and `v2 = (10.0, 20.0)`: afterwards `self` is
`(11.0, 2.0, 23.0)` and `v2` is unchanged. -/
theorem C25_AddVec2_witness :
    (Vector3.AddVec2 ⟨4294967296, 8589934592, 12884901888⟩ ⟨42949672960, 85899345920⟩).1.x
        = 47244640256 ∧
      (Vector3.AddVec2 ⟨4294967296, 8589934592, 12884901888⟩ ⟨42949672960, 85899345920⟩).1.z
        = 98784247808 ∧
      (Vector3.AddVec2 ⟨4294967296, 8589934592, 12884901888⟩ ⟨42949672960, 85899345920⟩).1.y
        = 8589934592 ∧
      (Vector3.AddVec2 ⟨4294967296, 8589934592, 12884901888⟩ ⟨42949672960, 85899345920⟩).2
        = ⟨42949672960, 85899345920⟩ :=
  ⟨(C25_AddVec2 ⟨4294967296, 8589934592, 12884901888⟩
      ⟨42949672960, 85899345920⟩).2.2.2.2.2.2.1 (by decide),
    (C25_AddVec2 ⟨4294967296, 8589934592, 12884901888⟩
      ⟨42949672960, 85899345920⟩).2.2.2.2.2.2.2 (by decide),
    (C25_AddVec2 ⟨4294967296, 8589934592, 12884901888⟩ ⟨42949672960, 85899345920⟩).2.2.1,
    (C25_AddVec2 ⟨4294967296, 8589934592, 12884901888⟩ ⟨42949672960, 85899345920⟩).2.2.2.1⟩

/-! ## Claim C27: the cross product is orthogonal to its operands on whole numbers -/

theorem wrap64_whole (m : Int) :
    ∃ k : Int, wrap64 (2 ^ 32 * m) = 2 ^ 32 * k ∧ IsSll (2 ^ 32 * k) ∧ k ≡ m [ZMOD 2 ^ 32] := by
  refine ⟨m - 2 ^ 32 * ((2 ^ 32 * m + 2 ^ 63) / 2 ^ 64), ?_, ?_, ?_⟩
  · unfold wrap64
    omega
  · have h := wrap64_range (2 ^ 32 * m)
    have e : wrap64 (2 ^ 32 * m) = 2 ^ 32 * (m - 2 ^ 32 * ((2 ^ 32 * m + 2 ^ 63) / 2 ^ 64)) := by
      unfold wrap64
      omega
    rw [e] at h
    exact h
  · unfold Int.ModEq
    omega

theorem whole_mul (x y m n : Int) (hx : IsSll x) (hy : IsSll y) (ex : x = 2 ^ 32 * m)
    (ey : y = 2 ^ 32 * n) :
    ∃ k : Int, sllmul x y = 2 ^ 32 * k ∧ IsSll (2 ^ 32 * k) ∧ k ≡ m * n [ZMOD 2 ^ 32] := by
  have e : x * y / 2 ^ 32 = 2 ^ 32 * (m * n) := by
    rw [ex, ey, show (2 : Int) ^ 32 * m * (2 ^ 32 * n) = 2 ^ 32 * (2 ^ 32 * (m * n)) by ring]
    exact Int.mul_ediv_cancel_left _ (by norm_num)
  rw [sllmul_trunc x y hx hy, e]
  exact wrap64_whole (m * n)

theorem whole_sub (x y m n : Int) (ex : x = 2 ^ 32 * m) (ey : y = 2 ^ 32 * n) :
    ∃ k : Int, sllsub x y = 2 ^ 32 * k ∧ IsSll (2 ^ 32 * k) ∧ k ≡ m - n [ZMOD 2 ^ 32] := by
  unfold sllsub
  rw [ex, ey, ← mul_sub]
  exact wrap64_whole (m - n)

theorem whole_add (x y m n : Int) (ex : x = 2 ^ 32 * m) (ey : y = 2 ^ 32 * n) :
    ∃ k : Int, slladd x y = 2 ^ 32 * k ∧ IsSll (2 ^ 32 * k) ∧ k ≡ m + n [ZMOD 2 ^ 32] := by
  unfold slladd
  rw [ex, ey, ← mul_add]
  exact wrap64_whole (m + n)

theorem whole_repr (x : Int) (h : IsWhole x) : ∃ m : Int, x = 2 ^ 32 * m :=
  ⟨x / 2 ^ 32, by have := h.2; omega⟩

/-- The component of `cross(a, b)` built from `(p, q)` of `a` and `(r, s)` of `b`. -/
theorem whole_cross_component (p q r s mp mq mr ms : Int) (hp : IsSll p) (hq : IsSll q)
    (hr : IsSll r) (hs : IsSll s) (ep : p = 2 ^ 32 * mp) (eq : q = 2 ^ 32 * mq)
    (er : r = 2 ^ 32 * mr) (es : s = 2 ^ 32 * ms) :
    ∃ k : Int, sllsub (sllmul p s) (sllmul q r) = 2 ^ 32 * k ∧ IsSll (2 ^ 32 * k) ∧
      k ≡ mp * ms - mq * mr [ZMOD 2 ^ 32] := by
  obtain ⟨k1, e1, -, c1⟩ := whole_mul p s mp ms hp hs ep es
  obtain ⟨k2, e2, -, c2⟩ := whole_mul q r mq mr hq hr eq er
  obtain ⟨k, e, hk, c⟩ := whole_sub _ _ k1 k2 e1 e2
  exact ⟨k, e, hk, c.trans (c1.sub c2)⟩

/-- C27: for all Vector3 `a` and `b` whose components are whole numbers,
`vec3_dot(vec3_cross(a, b), a)` is exactly `0`; this holds for every whole-number operand,
in particular for those small enough that no intermediate product or sum wraps around. -/
theorem C27_cross_orthogonal (a b : Vector3) (hax : IsWhole a.x) (hay : IsWhole a.y)
    (haz : IsWhole a.z) (hbx : IsWhole b.x) (hby : IsWhole b.y) (hbz : IsWhole b.z) :
    vec3_dot (vec3_cross a b) a = 0 := by
  obtain ⟨ax, eax⟩ := whole_repr _ hax
  obtain ⟨ay, eay⟩ := whole_repr _ hay
  obtain ⟨az, eaz⟩ := whole_repr _ haz
  obtain ⟨bx, ebx⟩ := whole_repr _ hbx
  obtain ⟨by1, eby⟩ := whole_repr _ hby
  obtain ⟨bz, ebz⟩ := whole_repr _ hbz
  obtain ⟨cx, ecx, hcx, ccx⟩ :=
    whole_cross_component a.y a.z b.y b.z ay az by1 bz hay.1 haz.1 hby.1 hbz.1 eay eaz eby ebz
  obtain ⟨cy, ecy, hcy, ccy⟩ :=
    whole_cross_component a.z a.x b.z b.x az ax bz bx haz.1 hax.1 hbz.1 hbx.1 eaz eax ebz ebx
  obtain ⟨cz, ecz, hcz, ccz⟩ :=
    whole_cross_component a.x a.y b.x b.y ax ay bx by1 hax.1 hay.1 hbx.1 hby.1 eax eay ebx eby
  obtain ⟨p1, ep1, -, cp1⟩ := whole_mul _ a.x cx ax (ecx ▸ hcx) hax.1 ecx eax
  obtain ⟨p2, ep2, -, cp2⟩ := whole_mul _ a.y cy ay (ecy ▸ hcy) hay.1 ecy eay
  obtain ⟨p3, ep3, -, cp3⟩ := whole_mul _ a.z cz az (ecz ▸ hcz) haz.1 ecz eaz
  obtain ⟨s1, es1, -, cs1⟩ := whole_add _ _ p2 p3 ep2 ep3
  obtain ⟨t, et, ht, ct⟩ := whole_add _ _ p1 s1 ep1 es1
  have hzero : (ay * bz - az * by1) * ax + ((az * bx - ax * bz) * ay
      + (ax * by1 - ay * bx) * az) = 0 := by ring
  have ct0 : t ≡ 0 [ZMOD 2 ^ 32] := by
    have h1 := cp1.trans (ccx.mul_right ax)
    have h2 := cp2.trans (ccy.mul_right ay)
    have h3 := cp3.trans (ccz.mul_right az)
    have h4 := ct.trans (h1.add (cs1.trans (h2.add h3)))
    rw [hzero] at h4
    exact h4
  have ht0 : t = 0 := by
    unfold Int.ModEq at ct0
    unfold IsSll at ht
    omega
  unfold vec3_dot vec3_cross
  simp only []
  rw [et, ht0, mul_zero]

/-- Witness of C27 at `a = (1.0, 2.0, 3.0)`, `b = (4.0, 5.0, 6.0)`. -/
theorem C27_cross_orthogonal_witness :
    vec3_dot (vec3_cross ⟨4294967296, 8589934592, 12884901888⟩
        ⟨17179869184, 21474836480, 25769803776⟩)
      ⟨4294967296, 8589934592, 12884901888⟩ = 0 :=
  C27_cross_orthogonal ⟨4294967296, 8589934592, 12884901888⟩
    ⟨17179869184, 21474836480, 25769803776⟩ (by decide) (by decide) (by decide) (by decide)
    (by decide) (by decide)

/-! ## Claim C28: the registered `SqrDistance` of Vector3 -/

/-- C28, the code at the failing input: the registered Vector3 `SqrDistance` applied to the
Vector3 operands `a = (0, 0, 0)`, `b = (1.0, 2.0, 2.0)` raises the error of `check_set_vec2`
for argument 1 instead of returning `9.0`, and so it does for every pair of Vector3
operands; applied to two Vector2 operands it returns the two-component squared distance
(`25.0` for `(0, 0)` and `(3.0, 4.0)`).  `Distance` on the same Vector3 operands is the root
of the three-component sum `9.0`. -/
theorem C28_SqrDistance_rejects_Vector3 :
    Vector3.SqrDistance (.vec3 ⟨0, 0, 0⟩) (.vec3 ⟨4294967296, 8589934592, 8589934592⟩)
        = .error (.notVec2 1) ∧
      (∀ a b : Vector3, Vector3.SqrDistance (.vec3 a) (.vec3 b) = .error (.notVec2 1)) ∧
      Vector3.SqrDistance (.vec2 ⟨0, 0⟩) (.vec2 ⟨12884901888, 17179869184⟩)
        = .ok 107374182400 ∧
      Vector3.Distance sqrtIdeal ⟨0, 0, 0⟩ ⟨4294967296, 8589934592, 8589934592⟩
        = sqrtIdeal 38654705664 := by
  refine ⟨rfl, fun _ _ => rfl, ?_, ?_⟩
  · unfold Vector3.SqrDistance
    simp only [ground_plane_25]
  · have s1 : sllsub 0 4294967296 = -4294967296 := by decide
    have s2 : sllsub 0 8589934592 = -8589934592 := by decide
    have m1 : sllmul (-4294967296) (-4294967296) = 4294967296 := by decide
    have m2 : sllmul (-8589934592) (-8589934592) = 17179869184 := by decide
    have e : slladd 4294967296 (slladd 17179869184 17179869184) = 38654705664 := by decide
    unfold Vector3.Distance
    simp only [s1, s2, m1, m2, e]

/-! ## Claim C29: construction helpers -/

theorem sllneg_sllneg (x : Int) (hx : IsSll x) : sllneg (sllneg x) = x := by
  unfold sllneg
  rw [wrap64_neg_wrap64, neg_neg]
  exact wrap64_of_range x hx

/-- C29: the construction helpers are exact component shuffles, with `-` the wrapping
negation `sllneg` (the plain negation except at the minimum raw value, which it returns
unchanged); for every Vector2 `v` (components 64-bit values) taking the normal twice gives
`Unm(v)` and taking it four times gives `v` back. -/
theorem C29_construction_helpers (v : Vector2) (w : Vector3) (hv : v.IsValid) :
    Vector2.NewFromVec3 w = ⟨w.x, w.z⟩ ∧
    Vector2.NormalFromVec2 v = ⟨sllneg v.y, v.x⟩ ∧
    Vector2.NormalFromVec3 w = ⟨sllneg w.z, w.x⟩ ∧
    Vector3.CloneZeroY w = ⟨w.x, 0, w.z⟩ ∧
    (v.y ≠ -2 ^ 63 → sllneg v.y = -v.y) ∧ sllneg (-2 ^ 63) = -2 ^ 63 ∧
    Vector2.NormalFromVec2 (Vector2.NormalFromVec2 v) = Vector2.Unm v ∧
    Vector2.NormalFromVec2 (Vector2.NormalFromVec2
      (Vector2.NormalFromVec2 (Vector2.NormalFromVec2 v))) = v := by
  obtain ⟨hx, hy⟩ := hv
  refine ⟨rfl, rfl, rfl, rfl, ?_, by decide, rfl, ?_⟩
  · intro h
    unfold sllneg
    apply wrap64_of_range
    unfold IsSll at hy
    omega
  · unfold Vector2.NormalFromVec2
    simp only [sllneg_sllneg _ hx, sllneg_sllneg _ hy]

/-- Witness of C29 at `v = (CONST_MIN, 5)` (raw), where the negation wraps: the normal taken
twice is `(CONST_MIN, -5)` and taken four times is `v`. -/
theorem C29_construction_helpers_witness :
    Vector2.NormalFromVec2 (Vector2.NormalFromVec2 ⟨-2 ^ 63, 5⟩) = Vector2.Unm ⟨-2 ^ 63, 5⟩ ∧
      Vector2.NormalFromVec2 (Vector2.NormalFromVec2
        (Vector2.NormalFromVec2 (Vector2.NormalFromVec2 ⟨-2 ^ 63, 5⟩))) = ⟨-2 ^ 63, 5⟩ :=
  ⟨(C29_construction_helpers ⟨-2 ^ 63, 5⟩ ⟨0, 0, 0⟩ (by decide)).2.2.2.2.2.2.1,
    (C29_construction_helpers ⟨-2 ^ 63, 5⟩ ⟨0, 0, 0⟩ (by decide)).2.2.2.2.2.2.2⟩

/-! ## Claim C30: the embedded constants -/

/-- C30: the embedded constants are the chopped 32.32 bit patterns of the exact real values:
`CONST_PI = floor(pi * 2^32)`, `CONST_PI_2 = floor((pi/2) * 2^32)`,
`CONST_180_PI = floor((180/pi) * 2^32)` and `CONST_PI_180 = floor((pi/180) * 2^32)`. -/
theorem C30_constants_chopped :
    ⌊Real.pi * 2 ^ 32⌋ = CONST_PI ∧ ⌊Real.pi / 2 * 2 ^ 32⌋ = CONST_PI_2 ∧
      ⌊180 / Real.pi * 2 ^ 32⌋ = CONST_180_PI ∧ ⌊Real.pi / 180 * 2 ^ 32⌋ = CONST_PI_180 := by
  have h1 := Real.pi_gt_d20
  have h2 := Real.pi_lt_d20
  have hp := Real.pi_pos
  unfold CONST_PI CONST_PI_2 CONST_180_PI CONST_PI_180
  refine ⟨?_, ?_, ?_, ?_⟩
  · rw [Int.floor_eq_iff]
    constructor
    · push_cast
      norm_num at h1 h2 ⊢
      linarith
    · push_cast
      norm_num at h1 h2 ⊢
      linarith
  · rw [Int.floor_eq_iff]
    constructor
    · push_cast
      norm_num at h1 h2 ⊢
      linarith
    · push_cast
      norm_num at h1 h2 ⊢
      linarith
  · rw [Int.floor_eq_iff]
    constructor
    · push_cast
      rw [div_mul_eq_mul_div, le_div_iff₀ hp]
      norm_num at h1 h2 ⊢
      linarith
    · push_cast
      rw [div_mul_eq_mul_div, div_lt_iff₀ hp]
      norm_num at h1 h2 ⊢
      linarith
  · rw [Int.floor_eq_iff]
    constructor
    · push_cast
      norm_num at h1 h2 ⊢
      linarith
    · push_cast
      norm_num at h1 h2 ⊢
      linarith

/-! ## Claim C31: integer part and fractional part -/

theorem sllfrac_eq (x : Int) : sllfrac x = x % 2 ^ 32 := by
  unfold sllfrac toU64
  have hm : (0x00000000ffffffff : Nat) = 2 ^ 32 - 1 := by decide
  rw [hm, Nat.and_pow_two_sub_one_eq_mod]
  push_cast
  rw [Int.toNat_of_nonneg (by omega)]
  unfold wrap64
  omega

/-- C31: for every 64-bit fixed value `x` the integer part and the fractional part recompose
it, `sllint(x) + sllfrac(x) == x`; `sllint(x)` is a multiple of `2^32`, the largest one not
above `x` (the floor, also for negative `x`), and `0 <= sllfrac(x) < CONST_1`, so for a
negative non-whole `x` the fractional part is positive and the integer part lies below the
truncation toward zero. -/
theorem C31_int_frac (x : Int) (hx : IsSll x) :
    sllint x + sllfrac x = x ∧ slladd (sllint x) (sllfrac x) = x ∧
    (2 : Int) ^ 32 ∣ sllint x ∧ (0 ≤ sllfrac x ∧ sllfrac x < CONST_1) ∧
    (sllint x : ℚ) = ⌊toValue x⌋ * 2 ^ 32 ∧
    (x < 0 → x % 2 ^ 32 ≠ 0 →
      0 < sllfrac x ∧ sllint x < x ∧ sllint x = Int.tdiv x (2 ^ 32) * 2 ^ 32 - 2 ^ 32) ∧
    fix_int x = .ok (sllint x) ∧ fix_frac x = .ok (sllfrac x) := by
  have e1 : CONST_1 = 2 ^ 32 := by decide
  have hfloor : ⌊toValue x⌋ = x / 2 ^ 32 := by
    have h := Rat.floor_intCast_div_natCast x (2 ^ 32)
    push_cast at h
    unfold toValue
    exact h
  have hi := sllint_eq x hx
  have hf := sllfrac_eq x
  refine ⟨?_, ?_, ?_, ⟨?_, ?_⟩, ?_, ?_, rfl, rfl⟩
  · rw [hi, hf]
    omega
  · unfold slladd
    rw [hi, hf, show x - x % 2 ^ 32 + x % 2 ^ 32 = x by omega]
    exact wrap64_of_range x hx
  · rw [hi]
    omega
  · rw [hf]
    omega
  · rw [hf, e1]
    omega
  · have h : x - x % 2 ^ 32 = x / 2 ^ 32 * 2 ^ 32 := by omega
    rw [hi, h, hfloor]
    push_cast
    rfl
  · intro hneg hfrac
    rw [hi, hf]
    refine ⟨by omega, by omega, ?_⟩
    have ht : Int.tdiv x (2 ^ 32) = -((-x) / 2 ^ 32) := by
      have h1 : Int.tdiv (-x) (2 ^ 32) = (-x) / 2 ^ 32 :=
        Int.tdiv_eq_ediv (by omega) (by norm_num)
      rw [Int.neg_tdiv] at h1
      omega
    rw [ht]
    omega

/-- Witness of C31 at `x = -1.5` (raw `-6442450944`): the integer part is `-2.0` and the
fractional part is `0.5`. -/
theorem C31_int_frac_witness :
    IsSll (-6442450944) ∧ sllint (-6442450944) + sllfrac (-6442450944) = -6442450944 ∧
      sllint (-6442450944) = -8589934592 ∧ sllfrac (-6442450944) = 2147483648 :=
  ⟨by decide, (C31_int_frac (-6442450944) (by decide)).1, by decide, by decide⟩

/-! ## Claim C32: interpolation stays between its end points -/

theorem lerp_component_between (a b t : Int) (ha : IsSll a) (hb : IsSll b)
    (hd : IsSll (b - a)) (ht0 : 0 ≤ t) (ht1 : t ≤ 2 ^ 32) :
    min a b ≤ slladd a (sllmul (sllsub b a) t) ∧
      slladd a (sllmul (sllsub b a) t) ≤ max a b := by
  have hts : IsSll t := by
    unfold IsSll
    omega
  have es : sllsub b a = b - a := wrap64_of_range _ hd
  rw [es, sllmul_trunc _ _ hd hts]
  unfold IsSll at ha hb hd
  rcases le_or_lt 0 (b - a) with hpos | hneg
  · have h0 : 0 ≤ (b - a) * t / 2 ^ 32 :=
      Int.ediv_nonneg (mul_nonneg hpos ht0) (by norm_num)
    have h1 : (b - a) * t / 2 ^ 32 ≤ b - a :=
      Int.ediv_le_of_le_mul (by norm_num) (mul_le_mul_of_nonneg_left ht1 hpos)
    rw [wrap64_of_range _ (by omega)]
    unfold slladd
    rw [wrap64_of_range _ (by omega)]
    omega
  · have h0 : (b - a) * t / 2 ^ 32 ≤ 0 := by
      have h : (b - a) * t ≤ 0 * 2 ^ 32 := by
        rw [zero_mul]
        exact mul_nonpos_of_nonpos_of_nonneg hneg.le ht0
      exact Int.ediv_le_of_le_mul (by norm_num) h
    have h1 : b - a ≤ (b - a) * t / 2 ^ 32 :=
      Int.le_ediv_of_mul_le (by norm_num) (mul_le_mul_of_nonpos_left ht1 hneg.le)
    rw [wrap64_of_range _ (by omega)]
    unfold slladd
    rw [wrap64_of_range _ (by omega)]
    omega

theorem clamp_fix_unit_inside (t : Int) (ht0 : CONST_0 ≤ t) (ht1 : t ≤ CONST_1) :
    clamp_fix t CONST_0 CONST_1 = t := by
  unfold clamp_fix
  rw [if_neg (by omega), if_neg (by omega)]

/-- C32: for all vectors `a` and `b` (Vector2 and Vector3, components 64-bit values) and
every `t` with `0 <= t <= 1.0`, each component of `lerp(a, b, t)` lies between the
corresponding components of `a` and `b`, provided the component differences `b - a` do not
overflow 64 bits (multiply being the truncated product). -/
theorem C32_lerp_between (a b : Vector2) (c d : Vector3) (t : Int) (ha : a.IsValid)
    (hb : b.IsValid) (hc : c.IsValid) (hd : d.IsValid) (ht0 : CONST_0 ≤ t) (ht1 : t ≤ CONST_1)
    (hab : IsSll (b.x - a.x) ∧ IsSll (b.y - a.y))
    (hcd : IsSll (d.x - c.x) ∧ IsSll (d.y - c.y) ∧ IsSll (d.z - c.z)) :
    (min a.x b.x ≤ (vec2_lerp a b t).x ∧ (vec2_lerp a b t).x ≤ max a.x b.x ∧
      min a.y b.y ≤ (vec2_lerp a b t).y ∧ (vec2_lerp a b t).y ≤ max a.y b.y) ∧
    (min c.x d.x ≤ (vec3_lerp c d t).x ∧ (vec3_lerp c d t).x ≤ max c.x d.x ∧
      min c.y d.y ≤ (vec3_lerp c d t).y ∧ (vec3_lerp c d t).y ≤ max c.y d.y ∧
      min c.z d.z ≤ (vec3_lerp c d t).z ∧ (vec3_lerp c d t).z ≤ max c.z d.z) := by
  have e := clamp_fix_unit_inside t ht0 ht1
  have h0 : 0 ≤ t := ht0
  have h1 : t ≤ 2 ^ 32 := ht1
  have kx := lerp_component_between a.x b.x t ha.1 hb.1 hab.1 h0 h1
  have ky := lerp_component_between a.y b.y t ha.2 hb.2 hab.2 h0 h1
  have lx := lerp_component_between c.x d.x t hc.1 hd.1 hcd.1 h0 h1
  have ly := lerp_component_between c.y d.y t hc.2.1 hd.2.1 hcd.2.1 h0 h1
  have lz := lerp_component_between c.z d.z t hc.2.2 hd.2.2 hcd.2.2 h0 h1
  unfold vec2_lerp vec3_lerp
  simp only [e]
  exact ⟨⟨kx.1, kx.2, ky.1, ky.2⟩, ⟨lx.1, lx.2, ly.1, ly.2, lz.1, lz.2⟩⟩

/-- Witness of C32 with `t = 1/3` (raw `1431655765`): between `a = (0, 10.0)` and
`b = (1.0, -5.0)` the result is `(0.333.., 5.000..)` (raw `(1431655765, 21474836485)`). -/
theorem C32_lerp_between_witness :
    (min (0 : Int) 4294967296 ≤ (vec2_lerp ⟨0, 42949672960⟩ ⟨4294967296, -21474836480⟩
        1431655765).x ∧
      (vec2_lerp ⟨0, 42949672960⟩ ⟨4294967296, -21474836480⟩ 1431655765).x
        ≤ max (0 : Int) 4294967296 ∧
      min (42949672960 : Int) (-21474836480)
        ≤ (vec2_lerp ⟨0, 42949672960⟩ ⟨4294967296, -21474836480⟩ 1431655765).y ∧
      (vec2_lerp ⟨0, 42949672960⟩ ⟨4294967296, -21474836480⟩ 1431655765).y
        ≤ max (42949672960 : Int) (-21474836480)) :=
  (C32_lerp_between ⟨0, 42949672960⟩ ⟨4294967296, -21474836480⟩ ⟨0, 0, 0⟩ ⟨0, 0, 0⟩ 1431655765
    (by decide) (by decide) (by decide) (by decide) (by decide) (by decide) (by decide)
    (by decide)).1

/-! ## Claim C33: absolute value -/

/-- C33: for every 64-bit fixed value `x` other than `CONST_MIN`, `sllabs(x)` is non-negative
and equals `x` or `-x`; for `x = CONST_MIN` the wrapped result is `CONST_MIN` itself, which
is negative.  The Vector2 and Vector3 `Abs` apply `sllabs` component by component, and
`fix_abs` returns `sllabs`. -/
theorem C33_sllabs (x : Int) (v : Vector2) (w : Vector3) (hx : IsSll x) :
    (x ≠ CONST_MIN → 0 ≤ sllabs x ∧ (sllabs x = x ∨ sllabs x = -x) ∧ sllabs x = |x|) ∧
    (sllabs CONST_MIN = CONST_MIN ∧ CONST_MIN < 0) ∧
    fix_abs x = .ok (sllabs x) ∧
    Vector2.Abs v = ⟨sllabs v.x, sllabs v.y⟩ ∧
    Vector3.Abs w = ⟨sllabs w.x, sllabs w.y, sllabs w.z⟩ := by
  have emin : CONST_MIN = -2 ^ 63 := by decide
  refine ⟨?_, ⟨by decide, by decide⟩, rfl, rfl, rfl⟩
  intro hne
  rw [emin] at hne
  unfold IsSll at hx
  unfold sllabs
  by_cases h : x < 0
  · rw [if_pos h, wrap64_of_range _ (by omega), abs_of_neg h]
    exact ⟨by omega, Or.inr rfl, rfl⟩
  · rw [if_neg h, abs_of_nonneg (by omega)]
    exact ⟨by omega, Or.inl rfl, rfl⟩

/-- Witness of C33 at `x = -1.5` (raw `-6442450944`), whose absolute value is `1.5`. -/
theorem C33_sllabs_witness :
    IsSll (-6442450944) ∧ (-6442450944 : Int) ≠ CONST_MIN ∧ sllabs (-6442450944) = 6442450944 :=
  ⟨by decide, by decide,
    ((C33_sllabs (-6442450944) ⟨0, 0⟩ ⟨0, 0, 0⟩ (by decide)).1 (by decide)).2.2⟩

/-! ## Claim C34: the power-of-ten table is indexed in bounds -/

theorem narrowInt_narrowInt (n : Int) : narrowInt (narrowInt n) = narrowInt n :=
  narrowInt_of_int32 _ (narrowInt_range n)

/-- The function `l_tofix` sees its precision argument only through the converted `int`. -/
theorem l_tofix_narrow (arg : TofixArg) (n : Int) : l_tofix arg n = l_tofix arg (narrowInt n) := by
  unfold l_tofix
  rw [narrowInt_narrowInt]

theorem Vector2_New_narrow (x y : ℚ) (n : Int) :
    Vector2.New x y n = Vector2.New x y (narrowInt n) := by
  unfold Vector2.New
  rw [narrowInt_narrowInt]

theorem Vector3_New_narrow (x y z : ℚ) (n : Int) :
    Vector3.New x y z n = Vector3.New x y z (narrowInt n) := by
  unfold Vector3.New
  rw [narrowInt_narrowInt]

theorem fl_one_mul : fl ((1 : ℚ) * 10 ^ 0) = 1 := by
  rw [pow_zero, mul_one, fl_one]

theorem roundVal_one : roundVal 1 = 1 := by
  have := roundVal_eq 1 1 (by decide) (by norm_num)
  exact_mod_cast this

/-- C34 fails as stated: the precision `4294967296` is above `6`, yet `l_tofix` and both
constructors accept it, and the precision `-4294967290` is below `0`, yet `l_tofix` accepts
it.  The conversion to `int` makes them `0` and `6`, the check is made on that `int`, and the
value `1` is scaled by `10^0` and by `10^6` (raw result `1.0` both times), not by `10` to the
precision. -/
theorem C34_counterexample :
    ((4294967296 : Int) > 6 ∧ narrowInt 4294967296 = 0 ∧
      l_tofix (.number 1) 4294967296 = .ok 4294967296 ∧
      Vector2.New 1 1 4294967296 = .ok ⟨4294967296, 4294967296⟩ ∧
      Vector3.New 1 1 1 4294967296 = .ok ⟨4294967296, 4294967296, 4294967296⟩) ∧
    ((-4294967290 : Int) < 0 ∧ narrowInt (-4294967290) = 6 ∧
      l_tofix (.number 1) (-4294967290) = .ok 4294967296) := by
  have hn : narrowInt 4294967296 = ((0 : Nat) : Int) := by decide
  have hn6 : narrowInt (-4294967290) = ((6 : Nat) : Int) := by decide
  have i1 : IsInt32 1 := by decide
  refine ⟨⟨by decide, by decide, ?_, ?_, ?_⟩, by decide, by decide, ?_⟩
  · rw [l_tofix_narrow, hn]
    have h := l_tofix_exact 1 0 1 (by decide) (by norm_num) (by decide) (by decide)
    have e : Int.tdiv (1 * 2 ^ 32) (10 ^ 0) = 4294967296 := by decide
    rw [e] at h
    exact h
  · rw [Vector2_New_narrow, hn]
    have h := Vector2_New_eq 1 1 0 (by decide)
    rw [fl_one_mul, roundVal_one, if_neg (by norm_num), if_pos ⟨i1, i1⟩] at h
    exact h
  · rw [Vector3_New_narrow, hn]
    have h := Vector3_New_eq 1 1 1 0 (by decide)
    rw [fl_one_mul, roundVal_one, if_neg (by norm_num), if_pos ⟨i1, i1, i1⟩] at h
    exact h
  · rw [l_tofix_narrow, hn6]
    have h := l_tofix_exact 1 6 1000000 (by decide) (by norm_num) (by decide) (by decide)
    have e : Int.tdiv (1000000 * 2 ^ 32) (10 ^ 6) = 4294967296 := by decide
    rw [e] at h
    exact h

/-- C34 (amended): `l_tofix` and the Vector2 and Vector3 `New` convert the precision argument
to a C `int` (`narrowInt`) and check that `int`.  Every precision whose `int` value is below
`0` or above `6` is rejected with the precision-argument error, whatever the numbers are, so
the table `_mul` (7 entries, `10^0 .. 10^6`) is read only with an `int` in `0..6`; for such
an `int` the index is in bounds and the entry read, the scale factor, is exactly `10` to that
`int`.  A precision that fits an `int` is its own `int` value, so every such precision below
`0` or above `6` is rejected. -/
theorem C34_mul_index (v x y z : ℚ) (precision : Int) :
    (narrowInt precision < 0 ∨ narrowInt precision > 6 →
      l_tofix (.number v) precision = .error .precisionArg ∧
      Vector2.New x y precision = .error .precisionArg ∧
      Vector3.New x y z precision = .error .precisionArg) ∧
    (l_tofix (.number v) precision ≠ .error .precisionArg →
      0 ≤ narrowInt precision ∧ narrowInt precision ≤ 6) ∧
    (Vector2.New x y precision ≠ .error .precisionArg →
      0 ≤ narrowInt precision ∧ narrowInt precision ≤ 6) ∧
    (Vector3.New x y z precision ≠ .error .precisionArg →
      0 ≤ narrowInt precision ∧ narrowInt precision ≤ 6) ∧
    _mul.length = 7 ∧
    (0 ≤ narrowInt precision ∧ narrowInt precision ≤ 6 →
      (narrowInt precision).toNat < _mul.length ∧
      _mul[(narrowInt precision).toNat]? = some (10 ^ (narrowInt precision).toNat) ∧
      _mul.getD (narrowInt precision).toNat 0 = 10 ^ (narrowInt precision).toNat) ∧
    (IsInt32 precision → narrowInt precision = precision) ∧
    (IsInt32 precision → precision < 0 ∨ precision > 6 →
      l_tofix (.number v) precision = .error .precisionArg ∧
      Vector2.New x y precision = .error .precisionArg ∧
      Vector3.New x y z precision = .error .precisionArg) := by
  have hrej : narrowInt precision < 0 ∨ narrowInt precision > 6 →
      l_tofix (.number v) precision = .error .precisionArg ∧
      Vector2.New x y precision = .error .precisionArg ∧
      Vector3.New x y z precision = .error .precisionArg := by
    intro h
    have h2 : narrowInt precision > 6 ∨ narrowInt precision < 0 := h.symm
    unfold l_tofix Vector2.New Vector3.New
    simp only [if_pos h2, and_self]
  refine ⟨hrej, ?_, ?_, ?_, rfl, ?_, narrowInt_of_int32 precision, ?_⟩
  · intro hne
    by_contra hc
    exact hne (hrej (by omega)).1
  · intro hne
    by_contra hc
    exact hne (hrej (by omega)).2.1
  · intro hne
    by_contra hc
    exact hne (hrej (by omega)).2.2
  · generalize narrowInt precision = len
    rintro ⟨h0, h6⟩
    obtain ⟨n, rfl⟩ := Int.eq_ofNat_of_zero_le h0
    have hn : n ≤ 6 := by omega
    simp only [Int.toNat_ofNat]
    interval_cases n <;> exact ⟨by decide, rfl, rfl⟩
  · intro hi h
    rw [← narrowInt_of_int32 precision hi] at h
    exact hrej h

/-- Witness of C34 (amended): the precisions `7` and `-1` are rejected by `l_tofix` and by
both constructors, and so is `4294967303`, whose `int` value is `7`; the entry of `_mul` read
for the precision `6` is `10^6`. -/
theorem C34_mul_index_witness :
    (l_tofix (.number 1) 7 = .error .precisionArg ∧
      Vector2.New 1 1 7 = .error .precisionArg ∧
      Vector3.New 1 1 1 7 = .error .precisionArg) ∧
    (l_tofix (.number 1) (-1) = .error .precisionArg ∧
      Vector2.New 1 1 (-1) = .error .precisionArg ∧
      Vector3.New 1 1 1 (-1) = .error .precisionArg) ∧
    (l_tofix (.number 1) 4294967303 = .error .precisionArg ∧
      Vector2.New 1 1 4294967303 = .error .precisionArg ∧
      Vector3.New 1 1 1 4294967303 = .error .precisionArg) ∧
    _mul[(narrowInt 6).toNat]? = some (10 ^ (narrowInt 6).toNat) :=
  ⟨(C34_mul_index 1 1 1 1 7).2.2.2.2.2.2.2 (by decide) (by decide),
    (C34_mul_index 1 1 1 1 (-1)).2.2.2.2.2.2.2 (by decide) (by decide),
    (C34_mul_index 1 1 1 1 4294967303).1 (by decide),
    ((C34_mul_index 1 1 1 1 6).2.2.2.2.2.1 (by decide)).2.1⟩

end FixMath
